import Mathlib

/-!
Verification development for the rust-game repository: a shallow embedding in
Lean 4 of the data model and operations of the game core (geometry primitives,
map builder, ECS with diff-based mutation, event/response protocol, pathfinding,
line of sight and the turn/behavior engine), together with theorems settling
the specification claims about them.

Conventions of the embedding:
* Rust `i32`/`isize` become `Int`; `usize` becomes `Nat`.
* `HashMap K V` becomes an association list `List (K × V)` whose lookup takes
  the first matching entry and whose insert prepends (so the last insert wins);
  `HashSet`/`Vec` become `List`.
* Fallible or panicking code returns `Option` (`none` models a Rust panic).
* Loops whose termination is not structural take an explicit `fuel : Nat`
  argument and return `none` when the fuel runs out; all theorems about them
  are partial-correctness statements conditioned on successful termination.
* Function pointers stored in components (event response callbacks) are
  defunctionalized into a closed enumeration with an interpreter, covering the
  response functions exercised by the claims.
* `thread_rng` draws are abstracted as oracle parameters: a function supplying
  the drawn value at each use, constrained exactly as the sampling code
  constrains it (e.g. a clamped value stays inside its clamp interval).
-/

namespace RustGame

/-! ## Geometry primitives: Coordinate (src/map/utils.rs) -/

/-- Embeds `Coordinate` from src/map/utils.rs: a 2D integer point. -/
structure Coordinate where
  x : Int
  y : Int
deriving DecidableEq, Repr

instance : Inhabited Coordinate := ⟨⟨0, 0⟩⟩

/-- Embeds `impl Add for Coordinate`. -/
def Coordinate.add (a b : Coordinate) : Coordinate := ⟨a.x + b.x, a.y + b.y⟩

instance : Add Coordinate := ⟨Coordinate.add⟩

/-- Embeds `impl Sub for Coordinate`. -/
def Coordinate.sub (a b : Coordinate) : Coordinate := ⟨a.x - b.x, a.y - b.y⟩

instance : Sub Coordinate := ⟨Coordinate.sub⟩

/-- Embeds the `UP` direction constant from src/map/utils.rs. -/
def dirUP : Coordinate := ⟨0, -1⟩
/-- Embeds the `DOWN` direction constant from src/map/utils.rs. -/
def dirDOWN : Coordinate := ⟨0, 1⟩
/-- Embeds the `LEFT` direction constant from src/map/utils.rs. -/
def dirLEFT : Coordinate := ⟨1, 0⟩
/-- Embeds the `RIGHT` direction constant from src/map/utils.rs. -/
def dirRIGHT : Coordinate := ⟨-1, 0⟩

/-- Embeds `reverse_direction` from src/map/utils.rs. -/
def reverseDirection (d : Coordinate) : Coordinate := ⟨-d.x, -d.y⟩

/-- Squared Euclidean distance between two coordinates.  The source computes
`Coordinate::distance` as an `f32` square root; every use in the claims only
compares the distance against a constant threshold, which we express exactly
on integers by comparing the squared distance against the squared threshold. -/
def Coordinate.distSq (a b : Coordinate) : Int :=
  (a.x - b.x) ^ 2 + (a.y - b.y) ^ 2

/-! ## Geometry primitives: BoxExtends (src/map/boxextends.rs) -/

/-- Embeds the `Axis` enum from src/map/mapbuilder.rs. -/
inductive Axis where
  | Horizontal
  | Vertical
deriving DecidableEq, Repr

/-- Embeds `BoxExtends` from src/map/boxextends.rs: an axis-aligned rectangle
with inclusive corner bounds. -/
structure BoxExtends where
  topLeft : Coordinate
  bottomRight : Coordinate
deriving DecidableEq, Repr

instance : Inhabited BoxExtends := ⟨⟨default, default⟩⟩

namespace BoxExtends

/-- Embeds `BoxExtends::contains_point`. -/
def containsPoint (b : BoxExtends) (p : Coordinate) : Bool :=
  b.topLeft.x ≤ p.x ∧ p.x ≤ b.bottomRight.x ∧
  b.topLeft.y ≤ p.y ∧ p.y ≤ b.bottomRight.y

/-- Embeds `BoxExtends::contains`. -/
def contains (b other : BoxExtends) : Bool :=
  b.containsPoint other.topLeft ∧ b.containsPoint other.bottomRight

/-- Embeds `BoxExtends::overlaps`: corner-point containment tests in both
directions. -/
def overlaps (b other : BoxExtends) : Bool :=
  let selfTopRight : Coordinate := ⟨b.bottomRight.x, b.topLeft.y⟩
  let selfBottomLeft : Coordinate := ⟨b.topLeft.x, b.bottomRight.y⟩
  let otherTopRight : Coordinate := ⟨other.bottomRight.x, other.topLeft.y⟩
  let otherBottomLeft : Coordinate := ⟨other.topLeft.x, other.bottomRight.y⟩
  let selfOverlapsOther := b.containsPoint other.topLeft
    || b.containsPoint other.bottomRight
    || b.containsPoint otherTopRight
    || b.containsPoint otherBottomLeft
  let otherOverlapsSelf := other.containsPoint b.topLeft
    || other.containsPoint b.bottomRight
    || other.containsPoint selfTopRight
    || other.containsPoint selfBottomLeft
  selfOverlapsOther || otherOverlapsSelf

/-- Embeds `BoxExtends::get_axis_size`. -/
def getAxisSize (b : BoxExtends) (axis : Axis) : Int :=
  match axis with
  | Axis.Horizontal => b.bottomRight.x - b.topLeft.x + 1
  | Axis.Vertical => b.bottomRight.y - b.topLeft.y + 1

/-- Embeds `BoxExtends::get_area`. -/
def getArea (b : BoxExtends) : Int :=
  (b.bottomRight.x - b.topLeft.x + 1) * (b.bottomRight.y - b.topLeft.y + 1)

/-- Embeds `BoxExtends::get_inner_area`. -/
def getInnerArea (b : BoxExtends) : Int :=
  let innerDeltaX := b.bottomRight.x - b.topLeft.x - 1
  let innerDeltaY := b.bottomRight.y - b.topLeft.y - 1
  if innerDeltaX ≤ 0 ∨ innerDeltaY ≤ 0 then 0
  else innerDeltaX * innerDeltaY

/-- Embeds `BoxExtends::position` (the `Euclidian` impl): the center point,
computed with the truncating integer division of Rust.  All boxes this is
applied to are valid (`topLeft ≤ bottomRight` componentwise), so the deltas
are nonnegative and truncating and flooring division agree. -/
def position (b : BoxExtends) : Coordinate :=
  ⟨(b.bottomRight.x - b.topLeft.x) / 2 + b.topLeft.x,
   (b.bottomRight.y - b.topLeft.y) / 2 + b.topLeft.y⟩

/-- Embeds `BoxExtends::split_box`, parameterized over the random draws.  The
source picks the split axis from one clamped-normal sample compared against
the aspect ratio, and the split offset from another clamped-normal sample in
`[0.35, 0.65]` scaled by the chosen axis length and truncated to `i32`; the
embedding takes the resulting `axis` and absolute `splitPoint` (`split_point`
in the source) as arguments.  For an input of vertical size `n ≥ 1`, the
sampled offset `(rng * n) as i32` lies in `[0, n-1]`, so `splitPoint` lies
between the corresponding `topLeft` and `bottomRight` bounds. -/
def splitBox (area : BoxExtends) (axis : Axis) (splitPoint : Int) :
    BoxExtends × BoxExtends :=
  let left := area.topLeft.x
  let top := area.topLeft.y
  let right := area.bottomRight.x
  let bottom := area.bottomRight.y
  match axis with
  | Axis.Vertical =>
      let upper : BoxExtends := ⟨area.topLeft, ⟨right, splitPoint⟩⟩
      let lower : BoxExtends := ⟨⟨left, splitPoint⟩, area.bottomRight⟩
      (upper, lower)
  | Axis.Horizontal =>
      let leftBox : BoxExtends := ⟨area.topLeft, ⟨splitPoint, bottom⟩⟩
      let rightBox : BoxExtends := ⟨⟨splitPoint, top⟩, area.bottomRight⟩
      (leftBox, rightBox)

/-- Embeds `BoxExtends::make_edge_vicinity_boxes`: the four thin scan
rectangles beyond each side of `area`, inset by `overlap` from the corners. -/
def makeEdgeVicinityBoxes (area : BoxExtends) (scanDistance overlap : Int) :
    List BoxExtends :=
  let above : BoxExtends :=
    ⟨⟨area.topLeft.x + overlap,
      if scanDistance ≤ area.topLeft.y then area.topLeft.y - scanDistance else 0⟩,
     ⟨area.bottomRight.x - overlap, area.topLeft.y⟩⟩
  let below : BoxExtends :=
    ⟨⟨area.topLeft.x + overlap, area.bottomRight.y⟩,
     ⟨area.bottomRight.x - overlap, area.bottomRight.y + scanDistance⟩⟩
  let leftBox : BoxExtends :=
    ⟨⟨if scanDistance ≤ area.topLeft.x then area.topLeft.x - scanDistance else 0,
      area.topLeft.y + overlap⟩,
     ⟨area.topLeft.x, area.bottomRight.y - overlap⟩⟩
  let rightBox : BoxExtends :=
    ⟨⟨area.bottomRight.x, area.topLeft.y + overlap⟩,
     ⟨area.bottomRight.x + scanDistance, area.bottomRight.y - overlap⟩⟩
  [above, below, leftBox, rightBox]

/-- A box is valid when its corners are ordered componentwise. -/
def valid (b : BoxExtends) : Prop :=
  b.topLeft.x ≤ b.bottomRight.x ∧ b.topLeft.y ≤ b.bottomRight.y

instance : DecidablePred valid := fun b => by
  unfold valid; infer_instance

end BoxExtends

/-! ### Claim C6: split_box -/

/-- Claim C6 (counterexample).  The claim states that the two sub-boxes
returned by `BoxExtends::split_box` never overlap, i.e. `BoxExtends::overlaps`
is false for the pair.  For the box from (0,0) to (2,2) split vertically at
the offset 1 (a draw the clamped sampler produces: the clamp interval is
`[0.35, 0.65]` and `(0.35 * 3) as i32 = 1`), the two resulting sub-boxes share
the row y = 1, and `overlaps` returns true on them. -/
theorem c6_split_box_counterexample :
    BoxExtends.overlaps
      (BoxExtends.splitBox ⟨⟨0, 0⟩, ⟨2, 2⟩⟩ Axis.Vertical 1).1
      (BoxExtends.splitBox ⟨⟨0, 0⟩, ⟨2, 2⟩⟩ Axis.Vertical 1).2 = true := by
  decide

/-- Claim C6 (amended).  For every valid input box and every split point
inside the box along the chosen axis, the two sub-boxes returned by
`BoxExtends::split_box` intersect exactly in the shared split boundary line
(so `BoxExtends::overlaps` is true for the pair, not false), and their union
covers exactly the set of integer points of the input box. -/
theorem c6_split_box_partition (area : BoxExtends) (axis : Axis) (sp : Int)
    (hv : area.valid)
    (hsp : match axis with
      | Axis.Vertical => area.topLeft.y ≤ sp ∧ sp ≤ area.bottomRight.y
      | Axis.Horizontal => area.topLeft.x ≤ sp ∧ sp ≤ area.bottomRight.x) :
    let parts := BoxExtends.splitBox area axis sp
    (∀ p : Coordinate,
      (parts.1.containsPoint p ∨ parts.2.containsPoint p) ↔
        area.containsPoint p) ∧
    (∀ p : Coordinate,
      (parts.1.containsPoint p ∧ parts.2.containsPoint p) ↔
        (area.containsPoint p ∧
          (match axis with
            | Axis.Vertical => p.y = sp
            | Axis.Horizontal => p.x = sp))) ∧
    BoxExtends.overlaps parts.1 parts.2 = true := by
  obtain ⟨hvx, hvy⟩ := hv
  cases axis with
  | Vertical =>
      obtain ⟨h1, h2⟩ := hsp
      refine ⟨?_, ?_, ?_⟩
      · intro p
        simp only [BoxExtends.splitBox, BoxExtends.containsPoint,
          decide_eq_true_eq]
        omega
      · intro p
        simp only [BoxExtends.splitBox, BoxExtends.containsPoint,
          decide_eq_true_eq]
        omega
      · simp only [BoxExtends.splitBox, BoxExtends.overlaps,
          BoxExtends.containsPoint, Bool.or_eq_true, decide_eq_true_eq]
        omega
  | Horizontal =>
      obtain ⟨h1, h2⟩ := hsp
      refine ⟨?_, ?_, ?_⟩
      · intro p
        simp only [BoxExtends.splitBox, BoxExtends.containsPoint,
          decide_eq_true_eq]
        omega
      · intro p
        simp only [BoxExtends.splitBox, BoxExtends.containsPoint,
          decide_eq_true_eq]
        omega
      · simp only [BoxExtends.splitBox, BoxExtends.overlaps,
          BoxExtends.containsPoint, Bool.or_eq_true, decide_eq_true_eq]
        omega

/-- Claim C6 witness: the amended partition theorem applied to the concrete
box from (0,0) to (2,2) split vertically at 1. -/
theorem c6_split_box_partition_witness :
    (∀ p : Coordinate,
      ((BoxExtends.splitBox ⟨⟨0, 0⟩, ⟨2, 2⟩⟩ Axis.Vertical 1).1.containsPoint p ∨
       (BoxExtends.splitBox ⟨⟨0, 0⟩, ⟨2, 2⟩⟩ Axis.Vertical 1).2.containsPoint p) ↔
        BoxExtends.containsPoint ⟨⟨0, 0⟩, ⟨2, 2⟩⟩ p) ∧
    (∀ p : Coordinate,
      ((BoxExtends.splitBox ⟨⟨0, 0⟩, ⟨2, 2⟩⟩ Axis.Vertical 1).1.containsPoint p ∧
       (BoxExtends.splitBox ⟨⟨0, 0⟩, ⟨2, 2⟩⟩ Axis.Vertical 1).2.containsPoint p) ↔
        (BoxExtends.containsPoint ⟨⟨0, 0⟩, ⟨2, 2⟩⟩ p ∧ p.y = 1)) ∧
    BoxExtends.overlaps
      (BoxExtends.splitBox ⟨⟨0, 0⟩, ⟨2, 2⟩⟩ Axis.Vertical 1).1
      (BoxExtends.splitBox ⟨⟨0, 0⟩, ⟨2, 2⟩⟩ Axis.Vertical 1).2 = true :=
  c6_split_box_partition ⟨⟨0, 0⟩, ⟨2, 2⟩⟩ Axis.Vertical 1
    (by constructor <;> decide) (by constructor <;> decide)

/-! ## Tile registry (src/map/tile.rs) -/

/-- Embeds `ImageData` from src/game/components/core.rs. -/
structure ImageData where
  id : Int
  depth : Int
deriving DecidableEq, Repr

instance : Inhabited ImageData := ⟨⟨0, 0⟩⟩

/-- Embeds `ImageData::new`. -/
def ImageData.new (id : Int) : ImageData := ⟨id, 5⟩

/-- Embeds `RootTile` from src/map/tile.rs. -/
structure RootTile where
  image : ImageData
  passable : Bool
  losBlocking : Bool
deriving DecidableEq, Repr

/-- Embeds the static `TILE_REGISTRY` table from src/map/tile.rs, keyed by
`TileID.index`. -/
def tileRegistry (index : Nat) : Option RootTile :=
  match index with
  | 0 => some ⟨⟨0, 10⟩, true, false⟩
  | 1 => some ⟨⟨1, 10⟩, true, false⟩
  | 2 => some ⟨⟨2, 10⟩, false, true⟩
  | 3 => some ⟨⟨5, 10⟩, true, false⟩
  | 4 => some ⟨⟨4, 10⟩, false, true⟩
  | 5 => some ⟨⟨6, 10⟩, false, true⟩
  | _ => none

/-- Embeds `FLOOR_TILE_ID` (TileID index 0). -/
def FLOOR_TILE_ID : Nat := 0
/-- Embeds `WALL_TILE_ID` (TileID index 2). -/
def WALL_TILE_ID : Nat := 2

/-- Embeds `GameTile` from src/map/tile.rs (the `TileID` newtype is inlined
as the raw index). -/
structure GameTile where
  rootTile : Nat
deriving DecidableEq, Repr

/-- Embeds `GameTile::is_empty`.  The source `expect`s the registry lookup, so
an unregistered tile id panics, modeled as `none`. -/
def GameTile.isEmpty (t : GameTile) : Option Bool :=
  (tileRegistry t.rootTile).map (fun root => root.passable)

/-- Embeds `GameTile::is_los_blocking` (panics on unregistered ids). -/
def GameTile.isLosBlocking (t : GameTile) : Option Bool :=
  (tileRegistry t.rootTile).map (fun root => root.losBlocking)

/-! ## Rooms and the room graph (src/map/boxextends.rs, src/map/mapbuilder.rs) -/

/-- Embeds `Room` from src/map/boxextends.rs: extends plus an optional spawn
table and recorded door locations. -/
structure Room where
  extends_ : BoxExtends
  spawnTable : Option (List (String × (Nat × Nat)))
  doorLocations : List Coordinate
deriving DecidableEq, Repr

instance : Inhabited Room := ⟨⟨default, none, []⟩⟩

/-- Embeds `Room::new`. -/
def Room.new (extends_ : BoxExtends) : Room := ⟨extends_, none, []⟩

/-- Embeds the petgraph `Graph<Room, (), Undirected>` (`RoomGraph` in
src/map/mapbuilder.rs): nodes in insertion order, each undirected edge stored
once as the ordered pair of node indices passed to `add_edge`. -/
structure RoomGraphL where
  nodes : List Room
  edges : List (Nat × Nat)
deriving DecidableEq, Repr

/-! ## GameMap (src/map/gamemap.rs) -/

/-- Embeds `GameMap` from src/map/gamemap.rs.  The coordinate-to-tile hash map
is an association list whose most recent insert shadows earlier entries. -/
structure GameMap where
  map : List (Coordinate × GameTile)
  explored : List Coordinate
  graph : RoomGraphL
  width : Nat
  height : Nat
  depth : Nat
deriving DecidableEq, Repr

/-- First-match association-list lookup, the embedding of `HashMap::get`. -/
def lookupTile : List (Coordinate × GameTile) → Coordinate → Option GameTile
  | [], _ => none
  | (k, v) :: rest, c => if k = c then some v else lookupTile rest c

/-- Embeds `GameMap::get_game_tile`. -/
def GameMap.getGameTile (m : GameMap) (c : Coordinate) : Option GameTile :=
  lookupTile m.map c

/-- Embeds `GameMap::set_game_tile` (`HashMap::insert` becomes a shadowing
prepend). -/
def GameMap.setGameTile (m : GameMap) (c : Coordinate) (t : GameTile) : GameMap :=
  { m with map := (c, t) :: m.map }

/-- Embeds `GameMap::is_tile_passable` (`none` models the panic inside
`GameTile::is_empty` on an unregistered tile id; a missing tile is `false`). -/
def GameMap.isTilePassable (m : GameMap) (c : Coordinate) : Option Bool :=
  match m.getGameTile c with
  | some t => t.isEmpty
  | none => some false

/-- Embeds `GameMap::create_empty`. -/
def GameMap.createEmpty (width height : Nat) : GameMap :=
  ⟨[], [], ⟨[], []⟩, width, height, 0⟩

/-- The half-open integer range `a..b` of Rust as a list. -/
def intRange (a b : Int) : List Int :=
  (List.range (b - a).toNat).map (fun (i : Nat) => a + (i : Int))

/-! ## Door placement (src/map/mapbuilder.rs) -/

/-- Embeds one short-circuit conjunction
`!map.is_tile_passable(c1) && !map.is_tile_passable(c2)` from
`MapBuilder::check_door_conditions`: when it holds the function returns
`true`, otherwise it falls through to the continuation `k`.  The second
operand is only consulted when the first is impassable, mirroring Rust's
short-circuit evaluation (relevant to panic propagation). -/
def bothBlocked (map : GameMap) (c1 c2 : Coordinate) (k : Option Bool) :
    Option Bool :=
  match map.isTilePassable c1 with
  | none => none
  | some true => k
  | some false =>
      match map.isTilePassable c2 with
      | none => none
      | some true => k
      | some false => some true

/-- Embeds `MapBuilder::check_door_conditions`: a passable tile flanked by an
axis-aligned pair of blocking tiles (vertical pair checked first, then the
horizontal pair). -/
def checkDoorConditions (coord : Coordinate) (map : GameMap) : Option Bool :=
  match map.isTilePassable coord with
  | none => none
  | some false => some false
  | some true =>
      bothBlocked map (coord + (⟨0, 1⟩ : Coordinate)) (coord + (⟨0, -1⟩ : Coordinate))
        (bothBlocked map (coord + (⟨1, 0⟩ : Coordinate)) (coord + (⟨-1, 0⟩ : Coordinate))
          (some false))

/-- One iteration of a wall scan in `MapBuilder::add_doors_to_rooms`: at scan
position `t` the two opposite wall coordinates `mk1 t` and `mk2 t` are tested
with `check_door_conditions` and appended to the accumulated door list in
order when the test succeeds. -/
def doorScanStep (map : GameMap) (mk1 mk2 : Int → Coordinate)
    (acc : List Coordinate) (t : Int) : Option (List Coordinate) := do
  let b1 ← checkDoorConditions (mk1 t) map
  let acc := if b1 then acc ++ [mk1 t] else acc
  let b2 ← checkDoorConditions (mk2 t) map
  pure (if b2 then acc ++ [mk2 t] else acc)

/-- A whole wall scan: `doorScanStep` folded over the scan range. -/
def doorScan (map : GameMap) (mk1 mk2 : Int → Coordinate) (range : List Int)
    (acc : List Coordinate) : Option (List Coordinate) :=
  range.foldlM (doorScanStep map mk1 mk2) acc

/-- Door-location scan for one room in `MapBuilder::add_doors_to_rooms`:
the horizontal walls are scanned for `x` in `left+1..right` (top coordinate
then bottom coordinate), then the vertical walls for `y` in `top+1..bottom`
(left coordinate then right coordinate). -/
def roomDoorLocations (room : Room) (map : GameMap) : Option (List Coordinate) := do
  let left := room.extends_.topLeft.x
  let top := room.extends_.topLeft.y
  let right := room.extends_.bottomRight.x
  let bottom := room.extends_.bottomRight.y
  let horiz ← doorScan map (fun x => ⟨x, top⟩) (fun x => ⟨x, bottom⟩)
    (intRange (left + 1) right) []
  doorScan map (fun y => ⟨left, y⟩) (fun y => ⟨right, y⟩)
    (intRange (top + 1) bottom) horiz

/-- Embeds `MapBuilder::add_doors_to_rooms`: rebuilds the room graph with the
scanned door locations recorded on each room (edges and all other room data
unchanged). -/
def addDoorsToRooms (map : GameMap) : Option GameMap := do
  let nodes2 ← map.graph.nodes.mapM (fun room => do
    let doors ← roomDoorLocations room map
    pure { room with doorLocations := doors })
  pure { map with graph := { nodes := nodes2, edges := map.graph.edges } }

/-! ### Claim C5: door placement -/

/-- A successful positive door test means the tile is passable and at least
one axis-aligned neighbor pair is impassable. -/
theorem checkDoorConditions_true {c : Coordinate} {map : GameMap}
    (h : checkDoorConditions c map = some true) :
    map.isTilePassable c = some true ∧
    ((map.isTilePassable (c + (⟨0, 1⟩ : Coordinate)) = some false ∧
      map.isTilePassable (c + (⟨0, -1⟩ : Coordinate)) = some false) ∨
     (map.isTilePassable (c + (⟨1, 0⟩ : Coordinate)) = some false ∧
      map.isTilePassable (c + (⟨-1, 0⟩ : Coordinate)) = some false)) := by
  unfold checkDoorConditions at h
  cases h0 : map.isTilePassable c with
  | none => rw [h0] at h; exact absurd h (by simp)
  | some p =>
      rw [h0] at h
      cases p with
      | false => exact absurd h (by simp)
      | true =>
          refine ⟨rfl, ?_⟩
          unfold bothBlocked at h
          cases hv1 : map.isTilePassable (c + (⟨0, 1⟩ : Coordinate)) <;>
            rw [hv1] at h
          · exact absurd h (by simp)
          · rename_i pv1
            cases pv1 with
            | false =>
                cases hv2 : map.isTilePassable (c + (⟨0, -1⟩ : Coordinate)) <;>
                  rw [hv2] at h
                · exact absurd h (by simp)
                · rename_i pv2
                  cases pv2 with
                  | false => exact Or.inl ⟨rfl, rfl⟩
                  | true =>
                      refine Or.inr ?_
                      cases hh1 : map.isTilePassable (c + (⟨1, 0⟩ : Coordinate)) <;>
                        rw [hh1] at h
                      · exact absurd h (by simp)
                      · rename_i ph1
                        cases ph1 with
                        | false =>
                            cases hh2 : map.isTilePassable (c + (⟨-1, 0⟩ : Coordinate)) <;>
                              rw [hh2] at h
                            · exact absurd h (by simp)
                            · rename_i ph2
                              cases ph2 with
                              | false => exact ⟨rfl, rfl⟩
                              | true => exact absurd h (by simp)
                        | true => exact absurd h (by simp)
            | true =>
                refine Or.inr ?_
                cases hh1 : map.isTilePassable (c + (⟨1, 0⟩ : Coordinate)) <;>
                  rw [hh1] at h
                · exact absurd h (by simp)
                · rename_i ph1
                  cases ph1 with
                  | false =>
                      cases hh2 : map.isTilePassable (c + (⟨-1, 0⟩ : Coordinate)) <;>
                        rw [hh2] at h
                      · exact absurd h (by simp)
                      · rename_i ph2
                        cases ph2 with
                        | false => exact ⟨rfl, rfl⟩
                        | true => exact absurd h (by simp)
                  | true => exact absurd h (by simp)

/-- Every coordinate emitted by a wall scan either was already accumulated or
passed the door test. -/
theorem doorScan_mem {map : GameMap} {mk1 mk2 : Int → Coordinate}
    (range : List Int) (acc out : List Coordinate)
    (h : doorScan map mk1 mk2 range acc = some out) :
    ∀ c ∈ out, c ∈ acc ∨ checkDoorConditions c map = some true := by
  induction range generalizing acc with
  | nil =>
      simp only [doorScan, List.foldlM_nil, Option.pure_def, Option.some_inj] at h
      subst h
      exact fun c hc => Or.inl hc
  | cons t rest ih =>
      simp only [doorScan, List.foldlM_cons] at h
      cases hstep : doorScanStep map mk1 mk2 acc t with
      | none => rw [hstep] at h; exact absurd h (by simp)
      | some acc2 =>
          rw [hstep] at h
          intro c hc
          have hmem := ih acc2 h c hc
          cases hmem with
          | inr hck => exact Or.inr hck
          | inl hacc2 =>
              unfold doorScanStep at hstep
              cases h1 : checkDoorConditions (mk1 t) map <;> rw [h1] at hstep
              · exact absurd hstep (by simp)
              · rename_i b1
                cases h2 : checkDoorConditions (mk2 t) map <;> rw [h2] at hstep
                · exact absurd hstep (by simp)
                · rename_i b2
                  simp only [Option.bind_eq_bind, Option.some_bind, Option.pure_def,
                    Option.some_inj] at hstep
                  subst hstep
                  cases b2 with
                  | true =>
                      rcases List.mem_append.mp hacc2 with hmem1 | hmem1
                      · cases b1 with
                        | true =>
                            rcases List.mem_append.mp hmem1 with hmem2 | hmem2
                            · exact Or.inl hmem2
                            · simp only [List.mem_singleton] at hmem2
                              subst hmem2; exact Or.inr h1
                        | false => exact Or.inl hmem1
                      · simp only [List.mem_singleton] at hmem1
                        subst hmem1; exact Or.inr h2
                  | false =>
                      cases b1 with
                      | true =>
                          rcases List.mem_append.mp hacc2 with hmem2 | hmem2
                          · exact Or.inl hmem2
                          · simp only [List.mem_singleton] at hmem2
                            subst hmem2; exact Or.inr h1
                      | false => exact Or.inl hacc2

/-- A successful `Option`-valued `mapM` maps members to members. -/
theorem mapM_mem {α β : Type} (f : α → Option β) :
    ∀ (xs : List α) (ys : List β), xs.mapM f = some ys →
      ∀ y ∈ ys, ∃ x ∈ xs, f x = some y := by
  intro xs
  induction xs with
  | nil =>
      intro ys h
      simp only [List.mapM_nil, Option.pure_def, Option.some_inj] at h
      subst h
      intro y hy; exact absurd hy (by simp)
  | cons x rest ih =>
      intro ys h
      simp only [List.mapM_cons] at h
      cases hx : f x with
      | none => rw [hx] at h; exact absurd h (by simp)
      | some y0 =>
          rw [hx] at h
          cases hrest : rest.mapM f with
          | none => rw [hrest] at h; exact absurd h (by simp)
          | some ys0 =>
              rw [hrest] at h
              simp only [Option.bind_eq_bind, Option.some_bind, Option.pure_def,
                Option.some_inj] at h
              subst h
              intro y hy
              rcases List.mem_cons.mp hy with hy0 | hy0
              · exact ⟨x, List.mem_cons_self x rest, hy0 ▸ hx⟩
              · obtain ⟨x0, hx0, hfx0⟩ := ih ys0 hrest y hy0
                exact ⟨x0, List.mem_cons_of_mem x hx0, hfx0⟩

/-- Claim C5 (amended).  Every door coordinate recorded by
`MapBuilder::add_doors_to_rooms` is a passable tile that has at least one
axis (horizontal or vertical) along which both of its two neighbors are
blocking tiles; it need not be exactly one axis, because
`check_door_conditions` accepts a tile whose neighbors block along both
axes. -/
theorem c5_recorded_doors_are_pinch_points (map m2 : GameMap)
    (h : addDoorsToRooms map = some m2) :
    ∀ room ∈ m2.graph.nodes, ∀ c ∈ room.doorLocations,
      map.isTilePassable c = some true ∧
      ((map.isTilePassable (c + (⟨0, 1⟩ : Coordinate)) = some false ∧
        map.isTilePassable (c + (⟨0, -1⟩ : Coordinate)) = some false) ∨
       (map.isTilePassable (c + (⟨1, 0⟩ : Coordinate)) = some false ∧
        map.isTilePassable (c + (⟨-1, 0⟩ : Coordinate)) = some false)) := by
  intro room hroom c hc
  unfold addDoorsToRooms at h
  cases hn : map.graph.nodes.mapM
      (fun room => do
        let doors ← roomDoorLocations room map
        pure { room with doorLocations := doors }) with
  | none => rw [hn] at h; exact absurd h (by simp)
  | some nodes2 =>
      rw [hn] at h
      simp only [Option.bind_eq_bind, Option.some_bind, Option.pure_def, Option.some_inj] at h
      have hroom2 : room ∈ nodes2 := by
        have : m2.graph.nodes = nodes2 := by rw [← h]
        rw [this] at hroom; exact hroom
      obtain ⟨r0, _, hr0⟩ := mapM_mem _ map.graph.nodes nodes2 hn room hroom2
      cases hd : roomDoorLocations r0 map with
      | none => rw [hd] at hr0; exact absurd hr0 (by simp)
      | some doors =>
          rw [hd] at hr0
          simp only [Option.bind_eq_bind, Option.some_bind, Option.pure_def, Option.some_inj] at hr0
          have hcd : c ∈ doors := by
            have : room.doorLocations = doors := by rw [← hr0]
            rw [this] at hc; exact hc
          unfold roomDoorLocations at hd
          simp only [] at hd
          cases hh : doorScan map (fun x => ⟨x, r0.extends_.topLeft.y⟩)
              (fun x => ⟨x, r0.extends_.bottomRight.y⟩)
              (intRange (r0.extends_.topLeft.x + 1) r0.extends_.bottomRight.x) [] with
          | none => rw [hh] at hd; exact absurd hd (by simp)
          | some horiz =>
              rw [hh] at hd
              simp only [Option.bind_eq_bind, Option.some_bind] at hd
              have hmem := doorScan_mem _ _ _ hd c hcd
              cases hmem with
              | inr hck => exact checkDoorConditions_true hck
              | inl hhoriz =>
                  have hmem2 := doorScan_mem _ _ _ hh c hhoriz
                  cases hmem2 with
                  | inr hck => exact checkDoorConditions_true hck
                  | inl habs => exact absurd habs (by simp)

/-- The concrete map used to settle claim C5: a single 3-by-3 room whose top
wall has a floor tile at (1,0) surrounded by wall tiles in all four cardinal
directions. -/
def c5Map : GameMap :=
  { map := [(⟨1, 0⟩, ⟨FLOOR_TILE_ID⟩), (⟨1, -1⟩, ⟨WALL_TILE_ID⟩),
            (⟨1, 1⟩, ⟨WALL_TILE_ID⟩), (⟨0, 0⟩, ⟨WALL_TILE_ID⟩),
            (⟨2, 0⟩, ⟨WALL_TILE_ID⟩)],
    explored := [],
    graph := { nodes := [Room.new ⟨⟨0, 0⟩, ⟨2, 2⟩⟩], edges := [] },
    width := 3, height := 3, depth := 1 }

/-- The result of `add_doors_to_rooms` on `c5Map`: the single door (1,0) is
recorded. -/
def c5MapWithDoors : GameMap :=
  { c5Map with
    graph := { nodes := [{ Room.new ⟨⟨0, 0⟩, ⟨2, 2⟩⟩ with
                           doorLocations := [⟨1, 0⟩] }],
               edges := [] } }

/-- Claim C5 (counterexample).  The claim says every recorded door coordinate
has exactly one axis along which both neighbors are blocking.  On `c5Map`,
`add_doors_to_rooms` records the door (1,0) even though BOTH its vertical
neighbor pair and its horizontal neighbor pair are blocking, so the axis is
not unique. -/
theorem c5_exactly_one_axis_counterexample :
    addDoorsToRooms c5Map = some c5MapWithDoors ∧
    (c5MapWithDoors.graph.nodes.map (fun r => r.doorLocations)) = [[⟨1, 0⟩]] ∧
    c5Map.isTilePassable ⟨1, 0⟩ = some true ∧
    c5Map.isTilePassable ⟨1, 1⟩ = some false ∧
    c5Map.isTilePassable ⟨1, -1⟩ = some false ∧
    c5Map.isTilePassable ⟨2, 0⟩ = some false ∧
    c5Map.isTilePassable ⟨0, 0⟩ = some false := by
  refine ⟨?_, by decide, by decide, by decide, by decide, by decide, by decide⟩
  decide

/-- Claim C5 witness: the amended theorem applied to `c5Map` and its recorded
door (1,0). -/
theorem c5_recorded_doors_witness :
    c5Map.isTilePassable ⟨1, 0⟩ = some true ∧
    ((c5Map.isTilePassable ((⟨1, 0⟩ : Coordinate) + (⟨0, 1⟩ : Coordinate)) = some false ∧
      c5Map.isTilePassable ((⟨1, 0⟩ : Coordinate) + (⟨0, -1⟩ : Coordinate)) = some false) ∨
     (c5Map.isTilePassable ((⟨1, 0⟩ : Coordinate) + (⟨1, 0⟩ : Coordinate)) = some false ∧
      c5Map.isTilePassable ((⟨1, 0⟩ : Coordinate) + (⟨-1, 0⟩ : Coordinate)) = some false)) :=
  c5_recorded_doors_are_pinch_points c5Map c5MapWithDoors (by decide)
    { Room.new ⟨⟨0, 0⟩, ⟨2, 2⟩⟩ with doorLocations := [⟨1, 0⟩] }
    (by decide) ⟨1, 0⟩ (by decide)

/-! ## Map builder pipeline (src/map/mapbuilder.rs) -/

/-- The inclusive integer range `a..=b` of Rust as a list. -/
def intRangeIncl (a b : Int) : List Int := intRange a (b + 1)

/-- Embeds `MapBuilder::draw_room`: rasterize one room, wall ring around a
floor interior, iterating `x` over `left..=right` and, inside, `y` over
`(top+1)..bottom`. -/
def drawRoom (roomBox : BoxExtends) (map : GameMap) : GameMap :=
  let left := roomBox.topLeft.x
  let top := roomBox.topLeft.y
  let right := roomBox.bottomRight.x
  let bottom := roomBox.bottomRight.y
  (intRangeIncl left right).foldl
    (fun m x =>
      let m := m.setGameTile ⟨x, top⟩ ⟨WALL_TILE_ID⟩
      let m := m.setGameTile ⟨x, bottom⟩ ⟨WALL_TILE_ID⟩
      (intRange (top + 1) bottom).foldl
        (fun m y =>
          if x = left ∨ x = right then m.setGameTile ⟨x, y⟩ ⟨WALL_TILE_ID⟩
          else m.setGameTile ⟨x, y⟩ ⟨FLOOR_TILE_ID⟩)
        m)
    map

/-- One iteration of `MapBuilder::draw_vertical_corridor` at row `y` of the
column `x`: an existing wall becomes floor, any other existing tile is kept,
and an unclaimed tile becomes floor with wall tiles written unconditionally to
its left and right neighbors. -/
def drawVerticalStep (x : Int) (m : GameMap) (y : Int) : GameMap :=
  match m.getGameTile ⟨x, y⟩ with
  | some t =>
      if t.rootTile = WALL_TILE_ID then m.setGameTile ⟨x, y⟩ ⟨FLOOR_TILE_ID⟩
      else m
  | none =>
      let m := m.setGameTile ⟨x, y⟩ ⟨FLOOR_TILE_ID⟩
      let m := m.setGameTile ⟨x - 1, y⟩ ⟨WALL_TILE_ID⟩
      m.setGameTile ⟨x + 1, y⟩ ⟨WALL_TILE_ID⟩

/-- Embeds `MapBuilder::draw_vertical_corridor`. -/
def drawVerticalCorridor (start stop : Coordinate) (map : GameMap) : GameMap :=
  let lowY := if start.y < stop.y then start.y else stop.y
  let highY := if start.y < stop.y then stop.y else start.y
  (intRangeIncl lowY highY).foldl (drawVerticalStep start.x) map

/-- One iteration of `MapBuilder::draw_horizontal_corridor` at column `x` of
the row `y`. -/
def drawHorizontalStep (y : Int) (m : GameMap) (x : Int) : GameMap :=
  match m.getGameTile ⟨x, y⟩ with
  | some t =>
      if t.rootTile = WALL_TILE_ID then m.setGameTile ⟨x, y⟩ ⟨FLOOR_TILE_ID⟩
      else m
  | none =>
      let m := m.setGameTile ⟨x, y⟩ ⟨FLOOR_TILE_ID⟩
      let m := m.setGameTile ⟨x, y - 1⟩ ⟨WALL_TILE_ID⟩
      m.setGameTile ⟨x, y + 1⟩ ⟨WALL_TILE_ID⟩

/-- Embeds `MapBuilder::draw_horizontal_corridor`. -/
def drawHorizontalCorridor (start stop : Coordinate) (map : GameMap) : GameMap :=
  let lowX := if start.x < stop.x then start.x else stop.x
  let highX := if start.x < stop.x then stop.x else start.x
  (intRangeIncl lowX highX).foldl (drawHorizontalStep start.y) map

/-- The interior x-range `top_left.x + 1 .. bottom_right.x` of a box, as used
by `MapBuilder::draw_path_between_rooms`. -/
def interiorXRange (b : BoxExtends) : List Int :=
  intRange (b.topLeft.x + 1) b.bottomRight.x

/-- The interior y-range `top_left.y + 1 .. bottom_right.y` of a box. -/
def interiorYRange (b : BoxExtends) : List Int :=
  intRange (b.topLeft.y + 1) b.bottomRight.y

/-- Embeds `MapBuilder::draw_path_between_rooms`.  The source stores the two
interior ranges in `HashSet`s and picks `iter().next().unwrap()` of their
intersection, an unspecified element; the embedding picks the first element of
the intersection in ascending order of box `a`'s range.  When the rooms share
neither an interior x-range nor an interior y-range, no corridor at all is
drawn (the silent `else` branch of the source). -/
def drawPathBetweenRooms (map : GameMap) (boxA boxB : BoxExtends) : GameMap :=
  let xOverlap := (interiorXRange boxA).filter (fun v => v ∈ interiorXRange boxB)
  match xOverlap with
  | cx :: _ =>
      drawVerticalCorridor ⟨cx, boxA.position.y⟩ ⟨cx, boxB.position.y⟩ map
  | [] =>
      let yOverlap := (interiorYRange boxA).filter (fun v => v ∈ interiorYRange boxB)
      match yOverlap with
      | cy :: _ =>
          drawHorizontalCorridor ⟨boxA.position.x, cy⟩ ⟨boxB.position.x, cy⟩ map
      | [] => map

/-- The base map of `MapBuilder::draw_rooms_to_map`: an empty map carrying the
graph and depth, with every room's walls and floor drawn in node order. -/
def roomsMapBase (graph : RoomGraphL) (sizeX sizeY depth : Nat) : GameMap :=
  let m0 := { GameMap.createEmpty sizeX sizeY with graph := graph, depth := depth }
  graph.nodes.foldl (fun m room => drawRoom room.extends_ m) m0

/-- One corridor-drawing step of `MapBuilder::draw_rooms_to_map` for the edge
`e` (missing node indices draw nothing; the pipeline never produces them). -/
def drawEdgeStep (nodes : List Room) (m : GameMap) (e : Nat × Nat) : GameMap :=
  match nodes.get? e.1, nodes.get? e.2 with
  | some ra, some rb => drawPathBetweenRooms m ra.extends_ rb.extends_
  | _, _ => m

/-- The map after the first `k` corridors of the edge list are drawn. -/
def drawCorridorsPrefix (graph : RoomGraphL) (m0 : GameMap) (k : Nat) : GameMap :=
  (graph.edges.take k).foldl (drawEdgeStep graph.nodes) m0

/-- Embeds `MapBuilder::draw_rooms_to_map`: all rooms, then all corridors in
edge order. -/
def drawRoomsToMap (graph : RoomGraphL) (sizeX sizeY depth : Nat) : GameMap :=
  drawCorridorsPrefix graph (roomsMapBase graph sizeX sizeY depth)
    graph.edges.length

/-- Embeds `MapBuilder::prune_small_rooms`: rebuild the graph keeping only
rooms with inner area above the threshold; the new graph has no edges. -/
def pruneSmallRooms (graph : RoomGraphL) (threshold : Int) : RoomGraphL :=
  { nodes := graph.nodes.filter (fun room => threshold < room.extends_.getInnerArea),
    edges := [] }

/-- Neighbor indices of node `i` in the edge list (each incident edge
contributes its far endpoint, in edge-list order). -/
def graphNeighbors (edges : List (Nat × Nat)) (i : Nat) : List Nat :=
  edges.filterMap (fun e =>
    if e.1 = i then some e.2 else if e.2 = i then some e.1 else none)

/-- The neighbor scan of one iteration of `MapBuilder::make_connected_graph`:
the still unprocessed nodes (at or beyond the iterator cursor `pos`) whose
extends overlap one of the current node's edge-vicinity collision boxes and
which are not yet closed. -/
def mcgNeighbors (nodes : List Room) (maxScanDistance : Int) (pos current : Nat)
    (closed2 : List Nat) : List Nat :=
  let currentBox := (nodes.getD current default).extends_
  let collisionBoxes := BoxExtends.makeEdgeVicinityBoxes currentBox maxScanDistance 2
  let candidates := (List.range nodes.length).drop pos
  candidates.filter (fun j =>
    (collisionBoxes.any (fun box => (nodes.getD j default).extends_.overlaps box))
      && !(closed2.contains j))

/-- The open/closed-list walk of `MapBuilder::make_connected_graph` itself.
The state is the cursor `pos` into the lazily consumed `unprocessed` node
iterator, the `opened` stack (`Vec::pop` takes the last element, `extend`
appends), the `closed` list and the edge list built so far; cloning the
partially consumed iterator makes the neighbor candidates exactly the node
indices at or beyond the cursor. -/
def mcgLoop (nodes : List Room) (maxScanDistance : Int) :
    Nat → Nat → List Nat → List Nat → List (Nat × Nat) →
      Option (List (Nat × Nat))
  | 0, _, _, _, _ => none
  | fuel + 1, pos, opened, closed, edges =>
      match opened.getLast? with
      | some current =>
          let closed2 := closed ++ [current]
          let neighbors := mcgNeighbors nodes maxScanDistance pos current closed2
          mcgLoop nodes maxScanDistance fuel pos
            (opened.dropLast ++ neighbors) closed2
            (edges ++ neighbors.map (fun j => (current, j)))
      | none =>
          if pos < nodes.length then
            let closed2 := closed ++ [pos]
            let neighbors := mcgNeighbors nodes maxScanDistance (pos + 1) pos closed2
            mcgLoop nodes maxScanDistance fuel (pos + 1)
              (neighbors) closed2
              (edges ++ neighbors.map (fun j => (pos, j)))
          else
            some edges

/-- Embeds `MapBuilder::make_connected_graph`: same nodes, original edges
cleared, new edges between geographic neighbors discovered by the walk. -/
def makeConnectedGraph (graph : RoomGraphL) (maxScanDistance : Int)
    (fuel : Nat) : Option RoomGraphL := do
  let edges ← mcgLoop graph.nodes maxScanDistance fuel 0 [] [] []
  pure { nodes := graph.nodes, edges := edges }

/-- Remove the first occurrence of the undirected edge `(a, b)` (stored in
either orientation) from the edge list, the embedding of
`Graph::find_edge` followed by `Graph::remove_edge`; `none` when the edge is
absent (`find_edge(..).unwrap()` panics). -/
def removeEdge : List (Nat × Nat) → Nat → Nat → Option (List (Nat × Nat))
  | [], _, _ => none
  | e :: rest, a, b =>
      if (e.1 = a ∧ e.2 = b) ∨ (e.1 = b ∧ e.2 = a) then some rest
      else (removeEdge rest a b).map (fun r => e :: r)

/-- Label-propagation count of connected components over the node indices,
the embedding of `petgraph::algo::connected_components`: every node starts in
its own component and every edge merges the two endpoint labels. -/
def mergeLabels : List (Nat × Nat) → List Nat → List Nat
  | [], labels => labels
  | (a, b) :: rest, labels =>
      let la := labels.getD a 0
      let lb := labels.getD b 0
      mergeLabels rest (labels.map (fun l => if l = lb then la else l))

/-- Embeds `petgraph::algo::connected_components` on the embedded graph. -/
def islands (graph : RoomGraphL) : Nat :=
  (mergeLabels graph.edges (List.range graph.nodes.length)).dedup.length

/-- One node's processing in `MapBuilder::prune_edges`: if the node's degree
reaches the threshold, drop the edge to its best-connected neighbor (the
`reduce` over its neighbor list comparing degrees in the original graph),
unless that would break single-component connectivity, in which case the edge
is put back. -/
def pruneEdgesStep (origGraph : RoomGraphL) (edgeThreshold : Nat)
    (edges : List (Nat × Nat)) (room : Nat) : Option (List (Nat × Nat)) :=
  let neighborCount := (graphNeighbors edges room).length
  if neighborCount < edgeThreshold then some edges
  else
    match graphNeighbors edges room with
    | [] => none
    | first :: rest =>
        let best := rest.foldl
          (fun best new =>
            if (graphNeighbors origGraph.edges new).length ≤
                (graphNeighbors origGraph.edges best).length
            then best else new)
          first
        match removeEdge edges room best with
        | none => none
        | some edges2 =>
            if islands { nodes := origGraph.nodes, edges := edges2 } ≠ 1 then
              some (edges2 ++ [(room, best)])
            else
              some edges2

/-- Embeds `MapBuilder::prune_edges`: the node-index loop threaded over the
evolving edge list. -/
def pruneEdges (graph : RoomGraphL) (edgeThreshold : Nat) : Option RoomGraphL := do
  let edges ← (List.range graph.nodes.length).foldlM
    (pruneEdgesStep graph edgeThreshold) graph.edges
  pure { nodes := graph.nodes, edges := edges }

/-- Embeds `RoomTemplate` from src/map/mapbuilder.rs (the const generic array
length is dropped; unused `SpawnEntry("", (0, 0))` padding entries are kept). -/
structure RoomTemplate where
  spawnEntries : List (String × (Nat × Nat))
  depthRequirement : Nat
deriving DecidableEq, Repr

instance : Inhabited RoomTemplate := ⟨⟨[], 0⟩⟩

/-- Embeds the `SMALL_ROOMS` template table. -/
def SMALL_ROOMS : List RoomTemplate :=
  [⟨[("Doggo", (1, 1)), ("Corpse", (0, 1))], 1⟩,
   ⟨[("Pewpewpet", (1, 1)), ("", (0, 0))], 1⟩,
   ⟨[("Corpse", (0, 1)), ("", (0, 0))], 1⟩,
   ⟨[("Pewpewpet", (1, 2)), ("Corpse", (0, 1))], 2⟩,
   ⟨[("Pewpew", (1, 1)), ("Chest", (0, 1))], 4⟩,
   ⟨[("Heavy", (1, 1)), ("Corpse", (1, 3))], 5⟩]

/-- Embeds the `GENERIC_ROOMS` template table. -/
def GENERIC_ROOMS : List RoomTemplate :=
  [⟨[("Doggo", (1, 2)), ("Corpse", (0, 2)), ("Gold", (0, 1)), ("", (0, 0))], 1⟩,
   ⟨[("Pewpewpet", (1, 2)), ("Corpse", (0, 1)), ("Gold", (0, 1)), ("", (0, 0))], 1⟩,
   ⟨[("Chest", (0, 1)), ("Corpse", (0, 1)), ("", (0, 0)), ("", (0, 0))], 2⟩,
   ⟨[("Heavy", (1, 1)), ("Corpse", (2, 3)), ("Gold", (0, 1)), ("", (0, 0))], 2⟩,
   ⟨[("Pewpewpet", (1, 2)), ("Pewpew", (0, 1)), ("Chest", (0, 1)), ("Gold", (0, 1))], 3⟩,
   ⟨[("Heavy", (1, 1)), ("Corpse", (2, 3)), ("Gold", (0, 1)), ("", (0, 0))], 3⟩]

/-- Embeds the `HUGE_ROOMS` template table. -/
def HUGE_ROOMS : List RoomTemplate :=
  [⟨[("Doggo", (2, 3)), ("Chest", (0, 1)), ("Corpse", (1, 2)), ("", (0, 0))], 1⟩,
   ⟨[("Pewpew", (1, 1)), ("Pewpewpet", (2, 3)), ("Corpse", (1, 2)), ("Chest", (1, 2))], 2⟩,
   ⟨[("Heavy", (1, 1)), ("Doggo", (1, 2)), ("Corpse", (1, 3)), ("Gold", (0, 1))], 4⟩,
   ⟨[("Heavy", (2, 2)), ("Doggo", (0, 1)), ("Corpse", (1, 3)), ("", (0, 0))], 6⟩,
   ⟨[("Pewpew", (2, 3)), ("Pewpewpet", (1, 3)), ("Corpse", (1, 2)), ("Chest", (2, 2))], 5⟩]

/-- Embeds `get_spawn_table`: filter the templates by depth requirement, draw
one uniformly (the draw abstracted as `pick`, reduced modulo the eligible
count exactly as `gen_range(0..len)` constrains it), and insert its entries
into a fresh table.  An empty eligible list makes `gen_range` panic. -/
def getSpawnTable (templates : List RoomTemplate) (depth : Nat) (pick : Nat) :
    Option (List (String × (Nat × Nat))) :=
  let eligible := templates.filter (fun t => t.depthRequirement ≤ depth)
  match eligible.length with
  | 0 => none
  | n + 1 =>
      let tpl := eligible.getD (pick % (n + 1)) default
      some (tpl.spawnEntries.foldl (fun acc e => e :: acc) [])

/-- Lexicographic comparison of coordinates, x before y: the derived `Ord` of
the Rust `Coordinate`, used to sort room top-left corners. -/
def coordLt (a b : Coordinate) : Bool :=
  a.x < b.x ∨ (a.x = b.x ∧ a.y < b.y)

/-- The index whose room has the smallest top-left corner, the room at
`top_left_corners[0]` after the sort in
`MapBuilder::flood_fill_spawn_tables` (the first minimum is kept on ties). -/
def floodFillStartIndex (nodes : List Room) : Option Nat :=
  match nodes with
  | [] => none
  | first :: rest =>
      some (Prod.fst (rest.enum.foldl
        (fun best cand =>
          if coordLt cand.2.extends_.topLeft best.2 then
            (cand.1 + 1, cand.2.extends_.topLeft)
          else best)
        (0, first.extends_.topLeft)))

/-- One iteration of the flood-fill loop of
`MapBuilder::flood_fill_spawn_tables`: mark the popped node visited, enqueue
its unvisited neighbors, assign the node a spawn table (forced Player entry
for the start room, otherwise a template drawn by room size and depth), and
force a StairsDown entry when the queue has just run dry. -/
def floodFillLoop (edges : List (Nat × Nat)) (depth : Nat)
    (startIndex : Nat) (lower upper : Int) (oracle : Nat → Nat) :
    Nat → List Nat → List Nat → List Room → Nat → Option (List Room)
  | 0, _, _, _, _ => none
  | _ + 1, [], _, nodes, _ => some nodes
  | fuel + 1, q :: qs, visited, nodes, draws =>
      let current := (q :: qs).getLast (by simp)
      let queue2 := (q :: qs).dropLast
      let visited2 := visited ++ [current]
      let unvisitedNeighbors :=
        (graphNeighbors edges current).filter (fun j => !(visited2.contains j))
      let queue3 := unvisitedNeighbors.foldl (fun q j => j :: q) queue2
      let table? : Option (List (String × (Nat × Nat))) :=
        if current = startIndex then
          some [("Player", (1, 1))]
        else if (nodes.getD current default).extends_.getInnerArea ≤ lower then
          getSpawnTable SMALL_ROOMS depth (oracle draws)
        else if upper ≤ (nodes.getD current default).extends_.getInnerArea then
          getSpawnTable HUGE_ROOMS depth (oracle draws)
        else
          getSpawnTable GENERIC_ROOMS depth (oracle draws)
      match table? with
      | none => none
      | some table =>
          let table := if queue3.isEmpty then ("StairsDown", (1, 1)) :: table
            else table
          let nodes2 := nodes.set current
            { nodes.getD current default with spawnTable := some table }
          floodFillLoop edges depth startIndex lower upper oracle
            fuel queue3 visited2 nodes2 (draws + 1)

/-- Embeds `MapBuilder::flood_fill_spawn_tables` (panics on an empty room
graph when indexing the sorted corner list). -/
def floodFillSpawnTables (map : GameMap) (lower upper : Int)
    (oracle : Nat → Nat) (fuel : Nat) : Option GameMap := do
  let start ← floodFillStartIndex map.graph.nodes
  let nodes2 ← floodFillLoop map.graph.edges map.depth start lower upper oracle
    fuel [start] [] map.graph.nodes 0
  pure { map with graph := { nodes := nodes2, edges := map.graph.edges } }

/-- The retry loop of `MapBuilder::generate_new`: attempt `n` runs the random
BSP partition and room carving (abstracted as `roomsOracle n`, the flat room
list produced by `make_rooms_from_bsp`), prunes small rooms, connects and
prunes the graph, and accepts the result exactly when
`connected_components` reports a single island. -/
def generateLoop (roomsOracle : Nat → List Room) (mcgFuel : Nat) :
    Nat → Nat → Option RoomGraphL
  | _, 0 => none
  | attempt, fuel + 1 => do
      let g1 := pruneSmallRooms { nodes := roomsOracle attempt, edges := [] } 5
      let g2 ← makeConnectedGraph g1 3 mcgFuel
      let g3 ← pruneEdges g2 4
      if islands g3 = 1 then
        pure g3
      else
        generateLoop roomsOracle mcgFuel (attempt + 1) fuel

/-- Embeds `MapBuilder::generate_new`: the accepted connected room graph is
drawn to a map, spawn tables are flood-filled, and doors are recorded. -/
def generateNew (sizeX sizeY depth : Nat) (roomsOracle : Nat → List Room)
    (mcgFuel loopFuel ffFuel : Nat) (tplOracle : Nat → Nat) :
    Option GameMap := do
  let graph ← generateLoop roomsOracle mcgFuel 0 loopFuel
  let map := drawRoomsToMap graph sizeX sizeY depth
  let map ← floodFillSpawnTables map 8 25 tplOracle ffFuel
  addDoorsToRooms map

/-! ### Claim C1: graph-side lemmas -/

/-- Both endpoints of every edge are valid node indices. -/
def edgeBounds (edges : List (Nat × Nat)) (n : Nat) : Prop :=
  ∀ e ∈ edges, e.1 < n ∧ e.2 < n

/-- Nodes `i` and `j` are endpoints of a common edge (in either stored
orientation). -/
def adjacentRel (edges : List (Nat × Nat)) (i j : Nat) : Prop :=
  (i, j) ∈ edges ∨ (j, i) ∈ edges

/-- Reachability along edges: the reflexive-transitive closure of adjacency.
This is the meaning of two rooms being connected through the room graph. -/
def ReachEdges (edges : List (Nat × Nat)) : Nat → Nat → Prop :=
  Relation.ReflTransGen (adjacentRel edges)

theorem adjacentRel_symm (edges : List (Nat × Nat)) :
    Symmetric (adjacentRel edges) := by
  intro i j h
  cases h with
  | inl h => exact Or.inr h
  | inr h => exact Or.inl h

theorem ReachEdges_symm (edges : List (Nat × Nat)) :
    Symmetric (ReachEdges edges) :=
  Relation.ReflTransGen.symmetric (adjacentRel_symm edges)

theorem mcgNeighbors_lt {nodes : List Room} {msd : Int} {pos current : Nat}
    {closed2 : List Nat} :
    ∀ j ∈ mcgNeighbors nodes msd pos current closed2, j < nodes.length := by
  intro j hj
  unfold mcgNeighbors at hj
  simp only [List.mem_filter] at hj
  have := List.drop_subset pos (List.range nodes.length) hj.1
  exact List.mem_range.mp this

theorem mcgLoop_bounds {nodes : List Room} {msd : Int} :
    ∀ (fuel pos : Nat) (opened closed : List Nat) (edges out : List (Nat × Nat)),
      mcgLoop nodes msd fuel pos opened closed edges = some out →
      (∀ i ∈ opened, i < nodes.length) →
      edgeBounds edges nodes.length →
      edgeBounds out nodes.length := by
  intro fuel
  induction fuel with
  | zero => intro pos opened closed edges out h; exact absurd h (by simp [mcgLoop])
  | succ fuel ih =>
      intro pos opened closed edges out h hop hed
      unfold mcgLoop at h
      cases hlast : opened.getLast? with
      | some current =>
          rw [hlast] at h
          have hcurmem : current ∈ opened := by
            obtain ⟨hne, heq⟩ := List.mem_getLast?_eq_getLast
              (l := opened) (x := current) (Option.mem_def.mpr hlast)
            rw [heq]
            exact List.getLast_mem hne
          have hcur : current < nodes.length := hop current hcurmem
          refine ih pos _ _ _ out h ?_ ?_
          · intro i hi
            rcases List.mem_append.mp hi with hi | hi
            · exact hop i (List.dropLast_subset opened hi)
            · exact mcgNeighbors_lt i hi
          · intro e he
            rcases List.mem_append.mp he with he | he
            · exact hed e he
            · obtain ⟨j, hj, hje⟩ := List.mem_map.mp he
              subst hje
              exact ⟨hcur, mcgNeighbors_lt j hj⟩
      | none =>
          rw [hlast] at h
          by_cases hpos : pos < nodes.length
          · rw [if_pos hpos] at h
            refine ih (pos + 1) _ _ _ out h ?_ ?_
            · intro i hi
              exact mcgNeighbors_lt i hi
            · intro e he
              rcases List.mem_append.mp he with he | he
              · exact hed e he
              · obtain ⟨j, hj, hje⟩ := List.mem_map.mp he
                subst hje
                exact ⟨hpos, mcgNeighbors_lt j hj⟩
          · rw [if_neg hpos] at h
            simp only [Option.some_inj] at h
            subst h
            exact hed

theorem makeConnectedGraph_spec {g : RoomGraphL} {msd : Int} {fuel : Nat}
    {g2 : RoomGraphL} (h : makeConnectedGraph g msd fuel = some g2) :
    g2.nodes = g.nodes ∧ edgeBounds g2.edges g.nodes.length := by
  unfold makeConnectedGraph at h
  cases hloop : mcgLoop g.nodes msd fuel 0 [] [] [] with
  | none => rw [hloop] at h; exact absurd h (by simp)
  | some edges =>
      rw [hloop] at h
      simp only [Option.bind_eq_bind, Option.some_bind, Option.pure_def,
        Option.some_inj] at h
      subst h
      refine ⟨rfl, ?_⟩
      exact mcgLoop_bounds fuel 0 [] [] [] edges hloop (by simp)
        (by intro e he; exact absurd he (by simp))

theorem removeEdge_subset :
    ∀ (edges : List (Nat × Nat)) (a b : Nat) (out : List (Nat × Nat)),
      removeEdge edges a b = some out → ∀ e ∈ out, e ∈ edges := by
  intro edges
  induction edges with
  | nil => intro a b out h; exact Option.noConfusion h
  | cons e0 rest ih =>
      intro a b out h
      unfold removeEdge at h
      by_cases hm : (e0.1 = a ∧ e0.2 = b) ∨ (e0.1 = b ∧ e0.2 = a)
      · rw [if_pos hm] at h
        simp only [Option.some_inj] at h
        subst h
        exact fun e he => List.mem_cons_of_mem e0 he
      · rw [if_neg hm] at h
        cases hr : removeEdge rest a b with
        | none => rw [hr] at h; exact absurd h (by simp)
        | some r =>
            rw [hr] at h
            simp only [Option.map_some', Option.some_inj] at h
            subst h
            intro e he
            rcases List.mem_cons.mp he with he | he
            · exact he ▸ List.mem_cons_self e0 rest
            · exact List.mem_cons_of_mem e0 (ih a b r hr e he)

theorem removeEdge_found :
    ∀ (edges : List (Nat × Nat)) (a b : Nat) (out : List (Nat × Nat)),
      removeEdge edges a b = some out → (a, b) ∈ edges ∨ (b, a) ∈ edges := by
  intro edges
  induction edges with
  | nil => intro a b out h; exact Option.noConfusion h
  | cons e0 rest ih =>
      intro a b out h
      unfold removeEdge at h
      by_cases hm : (e0.1 = a ∧ e0.2 = b) ∨ (e0.1 = b ∧ e0.2 = a)
      · rcases hm with ⟨h1, h2⟩ | ⟨h1, h2⟩
        · left
          have : e0 = (a, b) := by
            cases e0; simp only [Prod.mk.injEq]; exact ⟨h1, h2⟩
          exact this ▸ List.mem_cons_self e0 rest
        · right
          have : e0 = (b, a) := by
            cases e0; simp only [Prod.mk.injEq]; exact ⟨h1, h2⟩
          exact this ▸ List.mem_cons_self e0 rest
      · rw [if_neg hm] at h
        cases hr : removeEdge rest a b with
        | none => rw [hr] at h; exact absurd h (by simp)
        | some r =>
            rcases ih a b r hr with hm2 | hm2
            · exact Or.inl (List.mem_cons_of_mem e0 hm2)
            · exact Or.inr (List.mem_cons_of_mem e0 hm2)

/-- An `Option`-valued fold preserves any invariant its step preserves. -/
theorem foldlM_preserves {α β : Type} (step : β → α → Option β) (Q : β → Prop)
    (hstep : ∀ b a b2, step b a = some b2 → Q b → Q b2) :
    ∀ (xs : List α) (b b2 : β), xs.foldlM step b = some b2 → Q b → Q b2 := by
  intro xs
  induction xs with
  | nil =>
      intro b b2 h hq
      simp only [List.foldlM_nil, Option.pure_def, Option.some_inj] at h
      exact h ▸ hq
  | cons x rest ih =>
      intro b b2 h hq
      simp only [List.foldlM_cons] at h
      cases hs : step b x with
      | none => rw [hs] at h; exact absurd h (by simp)
      | some b1 =>
          rw [hs] at h
          simp only [Option.bind_eq_bind, Option.some_bind] at h
          exact ih b1 b2 h (hstep b x b1 hs hq)

/-- Every edge-pair property that is symmetric in the endpoints is preserved
by one `prune_edges` node step. -/
theorem pruneEdgesStep_preserves (g : RoomGraphL) (th : Nat)
    (P : Nat × Nat → Prop) (hsymm : ∀ a b, P (a, b) → P (b, a)) :
    ∀ (edges : List (Nat × Nat)) (room : Nat) (out : List (Nat × Nat)),
      pruneEdgesStep g th edges room = some out →
      (∀ e ∈ edges, P e) → ∀ e ∈ out, P e := by
  intro edges room out h hp
  unfold pruneEdgesStep at h
  by_cases hdeg : (graphNeighbors edges room).length < th
  · rw [if_pos hdeg] at h
    simp only [Option.some_inj] at h
    exact h ▸ hp
  · rw [if_neg hdeg] at h
    cases hn : graphNeighbors edges room with
    | nil => rw [hn] at h; exact absurd h (by simp)
    | cons first rest =>
        rw [hn] at h
        simp only [] at h
        cases hrm : removeEdge edges room
            (rest.foldl (fun best new =>
              if (graphNeighbors g.edges new).length ≤
                  (graphNeighbors g.edges best).length
              then best else new) first) with
        | none => rw [hrm] at h; exact absurd h (by simp)
        | some edges2 =>
            rw [hrm] at h
            simp only [] at h
            have hsub := removeEdge_subset edges room _ edges2 hrm
            have hfound := removeEdge_found edges room _ edges2 hrm
            by_cases hisl : islands { nodes := g.nodes, edges := edges2 } ≠ 1
            · rw [if_pos hisl] at h
              simp only [Option.some_inj] at h
              subst h
              intro e he
              rcases List.mem_append.mp he with he | he
              · exact hp e (hsub e he)
              · simp only [List.mem_singleton] at he
                subst he
                rcases hfound with hf | hf
                · exact hp _ hf
                · exact hsymm _ _ (hp _ hf)
            · rw [if_neg hisl] at h
              simp only [Option.some_inj] at h
              subst h
              exact fun e he => hp e (hsub e he)

theorem pruneEdges_spec {g : RoomGraphL} {th : Nat} {g2 : RoomGraphL}
    (h : pruneEdges g th = some g2)
    (P : Nat × Nat → Prop) (hsymm : ∀ a b, P (a, b) → P (b, a))
    (hp : ∀ e ∈ g.edges, P e) :
    g2.nodes = g.nodes ∧ ∀ e ∈ g2.edges, P e := by
  unfold pruneEdges at h
  cases hf : (List.range g.nodes.length).foldlM
      (pruneEdgesStep g th) g.edges with
  | none => rw [hf] at h; exact absurd h (by simp)
  | some edges =>
      rw [hf] at h
      simp only [Option.bind_eq_bind, Option.some_bind, Option.pure_def,
        Option.some_inj] at h
      subst h
      refine ⟨rfl, ?_⟩
      exact foldlM_preserves (pruneEdgesStep g th) (fun es => ∀ e ∈ es, P e)
        (fun b a b2 hs hq => pruneEdgesStep_preserves g th P hsymm b a b2 hs hq)
        (List.range g.nodes.length) g.edges edges hf hp

theorem getD_map_lt {α β : Type} (f : α → β) (l : List α) (i : Nat)
    (h : i < l.length) (d : β) (d2 : α) :
    (l.map f).getD i d = f (l.getD i d2) := by
  have hm : i < (l.map f).length := by simp [h]
  rw [List.getD_eq_getElem?_getD, List.getD_eq_getElem?_getD,
    List.getElem?_eq_getElem hm, List.getElem?_eq_getElem h]
  simp

theorem mergeLabels_length :
    ∀ (es : List (Nat × Nat)) (labels : List Nat),
      (mergeLabels es labels).length = labels.length := by
  intro es
  induction es with
  | nil => intro labels; rfl
  | cons e rest ih =>
      intro labels
      cases e with
      | mk a b =>
          unfold mergeLabels
          rw [ih]
          simp

/-- Soundness of the label-propagation component count: nodes carrying equal
labels after all merges are reachable from one another through the edges. -/
theorem mergeLabels_sound (edges0 : List (Nat × Nat)) (n : Nat) :
    ∀ (es : List (Nat × Nat)) (labels : List Nat),
      labels.length = n →
      (∀ e ∈ es, e.1 < n ∧ e.2 < n) →
      (∀ e ∈ es, e ∈ edges0) →
      (∀ i j, i < n → j < n → labels.getD i 0 = labels.getD j 0 →
        ReachEdges edges0 i j) →
      ∀ i j, i < n → j < n →
        (mergeLabels es labels).getD i 0 = (mergeLabels es labels).getD j 0 →
        ReachEdges edges0 i j := by
  intro es
  induction es with
  | nil => intro labels _ _ _ hsound; exact hsound
  | cons e rest ih =>
      intro labels hlen hb hsub hsound
      cases e with
      | mk a b =>
          have ha : a < n := (hb (a, b) (List.mem_cons_self _ _)).1
          have hbn : b < n := (hb (a, b) (List.mem_cons_self _ _)).2
          have hedge : ReachEdges edges0 a b :=
            Relation.ReflTransGen.single
              (Or.inl (hsub (a, b) (List.mem_cons_self _ _)))
          unfold mergeLabels
          refine ih _ (by rw [List.length_map]; exact hlen) ?_ ?_ ?_
          · exact fun e he => hb e (List.mem_cons_of_mem _ he)
          · exact fun e he => hsub e (List.mem_cons_of_mem _ he)
          · intro i j hi hj heq
            have hil : i < labels.length := by rw [hlen]; exact hi
            have hjl : j < labels.length := by rw [hlen]; exact hj
            rw [getD_map_lt _ _ _ hil _ 0, getD_map_lt _ _ _ hjl _ 0] at heq
            by_cases h1 : labels.getD i 0 = labels.getD b 0 <;>
              by_cases h2 : labels.getD j 0 = labels.getD b 0
            · exact Relation.ReflTransGen.trans (hsound i b hi hbn h1)
                (ReachEdges_symm edges0 (hsound j b hj hbn h2))
            · rw [if_pos h1, if_neg h2] at heq
              have hja : ReachEdges edges0 j a := hsound j a hj ha heq.symm
              exact Relation.ReflTransGen.trans (hsound i b hi hbn h1)
                (Relation.ReflTransGen.trans (ReachEdges_symm edges0 hedge)
                  (ReachEdges_symm edges0 hja))
            · rw [if_neg h1, if_pos h2] at heq
              have hia : ReachEdges edges0 i a := hsound i a hi ha heq
              exact Relation.ReflTransGen.trans hia
                (Relation.ReflTransGen.trans hedge
                  (ReachEdges_symm edges0 (hsound j b hj hbn h2)))
            · rw [if_neg h1, if_neg h2] at heq
              exact hsound i j hi hj heq

/-- When `connected_components` reports a single island and the edges are
in bounds, every node is reachable from every other node. -/
theorem islands_one_reachable (g : RoomGraphL)
    (hb : edgeBounds g.edges g.nodes.length) (h1 : islands g = 1) :
    ∀ i j, i < g.nodes.length → j < g.nodes.length →
      ReachEdges g.edges i j := by
  intro i j hi hj
  set n := g.nodes.length with hn
  set final := mergeLabels g.edges (List.range n) with hfinal
  have hlen : final.length = n := by
    rw [hfinal, mergeLabels_length, List.length_range]
  have hone : final.dedup.length = 1 := h1
  obtain ⟨x, hx⟩ := List.length_eq_one.mp hone
  have hallx : ∀ y ∈ final, y = x := by
    intro y hy
    have : y ∈ final.dedup := List.mem_dedup.mpr hy
    rw [hx] at this
    simpa using this
  have heq : final.getD i 0 = final.getD j 0 := by
    have hgi : final.getD i 0 ∈ final := by
      rw [List.getD_eq_getElem?_getD, List.getElem?_eq_getElem (hlen ▸ hi)]
      exact List.getElem_mem _
    have hgj : final.getD j 0 ∈ final := by
      rw [List.getD_eq_getElem?_getD, List.getElem?_eq_getElem (hlen ▸ hj)]
      exact List.getElem_mem _
    rw [hallx _ hgi, hallx _ hgj]
  refine mergeLabels_sound g.edges n g.edges (List.range n)
    (List.length_range n) hb (fun e he => he) ?_ i j hi hj heq
  intro i0 j0 hi0 hj0 heq0
  have hgi : (List.range n).getD i0 0 = i0 := by
    rw [List.getD_eq_getElem?_getD,
      List.getElem?_eq_getElem (by simpa using hi0)]
    simp
  have hgj : (List.range n).getD j0 0 = j0 := by
    rw [List.getD_eq_getElem?_getD,
      List.getElem?_eq_getElem (by simpa using hj0)]
    simp
  rw [hgi, hgj] at heq0
  exact heq0 ▸ Relation.ReflTransGen.refl

/-- What the generation retry loop guarantees about an accepted graph: its
nodes are the size-filtered rooms of some attempt, `connected_components`
reported exactly one island, and all edges are in bounds. -/
theorem generateLoop_spec (o : Nat → List Room) (mcgFuel : Nat) :
    ∀ (fuel attempt : Nat) (g : RoomGraphL),
      generateLoop o mcgFuel attempt fuel = some g →
      (∃ att, g.nodes =
        (o att).filter (fun r => 5 < r.extends_.getInnerArea)) ∧
      islands g = 1 ∧ edgeBounds g.edges g.nodes.length := by
  intro fuel
  induction fuel with
  | zero => intro attempt g h; exact Option.noConfusion h
  | succ fuel ih =>
      intro attempt g h
      unfold generateLoop at h
      simp only [Option.bind_eq_bind] at h
      cases hmcg : makeConnectedGraph
          (pruneSmallRooms { nodes := o attempt, edges := [] } 5) 3 mcgFuel with
      | none => rw [hmcg] at h; exact absurd h (by simp)
      | some g2 =>
          rw [hmcg] at h
          simp only [Option.some_bind] at h
          cases hpe : pruneEdges g2 4 with
          | none => rw [hpe] at h; exact absurd h (by simp)
          | some g3 =>
              rw [hpe] at h
              simp only [Option.some_bind] at h
              obtain ⟨hnodes2, hbounds2⟩ := makeConnectedGraph_spec hmcg
              have hnfilter :
                  (pruneSmallRooms { nodes := o attempt, edges := [] } 5).nodes =
                    (o attempt).filter (fun r => 5 < r.extends_.getInnerArea) := rfl
              obtain ⟨hnodes3, hbounds3⟩ := pruneEdges_spec hpe
                (fun e => e.1 < g2.nodes.length ∧ e.2 < g2.nodes.length)
                (fun a b hp => ⟨hp.2, hp.1⟩)
                (by rw [hnodes2]; exact hbounds2)
              by_cases hisl : islands g3 = 1
              · rw [if_pos hisl] at h
                simp only [Option.pure_def, Option.some_inj] at h
                subst h
                refine ⟨⟨attempt, ?_⟩, hisl, ?_⟩
                · rw [hnodes3, hnodes2, hnfilter]
                · intro e he
                  have hthis := hbounds3 e he
                  rw [hnodes3]
                  exact hthis
              · rw [if_neg hisl] at h
                exact ih (attempt + 1) g h

/-! ### Claim C1: corridor-side lemmas -/

/-- The drawing pipeline only ever stores floor and wall tiles. -/
def mapTilesWF (m : GameMap) : Prop :=
  ∀ p t, lookupTile m.map p = some t →
    t.rootTile = FLOOR_TILE_ID ∨ t.rootTile = WALL_TILE_ID

theorem lookupTile_insert_same (rest : List (Coordinate × GameTile))
    (c : Coordinate) (t : GameTile) :
    lookupTile ((c, t) :: rest) c = some t := by
  show (if c = c then some t else lookupTile rest c) = some t
  rw [if_pos rfl]

theorem lookupTile_insert_other (rest : List (Coordinate × GameTile))
    (c p : Coordinate) (t : GameTile) (h : c ≠ p) :
    lookupTile ((c, t) :: rest) p = lookupTile rest p := by
  show (if c = p then some t else lookupTile rest p) = lookupTile rest p
  rw [if_neg h]

theorem setGameTile_WF {m : GameMap} {c : Coordinate} {t : GameTile}
    (ht : t.rootTile = FLOOR_TILE_ID ∨ t.rootTile = WALL_TILE_ID)
    (hwf : mapTilesWF m) : mapTilesWF (m.setGameTile c t) := by
  intro p t2 hp
  unfold GameMap.setGameTile at hp
  by_cases hc : c = p
  · subst hc
    rw [lookupTile_insert_same] at hp
    cases hp
    exact ht
  · rw [lookupTile_insert_other _ _ _ _ hc] at hp
    exact hwf p t2 hp

theorem foldl_WF {α : Type} (step : GameMap → α → GameMap)
    (hstep : ∀ m a, mapTilesWF m → mapTilesWF (step m a)) :
    ∀ (xs : List α) (m : GameMap), mapTilesWF m →
      mapTilesWF (xs.foldl step m) := by
  intro xs
  induction xs with
  | nil => intro m h; exact h
  | cons x rest ih => intro m h; exact ih (step m x) (hstep m x h)

theorem drawRoom_WF (roomBox : BoxExtends) (m : GameMap)
    (hwf : mapTilesWF m) : mapTilesWF (drawRoom roomBox m) := by
  unfold drawRoom
  refine foldl_WF _ ?_ _ m hwf
  intro m2 x h2
  refine foldl_WF _ ?_ _ _ ?_
  · intro m3 y h3
    by_cases hxe : x = roomBox.topLeft.x ∨ x = roomBox.bottomRight.x
    · rw [if_pos hxe]; exact setGameTile_WF (Or.inr rfl) h3
    · rw [if_neg hxe]; exact setGameTile_WF (Or.inl rfl) h3
  · exact setGameTile_WF (Or.inr rfl) (setGameTile_WF (Or.inr rfl) h2)

theorem drawVerticalStep_WF (x : Int) (m : GameMap) (y : Int)
    (hwf : mapTilesWF m) : mapTilesWF (drawVerticalStep x m y) := by
  unfold drawVerticalStep
  cases m.getGameTile ⟨x, y⟩ with
  | some t =>
      simp only []
      by_cases hw : t.rootTile = WALL_TILE_ID
      · rw [if_pos hw]; exact setGameTile_WF (Or.inl rfl) hwf
      · rw [if_neg hw]; exact hwf
  | none =>
      simp only []
      exact setGameTile_WF (Or.inr rfl)
        (setGameTile_WF (Or.inr rfl) (setGameTile_WF (Or.inl rfl) hwf))

theorem drawHorizontalStep_WF (y : Int) (m : GameMap) (x : Int)
    (hwf : mapTilesWF m) : mapTilesWF (drawHorizontalStep y m x) := by
  unfold drawHorizontalStep
  cases m.getGameTile ⟨x, y⟩ with
  | some t =>
      simp only []
      by_cases hw : t.rootTile = WALL_TILE_ID
      · rw [if_pos hw]; exact setGameTile_WF (Or.inl rfl) hwf
      · rw [if_neg hw]; exact hwf
  | none =>
      simp only []
      exact setGameTile_WF (Or.inr rfl)
        (setGameTile_WF (Or.inr rfl) (setGameTile_WF (Or.inl rfl) hwf))

/-- A vertical-corridor iteration leaves every other cell of its column
unchanged. -/
theorem drawVerticalStep_frame (x : Int) (m : GameMap) (y : Int)
    (p : Coordinate) (hx : p.x = x) (hy : p.y ≠ y) :
    lookupTile (drawVerticalStep x m y).map p = lookupTile m.map p := by
  have hne : (⟨x, y⟩ : Coordinate) ≠ p := by
    intro hcontra; rw [← hcontra] at hy; exact hy rfl
  have hneL : (⟨x - 1, y⟩ : Coordinate) ≠ p := by
    intro hcontra
    have : p.x = x - 1 := by rw [← hcontra]
    omega
  have hneR : (⟨x + 1, y⟩ : Coordinate) ≠ p := by
    intro hcontra
    have : p.x = x + 1 := by rw [← hcontra]
    omega
  unfold drawVerticalStep
  cases m.getGameTile ⟨x, y⟩ with
  | some t =>
      simp only []
      by_cases hw : t.rootTile = WALL_TILE_ID
      · rw [if_pos hw]
        exact lookupTile_insert_other _ _ _ _ hne
      · rw [if_neg hw]
  | none =>
      unfold GameMap.setGameTile
      simp only []
      rw [lookupTile_insert_other _ _ _ _ hneR,
        lookupTile_insert_other _ _ _ _ hneL,
        lookupTile_insert_other _ _ _ _ hne]

theorem drawHorizontalStep_frame (y : Int) (m : GameMap) (x : Int)
    (p : Coordinate) (hy : p.y = y) (hx : p.x ≠ x) :
    lookupTile (drawHorizontalStep y m x).map p = lookupTile m.map p := by
  have hne : (⟨x, y⟩ : Coordinate) ≠ p := by
    intro hcontra; rw [← hcontra] at hx; exact hx rfl
  have hneU : (⟨x, y - 1⟩ : Coordinate) ≠ p := by
    intro hcontra
    have : p.y = y - 1 := by rw [← hcontra]
    omega
  have hneD : (⟨x, y + 1⟩ : Coordinate) ≠ p := by
    intro hcontra
    have : p.y = y + 1 := by rw [← hcontra]
    omega
  unfold drawHorizontalStep
  cases m.getGameTile ⟨x, y⟩ with
  | some t =>
      simp only []
      by_cases hw : t.rootTile = WALL_TILE_ID
      · rw [if_pos hw]
        exact lookupTile_insert_other _ _ _ _ hne
      · rw [if_neg hw]
  | none =>
      unfold GameMap.setGameTile
      simp only []
      rw [lookupTile_insert_other _ _ _ _ hneD,
        lookupTile_insert_other _ _ _ _ hneU,
        lookupTile_insert_other _ _ _ _ hne]

/-- After a vertical-corridor iteration its own cell is passable: a wall is
replaced by floor, any other stored tile is floor already (in a well-formed
map), and an unclaimed cell receives floor. -/
theorem drawVerticalStep_passable (x : Int) (m : GameMap) (y : Int)
    (hwf : mapTilesWF m) :
    (drawVerticalStep x m y).isTilePassable ⟨x, y⟩ = some true := by
  unfold drawVerticalStep
  cases hg : m.getGameTile ⟨x, y⟩ with
  | some t =>
      simp only []
      by_cases hw : t.rootTile = WALL_TILE_ID
      · rw [if_pos hw]
        unfold GameMap.isTilePassable GameMap.getGameTile GameMap.setGameTile
        simp only []
        rw [lookupTile_insert_same]
        rfl
      · rw [if_neg hw]
        have hfw := hwf ⟨x, y⟩ t hg
        have hf : t.rootTile = FLOOR_TILE_ID := by
          rcases hfw with hf | hw2
          · exact hf
          · exact absurd hw2 hw
        have hg2 : lookupTile m.map ⟨x, y⟩ = some t := hg
        unfold GameMap.isTilePassable GameMap.getGameTile
        rw [hg2]
        simp only []
        unfold GameTile.isEmpty
        rw [hf]
        rfl
  | none =>
      simp only []
      unfold GameMap.isTilePassable GameMap.getGameTile GameMap.setGameTile
      simp only []
      have hne1 : (⟨x + 1, y⟩ : Coordinate) ≠ ⟨x, y⟩ := by
        intro hcontra
        have : x + 1 = x := congrArg Coordinate.x hcontra
        omega
      have hne2 : (⟨x - 1, y⟩ : Coordinate) ≠ ⟨x, y⟩ := by
        intro hcontra
        have : x - 1 = x := congrArg Coordinate.x hcontra
        omega
      rw [lookupTile_insert_other _ _ _ _ hne1,
        lookupTile_insert_other _ _ _ _ hne2, lookupTile_insert_same]
      rfl

theorem drawHorizontalStep_passable (y : Int) (m : GameMap) (x : Int)
    (hwf : mapTilesWF m) :
    (drawHorizontalStep y m x).isTilePassable ⟨x, y⟩ = some true := by
  unfold drawHorizontalStep
  cases hg : m.getGameTile ⟨x, y⟩ with
  | some t =>
      simp only []
      by_cases hw : t.rootTile = WALL_TILE_ID
      · rw [if_pos hw]
        unfold GameMap.isTilePassable GameMap.getGameTile GameMap.setGameTile
        simp only []
        rw [lookupTile_insert_same]
        rfl
      · rw [if_neg hw]
        have hfw := hwf ⟨x, y⟩ t hg
        have hf : t.rootTile = FLOOR_TILE_ID := by
          rcases hfw with hf | hw2
          · exact hf
          · exact absurd hw2 hw
        have hg2 : lookupTile m.map ⟨x, y⟩ = some t := hg
        unfold GameMap.isTilePassable GameMap.getGameTile
        rw [hg2]
        simp only []
        unfold GameTile.isEmpty
        rw [hf]
        rfl
  | none =>
      simp only []
      unfold GameMap.isTilePassable GameMap.getGameTile GameMap.setGameTile
      simp only []
      have hne1 : (⟨x, y + 1⟩ : Coordinate) ≠ ⟨x, y⟩ := by
        intro hcontra
        have : y + 1 = y := congrArg Coordinate.y hcontra
        omega
      have hne2 : (⟨x, y - 1⟩ : Coordinate) ≠ ⟨x, y⟩ := by
        intro hcontra
        have : y - 1 = y := congrArg Coordinate.y hcontra
        omega
      rw [lookupTile_insert_other _ _ _ _ hne1,
        lookupTile_insert_other _ _ _ _ hne2, lookupTile_insert_same]
      rfl

theorem mem_intRange {a b y : Int} : y ∈ intRange a b ↔ a ≤ y ∧ y < b := by
  simp only [intRange, List.mem_map, List.mem_range]
  constructor
  · rintro ⟨i, hi, rfl⟩
    omega
  · intro ⟨h1, h2⟩
    exact ⟨(y - a).toNat, by omega, by omega⟩

theorem mem_intRangeIncl {a b y : Int} : y ∈ intRangeIncl a b ↔ a ≤ y ∧ y ≤ b := by
  unfold intRangeIncl
  rw [mem_intRange]
  omega

/-- The combined invariant of a vertical-corridor fold over its rows: the map
stays well formed, every processed row of the column is passable, and cells of
the column outside the processed rows are untouched. -/
theorem foldV_spec (x : Int) :
    ∀ (ys : List Int) (m : GameMap), mapTilesWF m →
      mapTilesWF (ys.foldl (drawVerticalStep x) m) ∧
      (∀ y ∈ ys,
        (ys.foldl (drawVerticalStep x) m).isTilePassable ⟨x, y⟩ = some true) ∧
      (∀ p : Coordinate, p.x = x → p.y ∉ ys →
        lookupTile (ys.foldl (drawVerticalStep x) m).map p = lookupTile m.map p) := by
  intro ys
  induction ys with
  | nil =>
      intro m hwf
      exact ⟨hwf, fun y hy => absurd hy (by simp), fun p _ _ => rfl⟩
  | cons y rest ih =>
      intro m hwf
      have hwf1 := drawVerticalStep_WF x m y hwf
      obtain ⟨ihwf, ihpass, ihframe⟩ := ih (drawVerticalStep x m y) hwf1
      simp only [List.foldl_cons]
      refine ⟨ihwf, ?_, ?_⟩
      · intro y2 hy2
        rcases List.mem_cons.mp hy2 with hy2 | hy2
        · subst hy2
          by_cases hmem : y2 ∈ rest
          · exact ihpass y2 hmem
          · have hframe := ihframe ⟨x, y2⟩ rfl hmem
            have hpass := drawVerticalStep_passable x m y2 hwf
            unfold GameMap.isTilePassable GameMap.getGameTile at hpass ⊢
            rw [hframe]
            exact hpass
        · exact ihpass y2 hy2
      · intro p hpx hpy
        have hpy1 : p.y ≠ y := fun hc => hpy (hc ▸ List.mem_cons_self y rest)
        have hpy2 : p.y ∉ rest := fun hc => hpy (List.mem_cons_of_mem y hc)
        rw [ihframe p hpx hpy2]
        exact drawVerticalStep_frame x m y p hpx hpy1

theorem foldH_spec (y : Int) :
    ∀ (xs : List Int) (m : GameMap), mapTilesWF m →
      mapTilesWF (xs.foldl (drawHorizontalStep y) m) ∧
      (∀ x ∈ xs,
        (xs.foldl (drawHorizontalStep y) m).isTilePassable ⟨x, y⟩ = some true) ∧
      (∀ p : Coordinate, p.y = y → p.x ∉ xs →
        lookupTile (xs.foldl (drawHorizontalStep y) m).map p = lookupTile m.map p) := by
  intro xs
  induction xs with
  | nil =>
      intro m hwf
      exact ⟨hwf, fun x hx => absurd hx (by simp), fun p _ _ => rfl⟩
  | cons x rest ih =>
      intro m hwf
      have hwf1 := drawHorizontalStep_WF y m x hwf
      obtain ⟨ihwf, ihpass, ihframe⟩ := ih (drawHorizontalStep y m x) hwf1
      simp only [List.foldl_cons]
      refine ⟨ihwf, ?_, ?_⟩
      · intro x2 hx2
        rcases List.mem_cons.mp hx2 with hx2 | hx2
        · subst hx2
          by_cases hmem : x2 ∈ rest
          · exact ihpass x2 hmem
          · have hframe := ihframe ⟨x2, y⟩ rfl hmem
            have hpass := drawHorizontalStep_passable y m x2 hwf
            unfold GameMap.isTilePassable GameMap.getGameTile at hpass ⊢
            rw [hframe]
            exact hpass
        · exact ihpass x2 hx2
      · intro p hpy hpx
        have hpx1 : p.x ≠ x := fun hc => hpx (hc ▸ List.mem_cons_self x rest)
        have hpx2 : p.x ∉ rest := fun hc => hpx (List.mem_cons_of_mem x hc)
        rw [ihframe p hpy hpx2]
        exact drawHorizontalStep_frame y m x p hpy hpx1

/-- A drawn vertical corridor is passable on every row of its span. -/
theorem drawVerticalCorridor_passable (start stop : Coordinate) (m : GameMap)
    (hwf : mapTilesWF m) :
    mapTilesWF (drawVerticalCorridor start stop m) ∧
    ∀ y : Int, min start.y stop.y ≤ y → y ≤ max start.y stop.y →
      (drawVerticalCorridor start stop m).isTilePassable ⟨start.x, y⟩ =
        some true := by
  unfold drawVerticalCorridor
  have hlow : (if start.y < stop.y then start.y else stop.y) = min start.y stop.y := by
    rcases lt_trichotomy start.y stop.y with h | h | h <;> simp [min_def] <;> omega
  have hhigh : (if start.y < stop.y then stop.y else start.y) = max start.y stop.y := by
    rcases lt_trichotomy start.y stop.y with h | h | h <;> simp [max_def] <;> omega
  rw [hlow, hhigh]
  obtain ⟨h1, h2, _⟩ := foldV_spec start.x
    (intRangeIncl (min start.y stop.y) (max start.y stop.y)) m hwf
  exact ⟨h1, fun y hy1 hy2 => h2 y (mem_intRangeIncl.mpr ⟨hy1, hy2⟩)⟩

/-- A drawn horizontal corridor is passable on every column of its span. -/
theorem drawHorizontalCorridor_passable (start stop : Coordinate) (m : GameMap)
    (hwf : mapTilesWF m) :
    mapTilesWF (drawHorizontalCorridor start stop m) ∧
    ∀ x : Int, min start.x stop.x ≤ x → x ≤ max start.x stop.x →
      (drawHorizontalCorridor start stop m).isTilePassable ⟨x, start.y⟩ =
        some true := by
  unfold drawHorizontalCorridor
  have hlow : (if start.x < stop.x then start.x else stop.x) = min start.x stop.x := by
    rcases lt_trichotomy start.x stop.x with h | h | h <;> simp [min_def] <;> omega
  have hhigh : (if start.x < stop.x then stop.x else start.x) = max start.x stop.x := by
    rcases lt_trichotomy start.x stop.x with h | h | h <;> simp [max_def] <;> omega
  rw [hlow, hhigh]
  obtain ⟨h1, h2, _⟩ := foldH_spec start.y
    (intRangeIncl (min start.x stop.x) (max start.x stop.x)) m hwf
  exact ⟨h1, fun x hx1 hx2 => h2 x (mem_intRangeIncl.mpr ⟨hx1, hx2⟩)⟩

/-- A room that survives `prune_small_rooms` (inner area above 5) spans at
least three tiles along each axis. -/
theorem innerArea_size {b : BoxExtends} (h : 5 < b.getInnerArea) :
    b.topLeft.x + 2 ≤ b.bottomRight.x ∧ b.topLeft.y + 2 ≤ b.bottomRight.y := by
  unfold BoxExtends.getInnerArea at h
  by_cases hc : b.bottomRight.x - b.topLeft.x - 1 ≤ 0 ∨
      b.bottomRight.y - b.topLeft.y - 1 ≤ 0
  · rw [if_pos hc] at h
    omega
  · omega

/-- The center of a box at least three tiles wide and tall lies strictly
inside it. -/
theorem position_interior (b : BoxExtends)
    (hx : b.topLeft.x + 2 ≤ b.bottomRight.x)
    (hy : b.topLeft.y + 2 ≤ b.bottomRight.y) :
    b.topLeft.x < b.position.x ∧ b.position.x < b.bottomRight.x ∧
    b.topLeft.y < b.position.y ∧ b.position.y < b.bottomRight.y := by
  unfold BoxExtends.position
  simp only []
  omega

/-- What it means for a drawn corridor to connect two rooms on the map: a
straight run of passable tiles at a shared interior column (or row), whose
two endpoints (the rooms' center rows/columns) lie strictly inside the
respective rooms. -/
def corridorConnects (m2 : GameMap) (bA bB : BoxExtends) : Prop :=
  (∃ cx : Int,
    bA.topLeft.x < cx ∧ cx < bA.bottomRight.x ∧
    bB.topLeft.x < cx ∧ cx < bB.bottomRight.x ∧
    bA.topLeft.y < bA.position.y ∧ bA.position.y < bA.bottomRight.y ∧
    bB.topLeft.y < bB.position.y ∧ bB.position.y < bB.bottomRight.y ∧
    ∀ y : Int, min bA.position.y bB.position.y ≤ y →
      y ≤ max bA.position.y bB.position.y →
      m2.isTilePassable ⟨cx, y⟩ = some true) ∨
  (∃ cy : Int,
    bA.topLeft.y < cy ∧ cy < bA.bottomRight.y ∧
    bB.topLeft.y < cy ∧ cy < bB.bottomRight.y ∧
    bA.topLeft.x < bA.position.x ∧ bA.position.x < bA.bottomRight.x ∧
    bB.topLeft.x < bB.position.x ∧ bB.position.x < bB.bottomRight.x ∧
    ∀ x : Int, min bA.position.x bB.position.x ≤ x →
      x ≤ max bA.position.x bB.position.x →
      m2.isTilePassable ⟨x, cy⟩ = some true)

theorem drawPathBetweenRooms_WF (m : GameMap) (bA bB : BoxExtends)
    (hwf : mapTilesWF m) : mapTilesWF (drawPathBetweenRooms m bA bB) := by
  unfold drawPathBetweenRooms
  cases (interiorXRange bA).filter (fun v => v ∈ interiorXRange bB) with
  | cons cx rest =>
      exact (drawVerticalCorridor_passable _ _ m hwf).1
  | nil =>
      cases (interiorYRange bA).filter (fun v => v ∈ interiorYRange bB) with
      | cons cy rest =>
          exact (drawHorizontalCorridor_passable _ _ m hwf).1
      | nil => exact hwf

/-- On a well-formed map, drawing the path between two big-enough rooms that
share an interior column or row produces a connecting corridor; when they
share neither, the map is returned unchanged (the silent skip). -/
theorem drawPathBetweenRooms_spec (m : GameMap) (bA bB : BoxExtends)
    (hwf : mapTilesWF m)
    (hAx : bA.topLeft.x + 2 ≤ bA.bottomRight.x)
    (hAy : bA.topLeft.y + 2 ≤ bA.bottomRight.y)
    (hBx : bB.topLeft.x + 2 ≤ bB.bottomRight.x)
    (hBy : bB.topLeft.y + 2 ≤ bB.bottomRight.y) :
    (((interiorXRange bA).filter (fun v => v ∈ interiorXRange bB) ≠ [] ∨
      (interiorYRange bA).filter (fun v => v ∈ interiorYRange bB) ≠ []) →
      corridorConnects (drawPathBetweenRooms m bA bB) bA bB) ∧
    ((interiorXRange bA).filter (fun v => v ∈ interiorXRange bB) = [] →
      (interiorYRange bA).filter (fun v => v ∈ interiorYRange bB) = [] →
      drawPathBetweenRooms m bA bB = m) := by
  obtain ⟨hpAx1, hpAx2, hpAy1, hpAy2⟩ := position_interior bA hAx hAy
  obtain ⟨hpBx1, hpBx2, hpBy1, hpBy2⟩ := position_interior bB hBx hBy
  unfold drawPathBetweenRooms
  cases hxf : (interiorXRange bA).filter (fun v => v ∈ interiorXRange bB) with
  | cons cx rest =>
      simp only []
      constructor
      · intro _
        left
        have hcxmem : cx ∈ (interiorXRange bA).filter
            (fun v => v ∈ interiorXRange bB) := by
          rw [hxf]; exact List.mem_cons_self _ _
        have hcx := List.mem_filter.mp hcxmem
        have hcxA := mem_intRange.mp hcx.1
        have hcxB := mem_intRange.mp (by simpa using hcx.2)
        obtain ⟨_, hpass⟩ := drawVerticalCorridor_passable
          ⟨cx, bA.position.y⟩ ⟨cx, bB.position.y⟩ m hwf
        exact ⟨cx, by omega, by omega, by omega, by omega,
          hpAy1, hpAy2, hpBy1, hpBy2, fun y h1 h2 => hpass y h1 h2⟩
      · intro hx _
        exact absurd hx (by simp)
  | nil =>
      simp only []
      cases hyf : (interiorYRange bA).filter (fun v => v ∈ interiorYRange bB) with
      | cons cy rest =>
          simp only []
          constructor
          · intro _
            right
            have hcymem : cy ∈ (interiorYRange bA).filter
                (fun v => v ∈ interiorYRange bB) := by
              rw [hyf]; exact List.mem_cons_self _ _
            have hcy := List.mem_filter.mp hcymem
            have hcyA := mem_intRange.mp hcy.1
            have hcyB := mem_intRange.mp (by simpa using hcy.2)
            obtain ⟨_, hpass⟩ := drawHorizontalCorridor_passable
              ⟨bA.position.x, cy⟩ ⟨bB.position.x, cy⟩ m hwf
            exact ⟨cy, by omega, by omega, by omega, by omega,
              hpAx1, hpAx2, hpBx1, hpBx2, fun x h1 h2 => hpass x h1 h2⟩
          · intro _ hy
            exact absurd hy (by simp)
      | nil =>
          exact ⟨fun habs => absurd habs (by simp), fun _ _ => rfl⟩

/-- Two room lists describe the same geometry: equal length and pointwise
equal extends. -/
def sameExtends (xs ys : List Room) : Prop :=
  xs.length = ys.length ∧
  ∀ i : Nat, (xs.getD i default).extends_ = (ys.getD i default).extends_

theorem sameExtends_refl (xs : List Room) : sameExtends xs xs :=
  ⟨rfl, fun _ => rfl⟩

theorem sameExtends_trans {xs ys zs : List Room}
    (h1 : sameExtends xs ys) (h2 : sameExtends ys zs) : sameExtends xs zs :=
  ⟨h1.1.trans h2.1, fun i => (h1.2 i).trans (h2.2 i)⟩

theorem sameExtends_set {nodes : List Room} {cur : Nat} {v : Room}
    (hv : v.extends_ = (nodes.getD cur default).extends_) :
    sameExtends (nodes.set cur v) nodes := by
  refine ⟨List.length_set nodes cur v ▸ rfl, ?_⟩
  intro i
  by_cases hc : cur = i
  · subst hc
    by_cases hlt : cur < nodes.length
    · rw [List.getD_eq_getElem?_getD, List.getElem?_set_eq_of_lt v hlt]
      simpa using hv
    · rw [List.getD_eq_getElem?_getD, List.getD_eq_getElem?_getD]
      have h1 : (nodes.set cur v)[cur]? = none := by
        rw [List.getElem?_eq_none_iff]
        simpa using hlt
      have h2 : nodes[cur]? = none := by
        rw [List.getElem?_eq_none_iff]
        omega
      rw [h1, h2]
  · rw [List.getD_eq_getElem?_getD, List.getD_eq_getElem?_getD,
      List.getElem?_set_ne hc]

/-- The flood-fill loop only rewrites spawn tables: room geometry is kept. -/
theorem floodFillLoop_sameExtends (edges : List (Nat × Nat)) (depth start : Nat)
    (lower upper : Int) (oracle : Nat → Nat) :
    ∀ (fuel : Nat) (queue visited : List Nat) (nodes : List Room) (draws : Nat)
      (out : List Room),
      floodFillLoop edges depth start lower upper oracle fuel queue visited
        nodes draws = some out →
      sameExtends out nodes := by
  intro fuel
  induction fuel with
  | zero => intro queue visited nodes draws out h; exact Option.noConfusion h
  | succ fuel ih =>
      intro queue visited nodes draws out h
      cases queue with
      | nil =>
          unfold floodFillLoop at h
          simp only [Option.some_inj] at h
          subst h
          exact sameExtends_refl nodes
      | cons q qs =>
          unfold floodFillLoop at h
          simp only [] at h
          cases htab : (if (q :: qs).getLast (by simp) = start then
              some [("Player", (1, 1))]
            else if (nodes.getD ((q :: qs).getLast (by simp)) default).extends_.getInnerArea ≤ lower then
              getSpawnTable SMALL_ROOMS depth (oracle draws)
            else if upper ≤ (nodes.getD ((q :: qs).getLast (by simp)) default).extends_.getInnerArea then
              getSpawnTable HUGE_ROOMS depth (oracle draws)
            else
              getSpawnTable GENERIC_ROOMS depth (oracle draws)) with
          | none => rw [htab] at h; exact Option.noConfusion h
          | some table =>
              rw [htab] at h
              simp only [] at h
              have hrec := ih _ _ _ _ out h
              refine sameExtends_trans hrec (sameExtends_set rfl)

/-- Flood-filling spawn tables changes neither the tile map nor the edge
list nor any room's extends. -/
theorem floodFillSpawnTables_preserves {map m2 : GameMap} {lower upper : Int}
    {oracle : Nat → Nat} {fuel : Nat}
    (h : floodFillSpawnTables map lower upper oracle fuel = some m2) :
    m2.map = map.map ∧ m2.graph.edges = map.graph.edges ∧
    sameExtends m2.graph.nodes map.graph.nodes := by
  unfold floodFillSpawnTables at h
  cases hs : floodFillStartIndex map.graph.nodes with
  | none => rw [hs] at h; exact absurd h (by simp)
  | some start =>
      rw [hs] at h
      simp only [Option.bind_eq_bind, Option.some_bind] at h
      cases hl : floodFillLoop map.graph.edges map.depth start lower upper
          oracle fuel [start] [] map.graph.nodes 0 with
      | none => rw [hl] at h; exact absurd h (by simp)
      | some nodes2 =>
          rw [hl] at h
          simp only [Option.some_bind, Option.pure_def, Option.some_inj] at h
          subst h
          exact ⟨rfl, rfl,
            floodFillLoop_sameExtends _ _ _ _ _ _ _ _ _ _ _ _ hl⟩

/-- A successful `Option`-valued `mapM` maps positions to positions through
any relation the function guarantees. -/
theorem mapM_rel {α β : Type} [Inhabited α] [Inhabited β]
    (f : α → Option β) (R : α → β → Prop)
    (hf : ∀ x y, f x = some y → R x y) :
    ∀ (xs : List α) (ys : List β), xs.mapM f = some ys →
      ys.length = xs.length ∧
      ∀ i, i < xs.length → R (xs.getD i default) (ys.getD i default) := by
  intro xs
  induction xs with
  | nil =>
      intro ys h
      simp only [List.mapM_nil, Option.pure_def, Option.some_inj] at h
      subst h
      exact ⟨rfl, fun i hi => absurd hi (by simp)⟩
  | cons x rest ih =>
      intro ys h
      simp only [List.mapM_cons] at h
      cases hx : f x with
      | none => rw [hx] at h; exact absurd h (by simp)
      | some y0 =>
          rw [hx] at h
          cases hrest : rest.mapM f with
          | none => rw [hrest] at h; exact absurd h (by simp)
          | some ys0 =>
              rw [hrest] at h
              simp only [Option.bind_eq_bind, Option.some_bind,
                Option.pure_def, Option.some_inj] at h
              subst h
              obtain ⟨hlen, hrel⟩ := ih ys0 hrest
              refine ⟨by simp [hlen], ?_⟩
              intro i hi
              cases i with
              | zero => simpa using hf x y0 hx
              | succ i =>
                  have : i < rest.length := by simpa using hi
                  simpa using hrel i this

/-- Recording door locations changes neither the tile map nor the edge list
nor any room's extends. -/
theorem addDoorsToRooms_preserves {map m2 : GameMap}
    (h : addDoorsToRooms map = some m2) :
    m2.map = map.map ∧ m2.graph.edges = map.graph.edges ∧
    sameExtends m2.graph.nodes map.graph.nodes := by
  unfold addDoorsToRooms at h
  cases hn : map.graph.nodes.mapM
      (fun room => do
        let doors ← roomDoorLocations room map
        pure { room with doorLocations := doors }) with
  | none => rw [hn] at h; exact absurd h (by simp)
  | some nodes2 =>
      rw [hn] at h
      simp only [Option.bind_eq_bind, Option.some_bind, Option.pure_def,
        Option.some_inj] at h
      subst h
      have hrel := mapM_rel _ (fun r r2 => r2.extends_ = r.extends_)
        (fun r r2 hr => by
          cases hd : roomDoorLocations r map with
          | none => rw [hd] at hr; exact Option.noConfusion hr
          | some doors =>
              rw [hd] at hr
              simp only [Option.bind_eq_bind, Option.some_bind,
                Option.pure_def, Option.some_inj] at hr
              rw [← hr])
        map.graph.nodes nodes2 hn
      refine ⟨rfl, rfl, hrel.1, ?_⟩
      intro i
      by_cases hi : i < map.graph.nodes.length
      · exact hrel.2 i hi
      · rw [List.getD_eq_getElem?_getD, List.getD_eq_getElem?_getD]
        have h1 : nodes2[i]? = none := by
          rw [List.getElem?_eq_none_iff]
          omega
        have h2 : map.graph.nodes[i]? = none := by
          rw [List.getElem?_eq_none_iff]
          omega
        rw [h1, h2]

theorem drawRoom_graph (roomBox : BoxExtends) (m : GameMap) :
    (drawRoom roomBox m).graph = m.graph := by
  unfold drawRoom
  have hstep : ∀ (step : GameMap → Int → GameMap),
      (∀ m2 a, (step m2 a).graph = m2.graph) →
      ∀ (xs : List Int) (m2 : GameMap), (xs.foldl step m2).graph = m2.graph := by
    intro step hs xs
    induction xs with
    | nil => intro m2; rfl
    | cons x rest ih => intro m2; rw [List.foldl_cons, ih, hs]
  refine hstep _ ?_ _ m
  intro m2 x
  rw [hstep _ (fun m3 y => by split <;> rfl) _ _]
  rfl

theorem foldl_graph {α : Type} (step : GameMap → α → GameMap)
    (hs : ∀ m a, (step m a).graph = m.graph) :
    ∀ (xs : List α) (m : GameMap), (xs.foldl step m).graph = m.graph := by
  intro xs
  induction xs with
  | nil => intro m; rfl
  | cons x rest ih => intro m; rw [List.foldl_cons, ih, hs]

theorem drawVerticalCorridor_graph (start stop : Coordinate) (m : GameMap) :
    (drawVerticalCorridor start stop m).graph = m.graph := by
  unfold drawVerticalCorridor
  refine foldl_graph _ ?_ _ m
  intro m2 y
  unfold drawVerticalStep
  cases m2.getGameTile ⟨start.x, y⟩ with
  | some t => simp only []; split <;> rfl
  | none => rfl

theorem drawHorizontalCorridor_graph (start stop : Coordinate) (m : GameMap) :
    (drawHorizontalCorridor start stop m).graph = m.graph := by
  unfold drawHorizontalCorridor
  refine foldl_graph _ ?_ _ m
  intro m2 x
  unfold drawHorizontalStep
  cases m2.getGameTile ⟨x, start.y⟩ with
  | some t => simp only []; split <;> rfl
  | none => rfl

theorem drawPathBetweenRooms_graph (m : GameMap) (bA bB : BoxExtends) :
    (drawPathBetweenRooms m bA bB).graph = m.graph := by
  unfold drawPathBetweenRooms
  cases (interiorXRange bA).filter (fun v => v ∈ interiorXRange bB) with
  | cons cx rest => exact drawVerticalCorridor_graph _ _ m
  | nil =>
      cases (interiorYRange bA).filter (fun v => v ∈ interiorYRange bB) with
      | cons cy rest => exact drawHorizontalCorridor_graph _ _ m
      | nil => rfl

theorem drawEdgeStep_graph (nodes : List Room) (m : GameMap) (e : Nat × Nat) :
    (drawEdgeStep nodes m e).graph = m.graph := by
  unfold drawEdgeStep
  cases nodes.get? e.1 <;> cases nodes.get? e.2 <;>
    first
      | rfl
      | exact drawPathBetweenRooms_graph m _ _

theorem drawCorridorsPrefix_graph (g : RoomGraphL) (m0 : GameMap) (k : Nat) :
    (drawCorridorsPrefix g m0 k).graph = m0.graph := by
  unfold drawCorridorsPrefix
  exact foldl_graph _ (drawEdgeStep_graph g.nodes) _ m0

theorem roomsMapBase_graph (g : RoomGraphL) (sx sy d : Nat) :
    (roomsMapBase g sx sy d).graph = g := by
  unfold roomsMapBase
  simp only []
  exact foldl_graph (fun (m : GameMap) (room : Room) => drawRoom room.extends_ m)
    (fun m room => drawRoom_graph room.extends_ m) g.nodes _

theorem drawRoomsToMap_graph (g : RoomGraphL) (sx sy d : Nat) :
    (drawRoomsToMap g sx sy d).graph = g := by
  unfold drawRoomsToMap
  rw [drawCorridorsPrefix_graph, roomsMapBase_graph]

theorem roomsMapBase_WF (g : RoomGraphL) (sx sy d : Nat) :
    mapTilesWF (roomsMapBase g sx sy d) := by
  unfold roomsMapBase
  simp only []
  refine foldl_WF (fun (m : GameMap) (room : Room) => drawRoom room.extends_ m)
    (fun m room => drawRoom_WF room.extends_ m) _ _ ?_
  intro p t hp
  exact Option.noConfusion hp

theorem drawEdgeStep_WF (nodes : List Room) (m : GameMap) (e : Nat × Nat)
    (hwf : mapTilesWF m) : mapTilesWF (drawEdgeStep nodes m e) := by
  unfold drawEdgeStep
  cases nodes.get? e.1 <;> cases nodes.get? e.2 <;>
    first
      | exact hwf
      | exact drawPathBetweenRooms_WF m _ _ hwf

theorem drawCorridorsPrefix_WF (g : RoomGraphL) (m0 : GameMap) (k : Nat)
    (hwf : mapTilesWF m0) : mapTilesWF (drawCorridorsPrefix g m0 k) := by
  unfold drawCorridorsPrefix
  exact foldl_WF _ (drawEdgeStep_WF g.nodes) _ m0 hwf

theorem drawCorridorsPrefix_succ (g : RoomGraphL) (m0 : GameMap) (k : Nat)
    (hk : k < g.edges.length) :
    drawCorridorsPrefix g m0 (k + 1) =
      drawEdgeStep g.nodes (drawCorridorsPrefix g m0 k)
        (g.edges.getD k (0, 0)) := by
  unfold drawCorridorsPrefix
  rw [List.take_succ, List.foldl_append]
  have : g.edges[k]? = some (g.edges.getD k (0, 0)) := by
    rw [List.getD_eq_getElem?_getD, List.getElem?_eq_getElem hk]
    simp
  rw [this]
  rfl

theorem getD_eq_getElem {α : Type} [Inhabited α] (l : List α) (i : Nat)
    (h : i < l.length) : l.getD i default = l[i] := by
  rw [List.getD_eq_getElem?_getD, List.getElem?_eq_getElem h]
  rfl

theorem getD_mem {α : Type} [Inhabited α] (l : List α) (i : Nat)
    (h : i < l.length) : l.getD i default ∈ l := by
  rw [getD_eq_getElem l i h]
  exact List.getElem_mem h

/-- Claim C1 (amended).  For every map returned by `MapBuilder::generate_new`
(the random BSP and room-carving stage abstracted as the per-attempt room
list `roomsOracle`, the spawn-table draws as `tplOracle`, and the unbounded
loops given fuel):
the room graph of the returned map is a single connected component — every
room is reachable from every other room through its edges — and for each
graph edge whose two rooms share an interior column or row, a straight
corridor of passable floor tiles connecting the interiors of the two rooms is
drawn at the step processing that edge; an edge whose rooms share neither an
interior column nor an interior row draws no corridor at all (the silent
`else` branch of `draw_path_between_rooms`), which is why the original claim
fails. -/
theorem c1_generate_new_connectivity
    (sizeX sizeY depth : Nat) (roomsOracle : Nat → List Room)
    (mcgFuel loopFuel ffFuel : Nat) (tplOracle : Nat → Nat) (m : GameMap)
    (h : generateNew sizeX sizeY depth roomsOracle mcgFuel loopFuel ffFuel
      tplOracle = some m) :
    ∃ g : RoomGraphL,
      generateLoop roomsOracle mcgFuel 0 loopFuel = some g ∧
      m.graph.edges = g.edges ∧
      sameExtends m.graph.nodes g.nodes ∧
      m.map = (drawRoomsToMap g sizeX sizeY depth).map ∧
      islands g = 1 ∧
      (∀ i j, i < m.graph.nodes.length → j < m.graph.nodes.length →
        ReachEdges m.graph.edges i j) ∧
      (∀ k, k < g.edges.length →
        (((interiorXRange (g.nodes.getD (g.edges.getD k (0, 0)).1 default).extends_).filter
            (fun v => v ∈ interiorXRange
              (g.nodes.getD (g.edges.getD k (0, 0)).2 default).extends_) = [] ∧
          (interiorYRange (g.nodes.getD (g.edges.getD k (0, 0)).1 default).extends_).filter
            (fun v => v ∈ interiorYRange
              (g.nodes.getD (g.edges.getD k (0, 0)).2 default).extends_) = [] ∧
          drawCorridorsPrefix g (roomsMapBase g sizeX sizeY depth) (k + 1) =
            drawCorridorsPrefix g (roomsMapBase g sizeX sizeY depth) k) ∨
        corridorConnects
          (drawCorridorsPrefix g (roomsMapBase g sizeX sizeY depth) (k + 1))
          (g.nodes.getD (g.edges.getD k (0, 0)).1 default).extends_
          (g.nodes.getD (g.edges.getD k (0, 0)).2 default).extends_)) := by
  unfold generateNew at h
  simp only [Option.bind_eq_bind] at h
  cases hg : generateLoop roomsOracle mcgFuel 0 loopFuel with
  | none => rw [hg] at h; exact absurd h (by simp)
  | some g =>
      rw [hg] at h
      simp only [Option.some_bind] at h
      cases hff : floodFillSpawnTables (drawRoomsToMap g sizeX sizeY depth)
          8 25 tplOracle ffFuel with
      | none => rw [hff] at h; exact absurd h (by simp)
      | some mf =>
          rw [hff] at h
          simp only [Option.some_bind] at h
          obtain ⟨hffmap, hffedges, hffnodes⟩ :=
            floodFillSpawnTables_preserves hff
          obtain ⟨hadmap, hadedges, hadnodes⟩ := addDoorsToRooms_preserves h
          have hm1g : (drawRoomsToMap g sizeX sizeY depth).graph = g :=
            drawRoomsToMap_graph g sizeX sizeY depth
          obtain ⟨⟨att, hfilter⟩, hisl, hbounds⟩ :=
            generateLoop_spec roomsOracle mcgFuel loopFuel 0 g hg
          have hedges : m.graph.edges = g.edges := by
            rw [hadedges, hffedges, hm1g]
          have hnodes : sameExtends m.graph.nodes g.nodes := by
            refine sameExtends_trans hadnodes (sameExtends_trans hffnodes ?_)
            rw [hm1g]
            exact sameExtends_refl g.nodes
          refine ⟨g, rfl, hedges, hnodes, ?_, hisl, ?_, ?_⟩
          · rw [hadmap, hffmap]
          · intro i j hi hj
            rw [hedges]
            have hlen : m.graph.nodes.length = g.nodes.length := hnodes.1
            exact islands_one_reachable g hbounds hisl i j
              (hlen ▸ hi) (hlen ▸ hj)
          · intro k hk
            have hemem : g.edges.getD k (0, 0) ∈ g.edges :=
              getD_mem g.edges k hk
            obtain ⟨he1, he2⟩ := hbounds _ hemem
            have hra : g.nodes.getD (g.edges.getD k (0, 0)).1 default ∈
                g.nodes := getD_mem g.nodes _ he1
            have hrb : g.nodes.getD (g.edges.getD k (0, 0)).2 default ∈
                g.nodes := getD_mem g.nodes _ he2
            rw [hfilter] at hra hrb
            have hia := of_decide_eq_true (List.mem_filter.mp hra).2
            have hib := of_decide_eq_true (List.mem_filter.mp hrb).2
            obtain ⟨hax, hay⟩ := innerArea_size hia
            obtain ⟨hbx, hby⟩ := innerArea_size hib
            rw [← hfilter] at hax hay hbx hby
            have hwfk : mapTilesWF
                (drawCorridorsPrefix g (roomsMapBase g sizeX sizeY depth) k) :=
              drawCorridorsPrefix_WF g _ k (roomsMapBase_WF g sizeX sizeY depth)
            have hsucc := drawCorridorsPrefix_succ g
              (roomsMapBase g sizeX sizeY depth) k hk
            have hget1 : g.nodes.get? (g.edges.getD k (0, 0)).1 =
                some (g.nodes.getD (g.edges.getD k (0, 0)).1 default) := by
              rw [List.get?_eq_getElem?, List.getElem?_eq_getElem he1,
                getD_eq_getElem _ _ he1]
            have hget2 : g.nodes.get? (g.edges.getD k (0, 0)).2 =
                some (g.nodes.getD (g.edges.getD k (0, 0)).2 default) := by
              rw [List.get?_eq_getElem?, List.getElem?_eq_getElem he2,
                getD_eq_getElem _ _ he2]
            have hstep : drawEdgeStep g.nodes
                (drawCorridorsPrefix g (roomsMapBase g sizeX sizeY depth) k)
                (g.edges.getD k (0, 0)) =
                drawPathBetweenRooms
                  (drawCorridorsPrefix g (roomsMapBase g sizeX sizeY depth) k)
                  (g.nodes.getD (g.edges.getD k (0, 0)).1 default).extends_
                  (g.nodes.getD (g.edges.getD k (0, 0)).2 default).extends_ := by
              unfold drawEdgeStep
              rw [hget1, hget2]
            obtain ⟨hconn, hskip⟩ := drawPathBetweenRooms_spec
              (drawCorridorsPrefix g (roomsMapBase g sizeX sizeY depth) k)
              (g.nodes.getD (g.edges.getD k (0, 0)).1 default).extends_
              (g.nodes.getD (g.edges.getD k (0, 0)).2 default).extends_
              hwfk hax hay hbx hby
            by_cases hxe : (interiorXRange
                (g.nodes.getD (g.edges.getD k (0, 0)).1 default).extends_).filter
                (fun v => v ∈ interiorXRange
                  (g.nodes.getD (g.edges.getD k (0, 0)).2 default).extends_) = []
            · by_cases hye : (interiorYRange
                  (g.nodes.getD (g.edges.getD k (0, 0)).1 default).extends_).filter
                  (fun v => v ∈ interiorYRange
                    (g.nodes.getD (g.edges.getD k (0, 0)).2 default).extends_) = []
              · left
                refine ⟨hxe, hye, ?_⟩
                rw [hsucc, hstep, hskip hxe hye]
              · right
                rw [hsucc, hstep]
                exact hconn (Or.inr hye)
            · right
              rw [hsucc, hstep]
              exact hconn (Or.inl hxe)

/-- A room layout the carving stage can produce on which the connection walk
creates an edge between two rooms that share neither an interior column nor
an interior row: a 3-wide, 9-tall room and an 8-wide, 3-tall room touching
only at the corner (2,3)/(2,2).  The second room overlaps the degenerate
above-side vicinity box of the first (whose x-extent is inverted for a
3-wide room, but whose corner points still land inside the second room). -/
def c1BadRooms : List Room :=
  [Room.new ⟨⟨0, 3⟩, ⟨2, 11⟩⟩, Room.new ⟨⟨2, 0⟩, ⟨9, 2⟩⟩]

/-- The map `generate_new` returns on the `c1BadRooms` layout. -/
def c1BadMap : GameMap :=
  (generateNew 32 24 1 (fun _ => c1BadRooms) 8 2 8 (fun _ => 0)).getD
    (GameMap.createEmpty 0 0)

/-- Claim C1 (counterexample).  The claim states that for each graph edge a
corridor of floor tiles is drawn on the map connecting the two rooms.  On the
`c1BadRooms` layout, `generate_new` succeeds, the accepted room graph has the
single edge (0,1) (so `connected_components` is 1 and the retry loop exits),
yet `draw_path_between_rooms` draws nothing for that edge — the map after the
edge is processed equals the map before, and the returned map's tile table is
exactly the rooms-only raster with no corridor tiles at all, leaving the two
rooms unconnected by floor tiles. -/
theorem c1_corridor_counterexample :
    generateNew 32 24 1 (fun _ => c1BadRooms) 8 2 8 (fun _ => 0) =
      some c1BadMap ∧
    c1BadMap.graph.edges = [(0, 1)] ∧
    drawCorridorsPrefix ⟨c1BadRooms, [(0, 1)]⟩
        (roomsMapBase ⟨c1BadRooms, [(0, 1)]⟩ 32 24 1) 1 =
      drawCorridorsPrefix ⟨c1BadRooms, [(0, 1)]⟩
        (roomsMapBase ⟨c1BadRooms, [(0, 1)]⟩ 32 24 1) 0 ∧
    c1BadMap.map = (roomsMapBase ⟨c1BadRooms, [(0, 1)]⟩ 32 24 1).map := by
  refine ⟨by decide, by decide, by decide, by decide⟩

/-- A room layout on which the pipeline draws a connecting corridor: two
5-by-5 rooms stacked vertically two tiles apart, sharing the interior columns
1..3. -/
def c1GoodRooms : List Room :=
  [Room.new ⟨⟨0, 0⟩, ⟨4, 4⟩⟩, Room.new ⟨⟨0, 6⟩, ⟨4, 10⟩⟩]

/-- The map `generate_new` returns on the `c1GoodRooms` layout. -/
def c1GoodMap : GameMap :=
  (generateNew 32 24 1 (fun _ => c1GoodRooms) 8 2 8 (fun _ => 0)).getD
    (GameMap.createEmpty 0 0)

/-- Claim C1 witness: the amended connectivity theorem applied to the
concrete `c1GoodRooms` layout. -/
theorem c1_generate_new_connectivity_witness :
    ∃ g : RoomGraphL,
      generateLoop (fun _ => c1GoodRooms) 8 0 2 = some g ∧
      c1GoodMap.graph.edges = g.edges ∧
      sameExtends c1GoodMap.graph.nodes g.nodes ∧
      c1GoodMap.map = (drawRoomsToMap g 32 24 1).map ∧
      islands g = 1 ∧
      (∀ i j, i < c1GoodMap.graph.nodes.length →
        j < c1GoodMap.graph.nodes.length →
        ReachEdges c1GoodMap.graph.edges i j) ∧
      (∀ k, k < g.edges.length →
        (((interiorXRange (g.nodes.getD (g.edges.getD k (0, 0)).1 default).extends_).filter
            (fun v => v ∈ interiorXRange
              (g.nodes.getD (g.edges.getD k (0, 0)).2 default).extends_) = [] ∧
          (interiorYRange (g.nodes.getD (g.edges.getD k (0, 0)).1 default).extends_).filter
            (fun v => v ∈ interiorYRange
              (g.nodes.getD (g.edges.getD k (0, 0)).2 default).extends_) = [] ∧
          drawCorridorsPrefix g (roomsMapBase g 32 24 1) (k + 1) =
            drawCorridorsPrefix g (roomsMapBase g 32 24 1) k) ∨
        corridorConnects
          (drawCorridorsPrefix g (roomsMapBase g 32 24 1) (k + 1))
          (g.nodes.getD (g.edges.getD k (0, 0)).1 default).extends_
          (g.nodes.getD (g.edges.getD k (0, 0)).2 default).extends_)) :=
  c1_generate_new_connectivity 32 24 1 (fun _ => c1GoodRooms) 8 2 8
    (fun _ => 0) c1GoodMap (by decide)

/-! ## ECS data model (src/ecs/, src/game/components/)

The claims cite the current iteration of the ECS: the `Component` enum of
src/game/components/core.rs, the `ECS` of src/ecs/ecs.rs, the
`EntityManager` of src/ecs/entity.rs and the payload types under
src/game/components/ (`Health` as cited from src/ecs/component/combat.rs).
Function pointers stored in components (event response callbacks, spell
effects) are defunctionalized into closed tag enumerations; the `f32`/`f64`
combat tuning fields are carried as exact rationals (they are stored and
copied, never computed with, in everything the claims exercise). -/

/-- Embeds `IndexedData<T>` from src/ecs/ecs.rs. -/
structure IndexedData (T : Type) where
  index : Nat
  data : T
deriving DecidableEq, Repr

/-- Embeds `IndexedData::new_with`. -/
def IndexedData.newWith {T : Type} (data : T) : IndexedData T := ⟨0, data⟩

/-- Embeds `IndexedData::make_change`. -/
def IndexedData.makeChange {T : Type} (d : IndexedData T) (data : T) :
    IndexedData T := ⟨d.index, data⟩

/-- Embeds `Name` from src/game/components/core.rs. -/
structure Name where
  raw : String
deriving DecidableEq, Repr

/-- Embeds `Collision` from src/game/components/core.rs. -/
inductive Collision where
  | Blocking
  | Walkable
  | Hazard
  | None
deriving DecidableEq, Repr

/-- Embeds `LoSBlocking` from src/game/components/core.rs. -/
inductive LoSBlocking where
  | Blocking
  | Partial
  | None
deriving DecidableEq, Repr

/-- Embeds `EffectType` from src/game/components/core.rs. -/
inductive EffectType where
  | None
  | Burning
  | Invisible
  | Levitate
  | Stoneskin
  | Acid
deriving DecidableEq, Repr

/-- Embeds `DurationEffect` from src/game/components/core.rs: a duration and
an effect kind; addition adds durations and keeps the left effect kind. -/
structure DurationEffect where
  duration : Int
  effect : EffectType
deriving DecidableEq, Repr

/-- Embeds `impl Add for DurationEffect`. -/
def DurationEffect.add (a b : DurationEffect) : DurationEffect :=
  ⟨a.duration + b.duration, a.effect⟩

/-- Embeds `ImageHandle` from src/game/components/core.rs (the state table as
an association list). -/
structure ImageHandle where
  current : ImageData
  states : List (String × ImageData)
deriving DecidableEq, Repr

/-- Embeds `ImageHandle::new`. -/
def ImageHandle.new (current : ImageData) : ImageHandle := ⟨current, []⟩

/-- Embeds `ImageHandle::change_state`. -/
def ImageHandle.changeState (h : ImageHandle) (newState : String) : ImageHandle :=
  { h with current := (h.states.lookup newState).getD h.current }

/-- Embeds `Health` from src/ecs/component/combat.rs. -/
structure Health where
  current : Int
  max : Int
deriving DecidableEq, Repr

/-- Embeds `Health::new`. -/
def Health.new (health : Int) : Health := ⟨health, health⟩

/-- Embeds `Attributes` from src/game/components/attributes.rs. -/
structure Attributes where
  strength : Int
  dexterity : Int
  level : Int
  xp : Int
  levelPending : Bool
deriving DecidableEq, Repr

/-- Embeds `Inventory` from src/game/components/inventory.rs. -/
structure Inventory where
  coins : Int
deriving DecidableEq, Repr

/-- Embeds `Inventory::inverse`. -/
def Inventory.inverse (inv : Inventory) : Inventory := ⟨-inv.coins⟩

/-- Embeds `DamageType` from src/ecs/component/combat.rs (source spelling
kept). -/
inductive DamageType where
  | Phsycial
  | Magical
deriving DecidableEq, Repr

/-- Embeds `HitMessages` from src/ecs/component/combat.rs. -/
structure HitMessages where
  defaultMsg : String
  critMsg : String
deriving DecidableEq, Repr

/-- Embeds `Attack` from src/ecs/component/combat.rs; the two float bonus
fields are carried as exact rationals. -/
structure Attack where
  damageBase : Int
  damageSpread : Int
  critChanceBonus : Rat
  critMultiplierBonus : Rat
  damageType : DamageType
  hitMessages : HitMessages
  maxRange : Int
deriving DecidableEq, Repr

/-- Embeds `Combat` from src/ecs/component/combat.rs. -/
structure Combat where
  melee : Option Attack
  ranged : Option Attack
deriving DecidableEq, Repr

/-- Embeds `AttackReport` from src/ecs/component/combat.rs. -/
structure AttackReport where
  damage : Int
  damageType : DamageType
  hitMessage : String
  range : Option Nat
deriving DecidableEq, Repr

/-- Embeds `EventType` from src/ecs/event.rs. -/
inductive EventType where
  | Bump
  | Shot
  | Death
  | Fire
deriving DecidableEq, Repr

/-- Embeds `AIAction` from src/game/components/behavior.rs. -/
inductive AIAction where
  | Approach
  | Attack
  | Shoot
  | Flee
  | Wander
  | Sleep
  | Awake
deriving DecidableEq, Repr

/-- Embeds `AIState` from src/game/components/behavior.rs. -/
inductive AIState where
  | Alert
  | Sleeping (remaining : Int)
deriving DecidableEq, Repr

/-- Defunctionalization of the `Box<dyn Behavior>` strategies of
src/game/components/behavior.rs; the `Cell` interior state of `SlowBehavior`
and `WanderBehavior` becomes plain fields. -/
inductive BehaviorKind where
  | MeleeBehavior
  | FastMeleeBehavior
  | ArcherBehavior
  | TrueSightArcherBehavior
  | SlowBehavior (actedLastTurn : Bool)
  | WanderBehavior (wanderCounter wanderThreshold : Nat)
deriving DecidableEq, Repr

/-- Embeds `TurnTaker` from src/game/components/behavior.rs. -/
structure TurnTaker where
  behavior : BehaviorKind
  state : AIState
  avoidHazards : Bool
deriving DecidableEq, Repr

/-- Embeds the component type discriminants (the strum-generated
`ComponentType` of src/game/components/core.rs). -/
inductive ComponentType where
  | Player
  | Monster
  | Door
  | Stairs
  | Name
  | Spell
  | Inventory
  | Combat
  | Image
  | Position
  | Health
  | Turn
  | Collision
  | LineOfSight
  | Attributes
  | BumpResponse
  | ShotResponse
  | DeathResponse
  | FireResponse
  | DurationEffect
deriving DecidableEq, Repr

/-- Defunctionalization tags for the response function pointers of
src/game/responses.rs that the claims exercise (a response component stores
one of these in place of the Rust `fn` pointer). -/
inductive ResponseFun where
  | emptyResponse
  | openImageResponse
  | closeImageResponse
  | openCollisionResponse
  | closeCollisionResponse
  | openLosBlockingResponse
  | closeLosBlockingResponse
  | setOpenDoorBumpResponse
  | setCloseDoorBumpResponse
  | spreadFireResponse
  | spreadIfOnFireResponse
  | openDoorResponse
  | closeDoorResponse
deriving DecidableEq, Repr

/-- Embeds `EventResponse` from src/ecs/event.rs. -/
structure EventResponse where
  ownEntity : Nat
  responseFunction : ResponseFun
deriving DecidableEq, Repr

/-- Defunctionalization tag for `Spell` effect function pointers (none of the
claims invoke a spell effect). -/
inductive SpellEffect where
  | noEffect
deriving DecidableEq, Repr

/-- Embeds `CooldownState` from src/game/components/spells.rs. -/
inductive CooldownState where
  | Available
  | Cooldown
deriving DecidableEq, Repr

/-- Embeds `ComponentQuery` from src/ecs/system.rs. -/
structure ComponentQuery where
  required : List ComponentType
  optional : List ComponentType
deriving DecidableEq, Repr

/-- Embeds `Spell` from src/game/components/spells.rs. -/
structure Spell where
  name : String
  image : ImageHandle
  query : ComponentQuery
  effect : SpellEffect
  castable : CooldownState
deriving DecidableEq, Repr

/-- Embeds the `Component` enum of src/game/components/core.rs. -/
inductive Component where
  | Player (d : IndexedData Unit)
  | Monster (d : IndexedData Unit)
  | Door (d : IndexedData Unit)
  | Stairs (d : IndexedData Unit)
  | Name (d : IndexedData Name)
  | Spell (d : IndexedData Spell)
  | Inventory (d : IndexedData Inventory)
  | Combat (d : IndexedData Combat)
  | Image (d : IndexedData ImageHandle)
  | Position (d : IndexedData Coordinate)
  | Health (d : IndexedData Health)
  | Turn (d : IndexedData TurnTaker)
  | Collision (d : IndexedData Collision)
  | LineOfSight (d : IndexedData LoSBlocking)
  | Attributes (d : IndexedData Attributes)
  | BumpResponse (d : IndexedData EventResponse)
  | ShotResponse (d : IndexedData EventResponse)
  | DeathResponse (d : IndexedData EventResponse)
  | FireResponse (d : IndexedData EventResponse)
  | DurationEffect (d : IndexedData DurationEffect)
deriving DecidableEq, Repr

namespace Component

/-- Embeds `Component::get_id`. -/
def getId : Component → Nat
  | Player d => d.index
  | Monster d => d.index
  | Door d => d.index
  | Stairs d => d.index
  | Name d => d.index
  | Spell d => d.index
  | Inventory d => d.index
  | Combat d => d.index
  | Image d => d.index
  | Position d => d.index
  | Health d => d.index
  | Turn d => d.index
  | Collision d => d.index
  | LineOfSight d => d.index
  | Attributes d => d.index
  | BumpResponse d => d.index
  | ShotResponse d => d.index
  | DeathResponse d => d.index
  | FireResponse d => d.index
  | DurationEffect d => d.index

/-- Embeds `Component::set_id`. -/
def setId : Component → Nat → Component
  | Player d, id => Player { d with index := id }
  | Monster d, id => Monster { d with index := id }
  | Door d, id => Door { d with index := id }
  | Stairs d, id => Stairs { d with index := id }
  | Name d, id => Name { d with index := id }
  | Spell d, id => Spell { d with index := id }
  | Inventory d, id => Inventory { d with index := id }
  | Combat d, id => Combat { d with index := id }
  | Image d, id => Image { d with index := id }
  | Position d, id => Position { d with index := id }
  | Health d, id => Health { d with index := id }
  | Turn d, id => Turn { d with index := id }
  | Collision d, id => Collision { d with index := id }
  | LineOfSight d, id => LineOfSight { d with index := id }
  | Attributes d, id => Attributes { d with index := id }
  | BumpResponse d, id => BumpResponse { d with index := id }
  | ShotResponse d, id => ShotResponse { d with index := id }
  | DeathResponse d, id => DeathResponse { d with index := id }
  | FireResponse d, id => FireResponse { d with index := id }
  | DurationEffect d, id => DurationEffect { d with index := id }

/-- The strum discriminant of a component. -/
def toType : Component → ComponentType
  | Player _ => ComponentType.Player
  | Monster _ => ComponentType.Monster
  | Door _ => ComponentType.Door
  | Stairs _ => ComponentType.Stairs
  | Name _ => ComponentType.Name
  | Spell _ => ComponentType.Spell
  | Inventory _ => ComponentType.Inventory
  | Combat _ => ComponentType.Combat
  | Image _ => ComponentType.Image
  | Position _ => ComponentType.Position
  | Health _ => ComponentType.Health
  | Turn _ => ComponentType.Turn
  | Collision _ => ComponentType.Collision
  | LineOfSight _ => ComponentType.LineOfSight
  | Attributes _ => ComponentType.Attributes
  | BumpResponse _ => ComponentType.BumpResponse
  | ShotResponse _ => ComponentType.ShotResponse
  | DeathResponse _ => ComponentType.DeathResponse
  | FireResponse _ => ComponentType.FireResponse
  | DurationEffect _ => ComponentType.DurationEffect

/-- Embeds `Component::is_of_type`. -/
def isOfType (c : Component) (other : ComponentType) : Bool :=
  other = c.toType

end Component

/-! ### Diffable implementations -/

/-- Embeds `Health::apply_diff` (src/ecs/component/combat.rs): both fields
add. -/
def Health.applyDiff (h other : Health) : Health :=
  ⟨h.current + other.current, h.max + other.max⟩

/-- Embeds `Attributes::apply_diff` (src/game/components/attributes.rs): the
numeric fields add, the `level_pending` flag is overwritten by the diff. -/
def Attributes.applyDiff (a other : Attributes) : Attributes :=
  { strength := a.strength + other.strength,
    dexterity := a.dexterity + other.dexterity,
    level := a.level + other.level,
    xp := a.xp + other.xp,
    levelPending := other.levelPending }

/-- Embeds `Combat::apply_diff` (src/ecs/component/combat.rs): both attack
slots are overwritten. -/
def Combat.applyDiff (_c other : Combat) : Combat :=
  ⟨other.melee, other.ranged⟩

/-- Embeds `Inventory::apply_diff`: the coins add. -/
def Inventory.applyDiff (inv other : Inventory) : Inventory :=
  ⟨inv.coins + other.coins⟩

/-- Embeds `Coordinate`'s `Diffable` impl (src/map/utils.rs): both axes
add. -/
def Coordinate.applyDiff (c other : Coordinate) : Coordinate :=
  ⟨c.x + other.x, c.y + other.y⟩

/-- Embeds `ImageHandle`'s `Diffable` impl: the current image is overwritten,
the state table is kept. -/
def ImageHandle.applyDiff (h other : ImageHandle) : ImageHandle :=
  { h with current := other.current }

/-- Embeds `EventResponse`'s `Diffable` impl (src/ecs/event.rs): only the
response function is overwritten.  (`Component::apply_diff` does not dispatch
to this impl: it clone-overwrites the whole response payload.) -/
def EventResponse.applyDiff (r other : EventResponse) : EventResponse :=
  { r with responseFunction := other.responseFunction }

/-- Embeds `TurnTaker`'s `Diffable` impl: behavior and state are
overwritten, `avoid_hazards` is kept.  (`Component::apply_diff` does not
dispatch to this impl: it clone-overwrites the whole payload.) -/
def TurnTaker.applyDiff (t other : TurnTaker) : TurnTaker :=
  { t with behavior := other.behavior, state := other.state }

/-- Embeds `Spell`'s `Diffable` impl (src/game/components/spells.rs): query,
effect and cooldown state are overwritten, name and image are kept.
(`Component::apply_diff` does not dispatch to this impl: it clone-overwrites
the whole payload.) -/
def Spell.applyDiff (s other : Spell) : Spell :=
  { s with query := other.query, effect := other.effect,
           castable := other.castable }

/-- The merge match of `Component::apply_diff`
(src/game/components/core.rs), without the id assertion: merge types merge
their payloads, overwrite types replace them, and a variant mismatch leaves
the component unchanged (the wildcard arm). -/
def Component.applyDiffData : Component → Component → Component
  | .Health d, .Health o => .Health ⟨d.index, d.data.applyDiff o.data⟩
  | .Attributes d, .Attributes o => .Attributes ⟨d.index, d.data.applyDiff o.data⟩
  | .Combat d, .Combat o => .Combat ⟨d.index, d.data.applyDiff o.data⟩
  | .Inventory d, .Inventory o => .Inventory ⟨d.index, d.data.applyDiff o.data⟩
  | .Position d, .Position o => .Position ⟨d.index, d.data.applyDiff o.data⟩
  | .DurationEffect d, .DurationEffect o =>
      .DurationEffect ⟨d.index, d.data.add o.data⟩
  | .Image d, .Image o => .Image ⟨d.index, d.data.applyDiff o.data⟩
  | .Name d, .Name o => .Name ⟨d.index, o.data⟩
  | .Turn d, .Turn o => .Turn ⟨d.index, o.data⟩
  | .Spell d, .Spell o => .Spell ⟨d.index, o.data⟩
  | .Collision d, .Collision o => .Collision ⟨d.index, o.data⟩
  | .LineOfSight d, .LineOfSight o => .LineOfSight ⟨d.index, o.data⟩
  | .BumpResponse d, .BumpResponse o => .BumpResponse ⟨d.index, o.data⟩
  | .ShotResponse d, .ShotResponse o => .ShotResponse ⟨d.index, o.data⟩
  | .DeathResponse d, .DeathResponse o => .DeathResponse ⟨d.index, o.data⟩
  | .FireResponse d, .FireResponse o => .FireResponse ⟨d.index, o.data⟩
  | c, _ => c

/-- Embeds `Component::apply_diff` including its
`assert!(self.get_id() == other.get_id())`: `none` models the assertion
panic on mismatched ids. -/
def Component.applyDiff (c other : Component) : Option Component :=
  if c.getId = other.getId then some (c.applyDiffData other) else none

/-! ## ECS storage (src/ecs/ecs.rs, src/ecs/entity.rs) -/

/-- First-match association-list lookup (`HashMap::get`). -/
def assocLookup {α : Type} : List (Nat × α) → Nat → Option α
  | [], _ => none
  | (k, v) :: rest, id => if k = id then some v else assocLookup rest id

/-- Update the first entry with the given key (`HashMap::get_mut` followed by
an in-place mutation). -/
def assocUpdate {α : Type} : List (Nat × α) → Nat → (α → α) → List (Nat × α)
  | [], _, _ => []
  | (k, v) :: rest, id, f =>
      if k = id then (k, f v) :: rest else (k, v) :: assocUpdate rest id f

/-- Remove every entry with the given key (`HashMap::remove`; entries shadowed
by a later insert are dropped together with the visible one). -/
def assocRemove {α : Type} (l : List (Nat × α)) (id : Nat) : List (Nat × α) :=
  l.filter (fun e => e.1 ≠ id)

/-- Embeds `Entity` (`IndexedData<HashSet<usize>>`); the id set is a
duplicate-free list. -/
abbrev Entity := IndexedData (List Nat)

/-- `HashSet::insert` on the duplicate-free list model. -/
def setInsert (s : List Nat) (x : Nat) : List Nat :=
  if x ∈ s then s else s ++ [x]

/-- Embeds `ComponentManager` from src/ecs.rs (the component half of the
ECS): one shared strictly increasing id counter and the id-keyed component
table. -/
structure ComponentManager where
  nextId : Nat
  components : List (Nat × Component)
deriving DecidableEq

namespace ComponentManager

/-- Embeds `ComponentManager::new`. -/
def new : ComponentManager := ⟨0, []⟩

/-- Embeds `ComponentManager::assign_id`: stamp the next id onto the
component and advance the counter. -/
def assignId (cm : ComponentManager) (c : Component) :
    Component × ComponentManager :=
  (c.setId cm.nextId, { cm with nextId := cm.nextId + 1 })

/-- Embeds `ComponentManager::register_new`: insert keyed by the component's
id (overwriting any previous entry at that id). -/
def registerNew (cm : ComponentManager) (c : Component) : ComponentManager :=
  { cm with components := (c.getId, c) :: cm.components }

/-- Embeds `ComponentManager::get_component`. -/
def getComponent (cm : ComponentManager) (id : Nat) : Option Component :=
  assocLookup cm.components id

/-- Embeds `ComponentManager::remove_component`. -/
def removeComponent (cm : ComponentManager) (id : Nat) : ComponentManager :=
  { cm with components := assocRemove cm.components id }

/-- Embeds `ComponentManager::get_components`: the components of an entity's
id set that are present in the table. -/
def getComponents (cm : ComponentManager) (entity : Entity) : List Component :=
  entity.data.filterMap (fun id => cm.getComponent id)

/-- Embeds `ComponentManager::apply_change`: look the target up by the
change's id and merge the diff into it; a missing target is silently
ignored.  The in-place `apply_diff` call asserts equal ids; the table always
keys a component by its own id, so the assertion cannot fire and the merge
is the plain `applyDiffData`. -/
def applyChange (cm : ComponentManager) (change : Component) : ComponentManager :=
  match cm.getComponent change.getId with
  | some _ =>
      { cm with components :=
          assocUpdate cm.components change.getId (fun c => c.applyDiffData change) }
  | none => cm

end ComponentManager

/-- Embeds `EntityManager` from src/ecs/entity.rs.  The spatial room index
(`StorageGraph`, a copy of the room graph holding per-room entity-id sets,
updated only by `set_entity_position`) is omitted: it is disjoint from the
entity table and the component-id sets that the claims concern. -/
structure EntityManager where
  entities : List Entity
  idsToReuse : List Nat
  playerId : Nat
deriving DecidableEq

/-- The `usize::MAX` sentinel used for "no player yet". -/
def USIZE_MAX : Nat := 18446744073709551615

namespace EntityManager

/-- Embeds `EntityManager::get_entity` (dense index addressing). -/
def getEntity (em : EntityManager) (id : Nat) : Option Entity :=
  em.entities.get? id

/-- Embeds `EntityManager::get_entity_from_component` (reverse index
scan). -/
def getEntityFromComponent (em : EntityManager) (componentId : Nat) :
    Option Nat :=
  (em.entities.find? (fun e => e.data.contains componentId)).map
    (fun e => e.index)

/-- Embeds `EntityManager::add_component`: insert the component id into the
entity's id set (no-op for a missing entity). -/
def addComponent (em : EntityManager) (id componentId : Nat) : EntityManager :=
  match em.entities.get? id with
  | some e =>
      { em with entities :=
          em.entities.set id { e with data := setInsert e.data componentId } }
  | none => em

/-- Embeds `EntityManager::remove_component`: remove the component id from
the entity's id set (no-op for a missing entity). -/
def removeComponent (em : EntityManager) (id componentId : Nat) : EntityManager :=
  match em.entities.get? id with
  | some e =>
      { em with entities :=
          em.entities.set id { e with data := e.data.erase componentId } }
  | none => em

/-- Embeds `EntityManager::set_new_player`. -/
def setNewPlayer (em : EntityManager) (id : Nat) : EntityManager :=
  { em with playerId := id }

/-- Embeds `EntityManager::get_player_entity`. -/
def getPlayerEntity (em : EntityManager) : Option Entity :=
  em.getEntity em.playerId

/-- Embeds `EntityManager::remove_entity`: clear the entity's component-id
set and mark the slot recyclable. -/
def removeEntity (em : EntityManager) (id : Nat) : EntityManager :=
  match em.entities.get? id with
  | some e =>
      { em with
          entities := em.entities.set id { e with data := [] },
          idsToReuse := em.idsToReuse ++ [e.index] }
  | none => em

/-- Embeds `EntityManager::register_new` together with `next_id`: the new
index is the table length, so the push branch of the assertion always
applies. -/
def registerNew (em : EntityManager) (entity : Entity) : Nat × EntityManager :=
  let index := em.entities.length
  (index, { em with entities := em.entities ++ [{ entity with index := index }] })

end EntityManager

/-- Embeds `EntityIdentifier` from src/ecs/ecs.rs. -/
structure EntityIdentifier where
  ownedComponentId : Option Nat
  entityId : Option Nat
deriving DecidableEq, Repr

/-- Embeds `EntityIdentifier::new_from_component`. -/
def EntityIdentifier.newFromComponent (componentId : Nat) : EntityIdentifier :=
  ⟨some componentId, none⟩

/-- Embeds `EntityIdentifier::new_from_entity`. -/
def EntityIdentifier.newFromEntity (entityId : Nat) : EntityIdentifier :=
  ⟨none, some entityId⟩

/-- Embeds `DeleteComponentOrder`. -/
structure DeleteComponentOrder where
  componentId : Nat
  entityId : Option Nat
deriving DecidableEq, Repr

/-- Embeds `DeleteEntityOrder`. -/
structure DeleteEntityOrder where
  entity : EntityIdentifier
deriving DecidableEq, Repr

/-- Embeds `DeleteEntityOrder::new_from_component`. -/
def DeleteEntityOrder.newFromComponent (componentId : Nat) : DeleteEntityOrder :=
  ⟨EntityIdentifier.newFromComponent componentId⟩

/-- Embeds `MakeComponentOrder`. -/
structure MakeComponentOrder where
  component : Component
  entity : EntityIdentifier
deriving DecidableEq

/-- Embeds `MakeEntityOrder`. -/
structure MakeEntityOrder where
  components : List Component
deriving DecidableEq

/-- Embeds the `Delta` enum of src/ecs/ecs.rs, the only legal mutation path
for game-logic code. -/
inductive Delta where
  | Change (c : Component)
  | DeleteComponent (o : DeleteComponentOrder)
  | DeleteEntity (o : DeleteEntityOrder)
  | MakeComponent (o : MakeComponentOrder)
  | MakeEntity (o : MakeEntityOrder)
deriving DecidableEq

/-- Embeds `ECS` from src/ecs/ecs.rs. -/
structure ECS where
  componentStorage : ComponentManager
  entityStorage : EntityManager
deriving DecidableEq

namespace ECS

/-- Embeds `ECS::get_entity`. -/
def getEntity (ecs : ECS) (entityId : Nat) : Option Entity :=
  ecs.entityStorage.getEntity entityId

/-- Embeds `ECS::get_components_from_entity_id`. -/
def getComponentsFromEntityId (ecs : ECS) (entityId : Nat) : List Component :=
  match ecs.getEntity entityId with
  | some e => ecs.componentStorage.getComponents e
  | none => []

/-- Embeds `ECS::get_component_from_entity_id`. -/
def getComponentFromEntityId (ecs : ECS) (entityId : Nat)
    (compType : ComponentType) : Option Component :=
  (ecs.getComponentsFromEntityId entityId).find?
    (fun comp => comp.isOfType compType)

/-- Embeds `ECS::get_component`. -/
def getComponent (ecs : ECS) (componentId : Nat) : Option Component :=
  ecs.componentStorage.getComponent componentId

/-- Embeds `ECS::get_entity_id_from_component_id`. -/
def getEntityIdFromComponentId (ecs : ECS) (componentId : Nat) : Option Nat :=
  ecs.entityStorage.getEntityFromComponent componentId

/-- Embeds `ECS::get_player_id`. -/
def getPlayerId (ecs : ECS) : Nat :=
  ecs.entityStorage.playerId

/-- Embeds `ECS::has_player`. -/
def hasPlayer (ecs : ECS) : Bool :=
  (ecs.getEntity ecs.getPlayerId).isSome

/-- Embeds `ECS::attatch_component` (source spelling kept): response
components learn their owning entity, and the id is inserted into the
entity's component-id set.  The `Position` branch additionally updates the
omitted spatial room index (see `EntityManager`) and is dropped with it. -/
def attatchComponent (ecs : ECS) (entityId : Nat) (component : Component) :
    ECS × Component :=
  let component := match component with
    | .BumpResponse d =>
        Component.BumpResponse ⟨d.index, { d.data with ownEntity := entityId }⟩
    | .ShotResponse d =>
        Component.ShotResponse ⟨d.index, { d.data with ownEntity := entityId }⟩
    | .DeathResponse d =>
        Component.DeathResponse ⟨d.index, { d.data with ownEntity := entityId }⟩
    | .FireResponse d =>
        Component.FireResponse ⟨d.index, { d.data with ownEntity := entityId }⟩
    | c => c
  ({ ecs with entityStorage :=
      ecs.entityStorage.addComponent entityId component.getId }, component)

/-- Embeds `ECS::add_component_to_entity`: replacing the player entity when a
`Player` marker is attached, assigning a fresh id, attaching and
registering. -/
def addComponentToEntity (ecs : ECS) (entityId : Nat) (component : Component) :
    ECS :=
  let ecs :=
    if component.isOfType ComponentType.Player then
      let ecs := match ecs.entityStorage.getPlayerEntity with
        | some oldPlayer =>
            let cm := oldPlayer.data.foldl
              (fun (cm : ComponentManager) componentId => cm.removeComponent componentId)
              ecs.componentStorage
            { ecs with
                componentStorage := cm,
                entityStorage := ecs.entityStorage.removeEntity oldPlayer.index }
        | none => ecs
      { ecs with entityStorage := ecs.entityStorage.setNewPlayer entityId }
    else ecs
  let (component, cm) := ecs.componentStorage.assignId component
  let (ecs, component) := attatchComponent { ecs with componentStorage := cm }
    entityId component
  { ecs with componentStorage := ecs.componentStorage.registerNew component }

/-- Embeds `ECS::add_components_to_entity`. -/
def addComponentsToEntity (ecs : ECS) (entityId : Nat)
    (components : List Component) : ECS :=
  components.foldl (fun ecs c => ecs.addComponentToEntity entityId c) ecs

/-- Embeds `ECS::create_entity`. -/
def createEntity (ecs : ECS) : Nat × ECS :=
  let (id, em) := ecs.entityStorage.registerNew ⟨0, []⟩
  (id, { ecs with entityStorage := em })

/-- Embeds `ECS::remove_entity`: delete every owned component, then clear the
entity slot. -/
def removeEntity (ecs : ECS) (entityId : Nat) : ECS :=
  match ecs.entityStorage.getEntity entityId with
  | some e =>
      let cm := e.data.foldl
        (fun cm componentId => cm.removeComponent componentId)
        ecs.componentStorage
      { ecs with
          componentStorage := cm,
          entityStorage := ecs.entityStorage.removeEntity entityId }
  | none => ecs

/-- Embeds `ECS::remove_component`: detach from the entity and delete from
the table. -/
def removeComponent (ecs : ECS) (entityId componentId : Nat) : ECS :=
  { ecs with
      entityStorage := ecs.entityStorage.removeComponent entityId componentId,
      componentStorage := ecs.componentStorage.removeComponent componentId }

/-- Embeds `ECS::remove_component_list` (component table only). -/
def removeComponentList (ecs : ECS) (ids : List Nat) : ECS :=
  { ecs with componentStorage :=
      ids.foldl (fun cm id => cm.removeComponent id) ecs.componentStorage }

/-- Embeds `ECS::get_entity_id_from_identifier`. -/
def getEntityIdFromIdentifier (ecs : ECS) (ident : EntityIdentifier) :
    Option Nat :=
  match ident.entityId with
  | some id => some id
  | none =>
      match ident.ownedComponentId with
      | some componentId => ecs.getEntityIdFromComponentId componentId
      | none => none

/-- Embeds `ECS::delete_entity`: resolve the identifier, drop the entity's
surviving components from the table, then remove the entity (a failed lookup
is logged and ignored). -/
def deleteEntity (ecs : ECS) (ident : EntityIdentifier) : ECS :=
  match ecs.getEntityIdFromIdentifier ident with
  | some entityId =>
      let ids := (ecs.getComponentsFromEntityId entityId).map Component.getId
      let ecs := ecs.removeComponentList ids
      ecs.removeEntity entityId
  | none => ecs

/-- Embeds `ECS::delete_component`: honor the entity hint when present,
otherwise find the owner by reverse scan (a failed lookup is logged and
ignored). -/
def deleteComponent (ecs : ECS) (componentId : Nat) (entityId : Option Nat) :
    ECS :=
  match entityId with
  | some e => ecs.removeComponent e componentId
  | none =>
      match ecs.entityStorage.getEntityFromComponent componentId with
      | some e => ecs.removeComponent e componentId
      | none => ecs

/-- Embeds `ECS::add_component` (the `MakeComponent` delta; a failed entity
lookup is logged and ignored). -/
def addComponent (ecs : ECS) (component : Component)
    (entity : EntityIdentifier) : ECS :=
  match ecs.getEntityIdFromIdentifier entity with
  | some entityId => ecs.addComponentToEntity entityId component
  | none => ecs

/-- Embeds `ECS::apply_change`, the single entry point applying one delta.
The `Change`-on-`Position` special case additionally updates the omitted
spatial room index and is dropped with it. -/
def applyChange (ecs : ECS) (change : Delta) : ECS :=
  match change with
  | Delta.Change component =>
      { ecs with componentStorage := ecs.componentStorage.applyChange component }
  | Delta.DeleteComponent o => ecs.deleteComponent o.componentId o.entityId
  | Delta.MakeComponent o => ecs.addComponent o.component o.entity
  | Delta.DeleteEntity o => ecs.deleteEntity o.entity
  | Delta.MakeEntity o =>
      let (entityId, ecs) := ecs.createEntity
      ecs.addComponentsToEntity entityId o.components

/-- Embeds `ECS::apply_changes`. -/
def applyChanges (ecs : ECS) (changeList : List Delta) : ECS :=
  changeList.foldl applyChange ecs

end ECS

/-! ## Events and unit reports (src/ecs/event.rs, src/game/archetype.rs) -/

/-- Embeds `InteractionEvent` from src/ecs/event.rs. -/
structure InteractionEvent where
  eventType : EventType
  attack : Option AttackReport
  payload : List Component
deriving DecidableEq

/-- Embeds `UnitReport` from src/game/archetype.rs. -/
structure UnitReport where
  position : IndexedData Coordinate
  combat : IndexedData Combat
  name : Option (IndexedData Name)
  stats : Option (IndexedData Attributes)
  health : Option (IndexedData Health)
  items : Option (IndexedData Inventory)
  bump : InteractionEvent
  shoot : InteractionEvent
deriving DecidableEq

/-! ## Line of sight (src/utils/los.rs)

`ecs.is_los_blocked_by_entity` queries the omitted spatial room index, so it
enters as an oracle predicate `losEnt : Coordinate → Bool`. -/

/-- Embeds `GameMap::is_tile_los_blocking` (`none` models the panic inside
`GameTile::is_los_blocking` on an unregistered tile id; a missing tile is
`false`). -/
def GameMap.isTileLosBlocking (m : GameMap) (c : Coordinate) : Option Bool :=
  match m.getGameTile c with
  | some t => t.isLosBlocking
  | none => some false

/-- The Bresenham loop of `linetrace` (src/utils/los.rs), with explicit
fuel; `none` is fuel exhaustion, never a panic of the source loop. -/
def linetraceLoop : Nat → Coordinate → Int → Int → Int → Int → Coordinate →
    Int → List Coordinate → Option (List Coordinate)
  | 0, _, _, _, _, _, _, _, _ => none
  | fuel + 1, dest, sx, sy, dx, dy, current, error, results =>
      let results := results ++ [current]
      if current.x = dest.x ∧ current.y = dest.y then some results
      else
        let error2 := 2 * error
        if error2 ≥ dy then
          if current.x = dest.x then some results
          else
            let error := error + dy
            let current : Coordinate := ⟨current.x + sx, current.y⟩
            if error2 ≤ dx then
              if current.y = dest.y then some results
              else linetraceLoop fuel dest sx sy dx dy
                ⟨current.x, current.y + sy⟩ (error + dx) results
            else linetraceLoop fuel dest sx sy dx dy current error results
        else
          if error2 ≤ dx then
            if current.y = dest.y then some results
            else linetraceLoop fuel dest sx sy dx dy
              ⟨current.x, current.y + sy⟩ (error + dx) results
          else linetraceLoop fuel dest sx sy dx dy current error results

/-- Embeds `linetrace` (src/utils/los.rs). -/
def linetrace (fuel : Nat) (origin destination : Coordinate) :
    Option (List Coordinate) :=
  let dx := destination.x - origin.x
  let dy := destination.y - origin.y
  let sx : Int := if dx > 0 then 1 else -1
  let sy : Int := if dy > 0 then 1 else -1
  let dx := |dx|
  let dy := -|dy|
  linetraceLoop fuel destination sx sy dx dy origin (dx + dy) []

/-- Embeds `los_block_on_line` (src/utils/los.rs): a short-circuiting `any`
over the line; `none` propagates the tile-registry panic. -/
def losBlockOnLine : List Coordinate → GameMap → (Coordinate → Bool) →
    Option Bool
  | [], _, _ => some false
  | p :: rest, map, losEnt =>
      match map.isTileLosBlocking p with
      | none => none
      | some true => some true
      | some false =>
          if losEnt p then some true
          else losBlockOnLine rest map losEnt

/-- Embeds `line_of_sight` (src/utils/los.rs).  The slice
`&full_line[1..full_line.len() - 1]` panics when the traced line is shorter
than two points (an inverted range), modeled as `none`. -/
def lineOfSight (fuel : Nat) (origin destination : Coordinate)
    (map : GameMap) (losEnt : Coordinate → Bool) : Option Bool := do
  let fullLine ← linetrace fuel origin destination
  if fullLine.length < 2 then none
  else
    let lineBetween := (fullLine.drop 1).take (fullLine.length - 2)
    match losBlockOnLine lineBetween map losEnt with
    | none => none
    | some b => some (!b)

/-! ## Game::shoot_command (src/game/core.rs)

The player report and the blocking-entity lookup at the target coordinate
(`ecs.get_blocking_entity`, a spatial-index query) enter as parameters; the
two `f32` distance guards are carried out on the integer squared distance,
which is exact for the thresholds involved (`distance > range` iff
`distSq > range²` and `distance < 1.3` iff `distSq < 2` on integer
coordinates). -/

/-- The observable outcomes of `Game::shoot_command`. -/
inductive ShootOutcome where
  | NoPlayer
  | NoTarget
  | OutOfSight
  | OutOfRange
  | TooClose
  | Fired
deriving DecidableEq, Repr

/-- Embeds `Game::shoot_command` up to the event propagation (`Fired`
abstracts the `propagate_and_apply_event`/`end_turn` tail).  The order of
effects follows the source: report, target lookup, the `range` unwraps
(panicking on a rangeless attack), the line-of-sight computation — which
panics when the target sits on the player — and only then the three
guards. -/
def shootCommand (fuel : Nat) (playerReport : Option UnitReport)
    (blockingTarget : Option Nat) (coord : Coordinate) (map : GameMap)
    (losEnt : Coordinate → Bool) : Option ShootOutcome :=
  match playerReport with
  | none => some ShootOutcome.NoPlayer
  | some report =>
      match blockingTarget with
      | none => some ShootOutcome.NoTarget
      | some _ =>
          let event := report.shoot
          let distSq := Coordinate.distSq coord report.position.data
          match event.attack with
          | none => none
          | some attack =>
              match attack.range with
              | none => none
              | some range =>
                  match lineOfSight fuel report.position.data coord map
                      losEnt with
                  | none => none
                  | some los =>
                      if !los then some ShootOutcome.OutOfSight
                      else if distSq > (range : Int) * (range : Int) then
                        some ShootOutcome.OutOfRange
                      else if distSq < 2 then some ShootOutcome.TooClose
                      else some ShootOutcome.Fired

/-! ## C2: commutativity of additive deltas -/

/-- Looking a key up after `assocUpdate` on that key sees the updated
value. -/
theorem assocLookup_assocUpdate_self {α : Type} (l : List (Nat × α)) (k : Nat)
    (f : α → α) :
    assocLookup (assocUpdate l k f) k = (assocLookup l k).map f := by
  induction l with
  | nil => rfl
  | cons e rest ih =>
      obtain ⟨k', v⟩ := e
      by_cases hk : k' = k
      · simp [assocUpdate, assocLookup, hk]
      · simp [assocUpdate, assocLookup, hk, ih]

/-- C2: for the additive component kinds the spec lists, two `Change` deltas
applied through `Component.apply_diff` commute — except for `Attributes`,
whose numeric fields add but whose `level_pending` flag is overwritten by
the diff, so two `Attributes` deltas commute exactly when they agree on
`level_pending`.  Health, Inventory, Position and DurationEffect deltas
commute unconditionally. -/
theorem c2_additive_apply_diff_commutes :
    (∀ (i : Nat) (h a b : Health),
      ((Component.Health ⟨i, h⟩).applyDiff (Component.Health ⟨i, a⟩)).bind
          (fun c => c.applyDiff (Component.Health ⟨i, b⟩)) =
        ((Component.Health ⟨i, h⟩).applyDiff (Component.Health ⟨i, b⟩)).bind
          (fun c => c.applyDiff (Component.Health ⟨i, a⟩))) ∧
    (∀ (i : Nat) (v a b : Inventory),
      ((Component.Inventory ⟨i, v⟩).applyDiff (Component.Inventory ⟨i, a⟩)).bind
          (fun c => c.applyDiff (Component.Inventory ⟨i, b⟩)) =
        ((Component.Inventory ⟨i, v⟩).applyDiff (Component.Inventory ⟨i, b⟩)).bind
          (fun c => c.applyDiff (Component.Inventory ⟨i, a⟩))) ∧
    (∀ (i : Nat) (p a b : Coordinate),
      ((Component.Position ⟨i, p⟩).applyDiff (Component.Position ⟨i, a⟩)).bind
          (fun c => c.applyDiff (Component.Position ⟨i, b⟩)) =
        ((Component.Position ⟨i, p⟩).applyDiff (Component.Position ⟨i, b⟩)).bind
          (fun c => c.applyDiff (Component.Position ⟨i, a⟩))) ∧
    (∀ (i : Nat) (e a b : DurationEffect),
      ((Component.DurationEffect ⟨i, e⟩).applyDiff
            (Component.DurationEffect ⟨i, a⟩)).bind
          (fun c => c.applyDiff (Component.DurationEffect ⟨i, b⟩)) =
        ((Component.DurationEffect ⟨i, e⟩).applyDiff
            (Component.DurationEffect ⟨i, b⟩)).bind
          (fun c => c.applyDiff (Component.DurationEffect ⟨i, a⟩))) ∧
    (∀ (i : Nat) (x a b : Attributes), a.levelPending = b.levelPending →
      ((Component.Attributes ⟨i, x⟩).applyDiff (Component.Attributes ⟨i, a⟩)).bind
          (fun c => c.applyDiff (Component.Attributes ⟨i, b⟩)) =
        ((Component.Attributes ⟨i, x⟩).applyDiff (Component.Attributes ⟨i, b⟩)).bind
          (fun c => c.applyDiff (Component.Attributes ⟨i, a⟩))) := by
  refine ⟨?_, ?_, ?_, ?_, ?_⟩ <;> intros <;>
    simp [Component.applyDiff, Component.getId, Component.applyDiffData,
      Health.applyDiff, Inventory.applyDiff, Coordinate.applyDiff,
      DurationEffect.add, Attributes.applyDiff, Coordinate.mk.injEq,
      Health.mk.injEq, Inventory.mk.injEq, DurationEffect.mk.injEq,
      Attributes.mk.injEq, *] <;>
    try omega

/-- Witness for C2 at concrete inputs: two `Attributes` deltas agreeing on
`level_pending` commute on a concrete component. -/
theorem c2_additive_apply_diff_commutes_witness :
    ((Component.Attributes ⟨5, ⟨1, 2, 3, 4, false⟩⟩).applyDiff
          (Component.Attributes ⟨5, ⟨1, 0, 0, 10, true⟩⟩)).bind
        (fun c => c.applyDiff (Component.Attributes ⟨5, ⟨0, 1, 0, 20, true⟩⟩)) =
      ((Component.Attributes ⟨5, ⟨1, 2, 3, 4, false⟩⟩).applyDiff
          (Component.Attributes ⟨5, ⟨0, 1, 0, 20, true⟩⟩)).bind
        (fun c => c.applyDiff (Component.Attributes ⟨5, ⟨1, 0, 0, 10, true⟩⟩)) :=
  c2_additive_apply_diff_commutes.2.2.2.2 5 ⟨1, 2, 3, 4, false⟩
    ⟨1, 0, 0, 10, true⟩ ⟨0, 1, 0, 20, true⟩ rfl

/-- C2 counterexample: `Attributes` — a kind the spec's list of additive
payloads names — has the overwriting `level_pending` flag, so two deltas
that disagree on it do not commute. -/
theorem c2_attributes_counterexample :
    ((Component.Attributes ⟨0, ⟨0, 0, 0, 0, false⟩⟩).applyDiff
          (Component.Attributes ⟨0, ⟨0, 0, 0, 0, true⟩⟩)).bind
        (fun c => c.applyDiff (Component.Attributes ⟨0, ⟨0, 0, 0, 0, false⟩⟩)) ≠
      ((Component.Attributes ⟨0, ⟨0, 0, 0, 0, false⟩⟩).applyDiff
          (Component.Attributes ⟨0, ⟨0, 0, 0, 0, false⟩⟩)).bind
        (fun c => c.applyDiff (Component.Attributes ⟨0, ⟨0, 0, 0, 0, true⟩⟩)) := by
  decide

/-! ## C3: referential integrity of the component/entity tables -/

/-- Full description of a lookup after `assocUpdate`. -/
theorem assocLookup_assocUpdate {α : Type} (l : List (Nat × α)) (k : Nat)
    (f : α → α) (j : Nat) :
    assocLookup (assocUpdate l k f) j =
      if j = k then (assocLookup l k).map f else assocLookup l j := by
  induction l with
  | nil => simp [assocUpdate, assocLookup]
  | cons e rest ih =>
      obtain ⟨k', v⟩ := e
      by_cases hk : k' = k
      · subst hk
        by_cases hj : k' = j
        · subst hj
          simp [assocUpdate, assocLookup]
        · have hj' : ¬j = k' := fun h => hj h.symm
          simp [assocUpdate, assocLookup, hj, hj']
      · by_cases hj : k' = j
        · subst hj
          simp [assocUpdate, assocLookup, hk]
        · simp [assocUpdate, assocLookup, hk, hj, ih]

/-- The cons equation of `assocRemove`. -/
theorem assocRemove_cons {α : Type} (k' : Nat) (v : α) (rest : List (Nat × α))
    (k : Nat) :
    assocRemove ((k', v) :: rest) k =
      if k' = k then assocRemove rest k else (k', v) :: assocRemove rest k := by
  by_cases h : k' = k <;> simp [assocRemove, List.filter_cons, h]

/-- Full description of a lookup after `assocRemove`. -/
theorem assocLookup_assocRemove {α : Type} (l : List (Nat × α)) (k j : Nat) :
    assocLookup (assocRemove l k) j =
      if j = k then none else assocLookup l j := by
  induction l with
  | nil => simp [assocRemove, assocLookup]
  | cons e rest ih =>
      obtain ⟨k', v⟩ := e
      rw [assocRemove_cons]
      by_cases hk : k' = k
      · rw [if_pos hk, ih]
        subst hk
        by_cases hj : j = k'
        · simp [hj]
        · simp [assocLookup, hj, show ¬k' = j from fun h => hj h.symm]
      · rw [if_neg hk]
        by_cases hj : k' = j
        · subst hj
          simp [assocLookup, hk]
        · simp [assocLookup, hj, ih]

/-- Every entry of an updated table is either an original entry or the
update of an original entry at the updated key. -/
theorem mem_assocUpdate {α : Type} (l : List (Nat × α)) (k : Nat) (f : α → α)
    (p : Nat × α) (h : p ∈ assocUpdate l k f) :
    p ∈ l ∨ ∃ v, (k, v) ∈ l ∧ p = (k, f v) := by
  induction l with
  | nil => simp [assocUpdate] at h
  | cons e rest ih =>
      obtain ⟨k', v⟩ := e
      by_cases hk : k' = k
      · subst hk
        simp only [assocUpdate, if_pos rfl] at h
        rcases List.mem_cons.mp h with h | h
        · exact Or.inr ⟨v, List.mem_cons_self _ _, h⟩
        · exact Or.inl (List.mem_cons_of_mem _ h)
      · simp only [assocUpdate, if_neg hk] at h
        rcases List.mem_cons.mp h with h | h
        · exact Or.inl (h ▸ List.mem_cons_self _ _)
        · rcases ih h with h | ⟨w, hw, hp⟩
          · exact Or.inl (List.mem_cons_of_mem _ h)
          · exact Or.inr ⟨w, List.mem_cons_of_mem _ hw, hp⟩

/-- Entries of a filtered table are original entries. -/
theorem mem_assocRemove {α : Type} (l : List (Nat × α)) (k : Nat)
    (p : Nat × α) (h : p ∈ assocRemove l k) : p ∈ l :=
  List.mem_of_mem_filter h

/-- `applyDiffData` never changes the component's id. -/
theorem applyDiffData_getId (c o : Component) :
    (c.applyDiffData o).getId = c.getId := by
  cases c <;> cases o <;> rfl

/-- `setId` stamps exactly the requested id. -/
theorem setId_getId (c : Component) (id : Nat) : (c.setId id).getId = id := by
  cases c <;> rfl

namespace ComponentManager

/-- A lookup after `removeComponent`. -/
theorem removeComponent_getComponent (cm : ComponentManager) (k j : Nat) :
    (cm.removeComponent k).getComponent j =
      if j = k then none else cm.getComponent j := by
  simp [removeComponent, getComponent, assocLookup_assocRemove]

/-- A lookup after `applyChange` is defined exactly when it was before. -/
theorem applyChange_getComponent_isSome (cm : ComponentManager)
    (c : Component) (j : Nat) :
    ((cm.applyChange c).getComponent j).isSome =
      (cm.getComponent j).isSome := by
  unfold applyChange
  cases hc : cm.getComponent c.getId with
  | none => rfl
  | some old =>
      simp only [getComponent] at hc ⊢
      rw [assocLookup_assocUpdate]
      by_cases hj : j = c.getId <;> simp [hj, hc]

/-- `applyChange` keeps the id counter. -/
theorem applyChange_nextId (cm : ComponentManager) (c : Component) :
    (cm.applyChange c).nextId = cm.nextId := by
  unfold applyChange
  cases hc : cm.getComponent c.getId <;> rfl

/-- A lookup after a fold of `removeComponent` over a list of ids. -/
theorem foldl_removeComponent_getComponent (ids : List Nat)
    (cm : ComponentManager) (k : Nat) :
    ((ids.foldl (fun cm id => cm.removeComponent id) cm).getComponent k) =
      if k ∈ ids then none else cm.getComponent k := by
  induction ids generalizing cm with
  | nil => simp
  | cons id rest ih =>
      simp only [List.foldl_cons, ih, removeComponent_getComponent,
        List.mem_cons]
      by_cases h1 : k ∈ rest <;> by_cases h2 : k = id <;> simp [h1, h2]

/-- A fold of `removeComponent` keeps the id counter. -/
theorem foldl_removeComponent_nextId (ids : List Nat)
    (cm : ComponentManager) :
    (ids.foldl (fun cm id => cm.removeComponent id) cm).nextId = cm.nextId := by
  induction ids generalizing cm with
  | nil => rfl
  | cons id rest ih =>
      rw [List.foldl_cons, ih]
      rfl

/-- A fold of `removeComponent` only drops table entries. -/
theorem foldl_removeComponent_mem (ids : List Nat) (cm : ComponentManager)
    (p : Nat × Component)
    (h : p ∈ (ids.foldl (fun cm id => cm.removeComponent id) cm).components) :
    p ∈ cm.components := by
  induction ids generalizing cm with
  | nil => exact h
  | cons id rest ih =>
      simp only [List.foldl_cons] at h
      exact mem_assocRemove _ _ _ (ih _ h)

end ComponentManager

/-- The referential-integrity invariant of the ECS storage: every id in a
live entity's component-id set is present in the component table, id sets
are duplicate-free, ownership of a component id is unique, all owned ids
are below the id counter, each entity records its own slot index, and every
table entry is keyed by its component's id. -/
def ECSInv (ecs : ECS) : Prop :=
  (∀ e ∈ ecs.entityStorage.entities, ∀ cid ∈ e.data,
      (ecs.componentStorage.getComponent cid).isSome = true) ∧
  (∀ e ∈ ecs.entityStorage.entities, e.data.Nodup) ∧
  (∀ i j : Fin ecs.entityStorage.entities.length, i ≠ j →
      ∀ cid ∈ (ecs.entityStorage.entities.get i).data,
        cid ∉ (ecs.entityStorage.entities.get j).data) ∧
  (∀ e ∈ ecs.entityStorage.entities, ∀ cid ∈ e.data,
      cid < ecs.componentStorage.nextId) ∧
  (∀ i : Fin ecs.entityStorage.entities.length,
      (ecs.entityStorage.entities.get i).index = (i : Nat)) ∧
  (∀ p ∈ ecs.componentStorage.components, p.2.getId = p.1)

/-- The honesty condition on `DeleteComponentOrder` entity hints: a present
hint names the owning entity's slot.  Hints of `none` and orders for unowned
components are always honest; every other delta kind carries no hint. -/
def deltaHintOk (ecs : ECS) : Delta → Prop
  | Delta.DeleteComponent o =>
      ∀ i : Fin ecs.entityStorage.entities.length,
        o.componentId ∈ (ecs.entityStorage.entities.get i).data →
          o.entityId = none ∨ o.entityId = some (i : Nat)
  | _ => True

/-- A successful lookup names an actual table entry. -/
theorem assocLookup_mem {α : Type} (l : List (Nat × α)) (k : Nat) (v : α)
    (h : assocLookup l k = some v) : (k, v) ∈ l := by
  induction l with
  | nil => exact Option.noConfusion h
  | cons e rest ih =>
      obtain ⟨k', w⟩ := e
      by_cases hk : k' = k
      · subst hk
        simp [assocLookup] at h
        subst h
        exact List.mem_cons_self _ _
      · simp only [assocLookup, if_neg hk] at h
        exact List.mem_cons_of_mem _ (ih h)

/-- Membership in `setInsert`. -/
theorem mem_setInsert {s : List Nat} {x a : Nat} (h : x ∈ setInsert s a) :
    x ∈ s ∨ x = a := by
  unfold setInsert at h
  by_cases ha : a ∈ s
  · rw [if_pos ha] at h
    exact Or.inl h
  · rw [if_neg ha] at h
    rcases List.mem_append.mp h with h | h
    · exact Or.inl h
    · exact Or.inr (List.mem_singleton.mp h)

/-- `setInsert` keeps the previous members. -/
theorem mem_setInsert_of_mem {s : List Nat} {x : Nat} (a : Nat) (h : x ∈ s) :
    x ∈ setInsert s a := by
  unfold setInsert
  by_cases ha : a ∈ s
  · rwa [if_pos ha]
  · rw [if_neg ha]
    exact List.mem_append_left _ h

/-- `setInsert` contains the inserted element. -/
theorem self_mem_setInsert (s : List Nat) (a : Nat) : a ∈ setInsert s a := by
  unfold setInsert
  by_cases ha : a ∈ s
  · rwa [if_pos ha]
  · rw [if_neg ha]
    exact List.mem_append_right _ (List.mem_singleton.mpr rfl)

/-- `setInsert` preserves duplicate-freedom. -/
theorem nodup_setInsert (s : List Nat) (a : Nat) (h : s.Nodup) :
    (setInsert s a).Nodup := by
  unfold setInsert
  by_cases ha : a ∈ s
  · rwa [if_pos ha]
  · rw [if_neg ha]
    simp [List.nodup_append, h, ha]

/-- `attatchComponent` stores the component id on the entity and only ever
patches a response payload's owner, never the id. -/
theorem attatchComponent_spec (ecs : ECS) (eid : Nat) (c : Component) :
    ∃ c2 : Component,
      ECS.attatchComponent ecs eid c =
        ({ ecs with entityStorage := ecs.entityStorage.addComponent eid c2.getId },
          c2) ∧
      c2.getId = c.getId := by
  cases c <;> exact ⟨_, rfl, rfl⟩

/-- Transport of the invariant across states with identical storage
contents (the player-id field is not constrained by it). -/
theorem ECSInv.congr_entities (ecs ecs' : ECS)
    (hent : ecs'.entityStorage.entities = ecs.entityStorage.entities)
    (hcs : ecs'.componentStorage = ecs.componentStorage)
    (hinv : ECSInv ecs) : ECSInv ecs' := by
  unfold ECSInv at hinv ⊢
  rw [hent, hcs]
  exact hinv

/-- Purging an entity — dropping a subset of its ids and then all of its
ids from the component table and clearing its slot — preserves the
invariant, empties the table of all its ids, and detaches them from every
entity. -/
theorem ECSInv.purge (ecs : ECS) (pid : Nat) (e : Entity) (ids : List Nat)
    (hids : ∀ i ∈ ids, i ∈ e.data)
    (hget : ecs.entityStorage.entities.get? pid = some e)
    (hinv : ECSInv ecs) :
    ECSInv { ecs with
        componentStorage := e.data.foldl (fun cm cid => cm.removeComponent cid)
          (ids.foldl (fun cm cid => cm.removeComponent cid)
            ecs.componentStorage),
        entityStorage := ecs.entityStorage.removeEntity pid } ∧
    (∀ cid ∈ e.data,
      (e.data.foldl (fun cm cid => cm.removeComponent cid)
        (ids.foldl (fun cm cid => cm.removeComponent cid)
          ecs.componentStorage)).getComponent cid = none) ∧
    (∀ e2 ∈ (ecs.entityStorage.removeEntity pid).entities, ∀ cid ∈ e.data,
      cid ∉ e2.data) := by
  obtain ⟨hrefs, hnodup, huniq, hbound, hcoh, hkey⟩ := hinv
  obtain ⟨hlt, hgete⟩ := List.get?_eq_some.mp hget
  have hgete' : ecs.entityStorage.entities[pid] = e := hgete
  have hcm : ∀ k,
      (e.data.foldl (fun cm cid => cm.removeComponent cid)
        (ids.foldl (fun cm cid => cm.removeComponent cid)
          ecs.componentStorage)).getComponent k =
        if k ∈ e.data then none else ecs.componentStorage.getComponent k := by
    intro k
    rw [ComponentManager.foldl_removeComponent_getComponent,
      ComponentManager.foldl_removeComponent_getComponent]
    by_cases hk : k ∈ e.data
    · simp [hk]
    · have hk2 : k ∉ ids := fun h => hk (hids k h)
      simp [hk, hk2]
  have hnext :
      (e.data.foldl (fun cm cid => cm.removeComponent cid)
        (ids.foldl (fun cm cid => cm.removeComponent cid)
          ecs.componentStorage)).nextId = ecs.componentStorage.nextId := by
    rw [ComponentManager.foldl_removeComponent_nextId,
      ComponentManager.foldl_removeComponent_nextId]
  have hEnt : (ecs.entityStorage.removeEntity pid).entities =
      ecs.entityStorage.entities.set pid { e with data := [] } := by
    unfold EntityManager.removeEntity
    rw [hget]
  have howner : ∀ (j : Nat) (hj : j < ecs.entityStorage.entities.length)
      (cid : Nat), cid ∈ e.data →
      cid ∈ (ecs.entityStorage.entities[j]).data → j = pid := by
    intro j hj cid hcid hmem
    by_contra hne
    refine huniq ⟨j, hj⟩ ⟨pid, hlt⟩
      (fun h => hne (show j = pid from congrArg Fin.val h)) cid hmem ?_
    show cid ∈ (ecs.entityStorage.entities[pid]).data
    rw [hgete']
    exact hcid
  have hidx : e.index = pid := by
    have := hcoh ⟨pid, hlt⟩
    simpa [List.get_eq_getElem, hgete'] using this
  refine ⟨⟨?_, ?_, ?_, ?_, ?_, ?_⟩, ?_, ?_⟩
  · -- refs
    intro e2 he2 cid hcid
    rw [show ({ ecs with
        componentStorage := e.data.foldl (fun cm cid => cm.removeComponent cid)
          (ids.foldl (fun cm cid => cm.removeComponent cid)
            ecs.componentStorage),
        entityStorage := ecs.entityStorage.removeEntity pid } : ECS).entityStorage.entities
        = ecs.entityStorage.entities.set pid { e with data := [] } from hEnt] at he2
    obtain ⟨j, hj, hje⟩ := List.mem_iff_getElem.mp he2
    rw [List.length_set] at hj
    rw [List.getElem_set] at hje
    rw [show ({ ecs with
        componentStorage := e.data.foldl (fun cm cid => cm.removeComponent cid)
          (ids.foldl (fun cm cid => cm.removeComponent cid)
            ecs.componentStorage),
        entityStorage := ecs.entityStorage.removeEntity pid } : ECS).componentStorage
        = e.data.foldl (fun cm cid => cm.removeComponent cid)
          (ids.foldl (fun cm cid => cm.removeComponent cid)
            ecs.componentStorage) from rfl, hcm]
    by_cases hp : pid = j
    · rw [if_pos hp] at hje
      rw [← hje] at hcid
      simp at hcid
    · rw [if_neg hp] at hje
      have hmem : cid ∉ e.data := fun hc =>
        hp (howner j hj cid hc (by rw [hje]; exact hcid)).symm
      rw [if_neg hmem]
      exact hrefs e2 (hje ▸ List.getElem_mem hj) cid hcid
  · -- nodup
    intro e2 he2
    rw [show ({ ecs with
        componentStorage := e.data.foldl (fun cm cid => cm.removeComponent cid)
          (ids.foldl (fun cm cid => cm.removeComponent cid)
            ecs.componentStorage),
        entityStorage := ecs.entityStorage.removeEntity pid } : ECS).entityStorage.entities
        = ecs.entityStorage.entities.set pid { e with data := [] } from hEnt] at he2
    rcases List.mem_or_eq_of_mem_set he2 with h | h
    · exact hnodup e2 h
    · rw [h]
      exact List.nodup_nil
  · -- unique ownership
    show ∀ i j : Fin (ecs.entityStorage.removeEntity pid).entities.length, _
    rw [hEnt]
    simp only [List.get_eq_getElem]
    intro i j hne cid hci hcj
    obtain ⟨n, hn⟩ := i
    obtain ⟨m, hm⟩ := j
    simp only [List.getElem_set] at hci hcj
    rw [List.length_set] at hn hm
    have hnm : n ≠ m := fun h => hne (by subst h; rfl)
    by_cases hp1 : pid = n
    · rw [if_pos hp1] at hci
      simp at hci
    · rw [if_neg hp1] at hci
      by_cases hp2 : pid = m
      · rw [if_pos hp2] at hcj
        simp at hcj
      · rw [if_neg hp2] at hcj
        exact absurd hcj
          (huniq ⟨n, hn⟩ ⟨m, hm⟩
            (fun h => hnm (show n = m from congrArg Fin.val h)) cid hci)
  · -- bounded
    intro e2 he2 cid hcid
    rw [show ({ ecs with
        componentStorage := e.data.foldl (fun cm cid => cm.removeComponent cid)
          (ids.foldl (fun cm cid => cm.removeComponent cid)
            ecs.componentStorage),
        entityStorage := ecs.entityStorage.removeEntity pid } : ECS).entityStorage.entities
        = ecs.entityStorage.entities.set pid { e with data := [] } from hEnt] at he2
    rw [show ({ ecs with
        componentStorage := e.data.foldl (fun cm cid => cm.removeComponent cid)
          (ids.foldl (fun cm cid => cm.removeComponent cid)
            ecs.componentStorage),
        entityStorage := ecs.entityStorage.removeEntity pid } : ECS).componentStorage
        = e.data.foldl (fun cm cid => cm.removeComponent cid)
          (ids.foldl (fun cm cid => cm.removeComponent cid)
            ecs.componentStorage) from rfl, hnext]
    rcases List.mem_or_eq_of_mem_set he2 with h | h
    · exact hbound e2 h cid hcid
    · rw [h] at hcid
      simp at hcid
  · -- coherent indices
    show ∀ i : Fin (ecs.entityStorage.removeEntity pid).entities.length, _
    rw [hEnt]
    simp only [List.get_eq_getElem]
    intro i
    obtain ⟨n, hn⟩ := i
    simp only [List.getElem_set]
    rw [List.length_set] at hn
    by_cases hp : pid = n
    · rw [if_pos hp]
      simp only
      rw [hidx, hp]
    · rw [if_neg hp]
      exact hcoh ⟨n, hn⟩
  · -- table keyed by component id
    intro p hp
    exact hkey p (ComponentManager.foldl_removeComponent_mem _ _ _
      (ComponentManager.foldl_removeComponent_mem _ _ _ hp))
  · -- all owned ids removed from the table
    intro cid hcid
    rw [hcm, if_pos hcid]
  · -- all owned ids detached from every entity
    intro e2 he2 cid hcid
    rw [hEnt] at he2
    obtain ⟨j, hj, hje⟩ := List.mem_iff_getElem.mp he2
    rw [List.length_set] at hj
    rw [List.getElem_set] at hje
    by_cases hp : pid = j
    · rw [if_pos hp] at hje
      rw [← hje]
      simp
    · rw [if_neg hp] at hje
      intro hc
      exact hp (howner j hj cid hcid (by rw [hje]; exact hc)).symm

/-- `ECS.removeEntity` preserves the invariant. -/
theorem ECSInv.removeEntityEcs (ecs : ECS) (eid : Nat) (hinv : ECSInv ecs) :
    ECSInv (ecs.removeEntity eid) := by
  unfold ECS.removeEntity
  cases hget : ecs.entityStorage.getEntity eid with
  | none => exact hinv
  | some e =>
      exact (ECSInv.purge ecs eid e [] (by simp) hget hinv).1

/-- `ECS.removeComponent` preserves the invariant when every owner of the
component sits at the targeted slot; it also removes the id from the table
and detaches it from every entity. -/
theorem ECSInv.removeComponentEcs (ecs : ECS) (eid cid : Nat)
    (hinv : ECSInv ecs)
    (hown : ∀ (j : Nat) (hj : j < ecs.entityStorage.entities.length),
        cid ∈ (ecs.entityStorage.entities[j]).data → j = eid) :
    ECSInv (ecs.removeComponent eid cid) ∧
    (ecs.removeComponent eid cid).componentStorage.getComponent cid = none ∧
    (∀ e2 ∈ (ecs.removeComponent eid cid).entityStorage.entities,
      cid ∉ e2.data) := by
  obtain ⟨hrefs, hnodup, huniq, hbound, hcoh, hkey⟩ := hinv
  have hlook : ∀ j, (ecs.componentStorage.removeComponent cid).getComponent j =
      if j = cid then none else ecs.componentStorage.getComponent j :=
    fun j => ComponentManager.removeComponent_getComponent _ _ _
  cases hg : ecs.entityStorage.entities.get? eid with
  | none =>
      have hlen : ecs.entityStorage.entities.length ≤ eid :=
        List.get?_eq_none.mp hg
      have hnoown : ∀ e2 ∈ ecs.entityStorage.entities, cid ∉ e2.data := by
        intro e2 he2 hc
        obtain ⟨j, hj, hje⟩ := List.mem_iff_getElem.mp he2
        have := hown j hj (hje ▸ hc)
        omega
      have hem : ecs.entityStorage.removeComponent eid cid =
          ecs.entityStorage := by
        unfold EntityManager.removeComponent
        rw [hg]
      have hstate : ecs.removeComponent eid cid =
          { ecs with
              componentStorage := ecs.componentStorage.removeComponent cid } := by
        unfold ECS.removeComponent
        rw [hem]
      rw [hstate]
      refine ⟨⟨?_, hnodup, huniq, ?_, hcoh, ?_⟩, ?_, ?_⟩
      · intro e2 he2 c hc
        rw [show ({ ecs with
            componentStorage := ecs.componentStorage.removeComponent cid } :
            ECS).componentStorage = ecs.componentStorage.removeComponent cid
            from rfl, hlook]
        have hne : ¬c = cid := fun h => hnoown e2 he2 (h ▸ hc)
        rw [if_neg hne]
        exact hrefs e2 he2 c hc
      · intro e2 he2 c hc
        exact hbound e2 he2 c hc
      · intro p hp
        simp only [ComponentManager.removeComponent] at hp
        exact hkey p (mem_assocRemove _ _ _ hp)
      · rw [show ({ ecs with
            componentStorage := ecs.componentStorage.removeComponent cid } :
            ECS).componentStorage = ecs.componentStorage.removeComponent cid
            from rfl, hlook, if_pos rfl]
      · intro e2 he2
        exact hnoown e2 he2
  | some e =>
      obtain ⟨hlt, hgete⟩ := List.get?_eq_some.mp hg
      have hgete' : ecs.entityStorage.entities[eid] = e := hgete
      have hem : ecs.entityStorage.removeComponent eid cid =
          { ecs.entityStorage with
              entities := ecs.entityStorage.entities.set eid
                { e with data := e.data.erase cid } } := by
        unfold EntityManager.removeComponent
        rw [hg]
      have hstate : ecs.removeComponent eid cid =
          { ecs with
              componentStorage := ecs.componentStorage.removeComponent cid,
              entityStorage :=
                { ecs.entityStorage with
                    entities := ecs.entityStorage.entities.set eid
                      { e with data := e.data.erase cid } } } := by
        unfold ECS.removeComponent
        rw [hem]
      have hnde : e.data.Nodup := hnodup e (hgete' ▸ List.getElem_mem hlt)
      have hidx : e.index = eid := by
        have := hcoh ⟨eid, hlt⟩
        simpa [List.get_eq_getElem, hgete'] using this
      rw [hstate]
      refine ⟨⟨?_, ?_, ?_, ?_, ?_, ?_⟩, ?_, ?_⟩
      · -- refs
        intro e2 he2 c hc
        obtain ⟨j, hj, hje⟩ := List.mem_iff_getElem.mp he2
        rw [List.length_set] at hj
        rw [List.getElem_set] at hje
        rw [show ({ ecs with
            componentStorage := ecs.componentStorage.removeComponent cid,
            entityStorage :=
              { ecs.entityStorage with
                  entities := ecs.entityStorage.entities.set eid
                    { e with data := e.data.erase cid } } } :
            ECS).componentStorage = ecs.componentStorage.removeComponent cid
            from rfl, hlook]
        by_cases hp : eid = j
        · rw [if_pos hp] at hje
          rw [← hje] at hc
          simp only at hc
          have hc2 := hnde.mem_erase_iff.mp hc
          rw [if_neg hc2.1]
          exact hrefs e (hgete' ▸ List.getElem_mem hlt) c hc2.2
        · rw [if_neg hp] at hje
          have hne : ¬c = cid := by
            intro h
            refine hp (hown j hj ?_).symm
            rw [hje]
            exact h ▸ hc
          rw [if_neg hne]
          exact hrefs e2 (hje ▸ List.getElem_mem hj) c hc
      · -- nodup
        intro e2 he2
        rcases List.mem_or_eq_of_mem_set he2 with h | h
        · exact hnodup e2 h
        · rw [h]
          exact hnde.erase cid
      · -- unique ownership
        simp only [List.get_eq_getElem]
        intro i j hne c hci hcj
        obtain ⟨n, hn⟩ := i
        obtain ⟨m, hm⟩ := j
        simp only [List.getElem_set] at hci hcj
        rw [List.length_set] at hn hm
        have hnm : n ≠ m := fun h => hne (by subst h; rfl)
        have hmemn : c ∈ (ecs.entityStorage.entities[n]).data := by
          by_cases hp : eid = n
          · subst hp
            rw [if_pos rfl] at hci
            simp only at hci
            rw [hgete']
            exact List.mem_of_mem_erase hci
          · rwa [if_neg hp] at hci
        have hmemm : c ∈ (ecs.entityStorage.entities[m]).data := by
          by_cases hp : eid = m
          · subst hp
            rw [if_pos rfl] at hcj
            simp only at hcj
            rw [hgete']
            exact List.mem_of_mem_erase hcj
          · rwa [if_neg hp] at hcj
        exact absurd hmemm
          (huniq ⟨n, hn⟩ ⟨m, hm⟩
            (fun h => hnm (show n = m from congrArg Fin.val h)) c hmemn)
      · -- bounded
        intro e2 he2 c hc
        rcases List.mem_or_eq_of_mem_set he2 with h | h
        · exact hbound e2 h c hc
        · rw [h] at hc
          simp only at hc
          exact hbound e (hgete' ▸ List.getElem_mem hlt) c
            (List.mem_of_mem_erase hc)
      · -- coherent indices
        simp only [List.get_eq_getElem]
        intro i
        obtain ⟨n, hn⟩ := i
        simp only [List.getElem_set]
        rw [List.length_set] at hn
        by_cases hp : eid = n
        · rw [if_pos hp]
          simp only
          rw [hidx, hp]
        · rw [if_neg hp]
          exact hcoh ⟨n, hn⟩
      · -- table keyed
        intro p hp
        simp only [ComponentManager.removeComponent] at hp
        exact hkey p (mem_assocRemove _ _ _ hp)
      · -- the id is gone from the table
        rw [show ({ ecs with
            componentStorage := ecs.componentStorage.removeComponent cid,
            entityStorage :=
              { ecs.entityStorage with
                  entities := ecs.entityStorage.entities.set eid
                    { e with data := e.data.erase cid } } } :
            ECS).componentStorage = ecs.componentStorage.removeComponent cid
            from rfl, hlook, if_pos rfl]
      · -- the id is detached from every entity
        intro e2 he2
        obtain ⟨j, hj, hje⟩ := List.mem_iff_getElem.mp he2
        rw [List.length_set] at hj
        rw [List.getElem_set] at hje
        by_cases hp : eid = j
        · rw [if_pos hp] at hje
          rw [← hje]
          simp only
          exact hnde.not_mem_erase
        · rw [if_neg hp] at hje
          intro hc
          refine hp (hown j hj ?_).symm
          rw [hje]
          exact hc

/-- Applying a `Change` delta preserves the invariant: the merge only
rewrites values of existing table entries. -/
theorem ECSInv.changeDelta (ecs : ECS) (c : Component) (hinv : ECSInv ecs) :
    ECSInv { ecs with componentStorage := ecs.componentStorage.applyChange c } := by
  obtain ⟨hrefs, hnodup, huniq, hbound, hcoh, hkey⟩ := hinv
  refine ⟨?_, hnodup, huniq, ?_, hcoh, ?_⟩
  · intro e2 he2 cid hcid
    rw [show ({ ecs with componentStorage := ecs.componentStorage.applyChange c } :
        ECS).componentStorage = ecs.componentStorage.applyChange c from rfl,
      ComponentManager.applyChange_getComponent_isSome]
    exact hrefs e2 he2 cid hcid
  · intro e2 he2 cid hcid
    rw [show ({ ecs with componentStorage := ecs.componentStorage.applyChange c } :
        ECS).componentStorage = ecs.componentStorage.applyChange c from rfl,
      ComponentManager.applyChange_nextId]
    exact hbound e2 he2 cid hcid
  · intro p hp
    simp only [ComponentManager.applyChange] at hp
    revert hp
    cases hc : ecs.componentStorage.getComponent c.getId with
    | none =>
        intro hp
        exact hkey p hp
    | some old =>
        intro hp
        simp only at hp
        rcases mem_assocUpdate _ _ _ p hp with h | ⟨v, hv, hpv⟩
        · exact hkey p h
        · rw [hpv]
          simp only
          rw [applyDiffData_getId]
          exact hkey (c.getId, v) hv

/-- Assigning a fresh id, attaching and registering a component equals
pushing a table entry keyed by the fresh id and inserting that id into the
entity's set. -/
theorem addComponentToEntity_core_eq (ecs : ECS) (eid : Nat) (c : Component) :
    ∃ c2 : Component, c2.getId = ecs.componentStorage.nextId ∧
    (match ecs.componentStorage.assignId c with
     | (component, cm) =>
       match ECS.attatchComponent { ecs with componentStorage := cm } eid
           component with
       | (ecs2, component2) =>
         { ecs2 with
             componentStorage := ecs2.componentStorage.registerNew component2 }) =
    { ecs with
        componentStorage :=
          ⟨ecs.componentStorage.nextId + 1,
            ((c2 : Component).getId, c2) :: ecs.componentStorage.components⟩,
        entityStorage := ecs.entityStorage.addComponent eid c2.getId } := by
  obtain ⟨c2, heq, hid⟩ := attatchComponent_spec
    { ecs with componentStorage := (ecs.componentStorage.assignId c).2 } eid
    (ecs.componentStorage.assignId c).1
  refine ⟨c2, ?_, ?_⟩
  · rw [hid]
    exact setId_getId c _
  · simp only [ComponentManager.assignId] at heq ⊢
    rw [heq]
    rfl

/-- Registering a freshly assigned component preserves the invariant. -/
theorem ECSInv.core (ecs : ECS) (eid : Nat) (c2 : Component)
    (hid : c2.getId = ecs.componentStorage.nextId) (hinv : ECSInv ecs) :
    ECSInv { ecs with
        componentStorage :=
          ⟨ecs.componentStorage.nextId + 1,
            (c2.getId, c2) :: ecs.componentStorage.components⟩,
        entityStorage := ecs.entityStorage.addComponent eid c2.getId } := by
  obtain ⟨hrefs, hnodup, huniq, hbound, hcoh, hkey⟩ := hinv
  have hlookup : ∀ k,
      ((⟨ecs.componentStorage.nextId + 1,
        (c2.getId, c2) :: ecs.componentStorage.components⟩ :
          ComponentManager)).getComponent k =
        if c2.getId = k then some c2
        else ecs.componentStorage.getComponent k := by
    intro k
    simp [ComponentManager.getComponent, assocLookup]
  have hfresh : ∀ e2 ∈ ecs.entityStorage.entities, c2.getId ∉ e2.data := by
    intro e2 he2 hc
    have := hbound e2 he2 _ hc
    omega
  cases hg : ecs.entityStorage.entities.get? eid with
  | none =>
      have hem : ecs.entityStorage.addComponent eid c2.getId =
          ecs.entityStorage := by
        unfold EntityManager.addComponent
        rw [hg]
      rw [hem]
      refine ⟨?_, hnodup, huniq, ?_, hcoh, ?_⟩
      · intro e2 he2 cid hcid
        rw [show ({ ecs with
            componentStorage :=
              ⟨ecs.componentStorage.nextId + 1,
                (c2.getId, c2) :: ecs.componentStorage.components⟩,
            entityStorage := ecs.entityStorage } : ECS).componentStorage
            = ⟨ecs.componentStorage.nextId + 1,
                (c2.getId, c2) :: ecs.componentStorage.components⟩ from rfl,
          hlookup]
        by_cases h : c2.getId = cid
        · simp [h]
        · rw [if_neg h]
          exact hrefs e2 he2 cid hcid
      · intro e2 he2 cid hcid
        exact Nat.lt_succ_of_lt (hbound e2 he2 cid hcid)
      · intro p hp
        rcases List.mem_cons.mp hp with h | h
        · rw [h]
        · exact hkey p h
  | some e =>
      obtain ⟨hlt, hgete⟩ := List.get?_eq_some.mp hg
      have hgete' : ecs.entityStorage.entities[eid] = e := hgete
      have hem : ecs.entityStorage.addComponent eid c2.getId =
          { ecs.entityStorage with
              entities := ecs.entityStorage.entities.set eid
                { e with data := setInsert e.data c2.getId } } := by
        unfold EntityManager.addComponent
        rw [hg]
      have hidx : e.index = eid := by
        have := hcoh ⟨eid, hlt⟩
        simpa [List.get_eq_getElem, hgete'] using this
      rw [hem]
      refine ⟨?_, ?_, ?_, ?_, ?_, ?_⟩
      · -- refs
        intro e2 he2 cid hcid
        rw [show ({ ecs with
            componentStorage :=
              ⟨ecs.componentStorage.nextId + 1,
                (c2.getId, c2) :: ecs.componentStorage.components⟩,
            entityStorage :=
              { ecs.entityStorage with
                  entities := ecs.entityStorage.entities.set eid
                    { e with data := setInsert e.data c2.getId } } } :
            ECS).componentStorage
            = ⟨ecs.componentStorage.nextId + 1,
                (c2.getId, c2) :: ecs.componentStorage.components⟩ from rfl,
          hlookup]
        by_cases h : c2.getId = cid
        · simp [h]
        · rw [if_neg h]
          rcases List.mem_or_eq_of_mem_set he2 with h2 | h2
          · exact hrefs e2 h2 cid hcid
          · rw [h2] at hcid
            simp only at hcid
            rcases mem_setInsert hcid with h3 | h3
            · exact hrefs e (hgete' ▸ List.getElem_mem hlt) cid h3
            · exact absurd h3.symm h
      · -- nodup
        intro e2 he2
        rcases List.mem_or_eq_of_mem_set he2 with h | h
        · exact hnodup e2 h
        · rw [h]
          exact nodup_setInsert _ _
            (hnodup e (hgete' ▸ List.getElem_mem hlt))
      · -- unique ownership
        simp only [List.get_eq_getElem]
        intro i j hne cid hci hcj
        obtain ⟨n, hn⟩ := i
        obtain ⟨m, hm⟩ := j
        simp only [List.getElem_set] at hci hcj
        rw [List.length_set] at hn hm
        have hnm : n ≠ m := fun h => hne (by subst h; rfl)
        by_cases hc2 : cid = c2.getId
        · subst hc2
          have hn' : eid = n := by
            by_contra h
            rw [if_neg h] at hci
            exact hfresh _ (List.getElem_mem hn) hci
          have hm' : eid = m := by
            by_contra h
            rw [if_neg h] at hcj
            exact hfresh _ (List.getElem_mem hm) hcj
          exact hnm (hn' ▸ hm')
        · have hmemn : cid ∈ (ecs.entityStorage.entities[n]).data := by
            by_cases hp : eid = n
            · subst hp
              rw [if_pos rfl] at hci
              simp only at hci
              rcases mem_setInsert hci with h | h
              · rw [hgete']
                exact h
              · exact absurd h hc2
            · rwa [if_neg hp] at hci
          have hmemm : cid ∈ (ecs.entityStorage.entities[m]).data := by
            by_cases hp : eid = m
            · subst hp
              rw [if_pos rfl] at hcj
              simp only at hcj
              rcases mem_setInsert hcj with h | h
              · rw [hgete']
                exact h
              · exact absurd h hc2
            · rwa [if_neg hp] at hcj
          exact absurd hmemm
            (huniq ⟨n, hn⟩ ⟨m, hm⟩
              (fun h => hnm (show n = m from congrArg Fin.val h)) cid hmemn)
      · -- bounded
        intro e2 he2 cid hcid
        rcases List.mem_or_eq_of_mem_set he2 with h | h
        · exact Nat.lt_succ_of_lt (hbound e2 h cid hcid)
        · rw [h] at hcid
          simp only at hcid
          rcases mem_setInsert hcid with h3 | h3
          · exact Nat.lt_succ_of_lt
              (hbound e (hgete' ▸ List.getElem_mem hlt) cid h3)
          · rw [h3, hid]
            exact Nat.lt_succ_self _
      · -- coherent indices
        simp only [List.get_eq_getElem]
        intro i
        obtain ⟨n, hn⟩ := i
        simp only [List.getElem_set]
        rw [List.length_set] at hn
        by_cases hp : eid = n
        · rw [if_pos hp]
          simp only
          rw [hidx, hp]
        · rw [if_neg hp]
          exact hcoh ⟨n, hn⟩
      · -- table keyed
        intro p hp
        rcases List.mem_cons.mp hp with h | h
        · rw [h]
        · exact hkey p h

/-- `ECS.addComponentToEntity` preserves the invariant (including the
player-replacement branch). -/
theorem ECSInv.addComponentToEntityInv (ecs : ECS) (eid : Nat)
    (c : Component) (hinv : ECSInv ecs) :
    ECSInv (ecs.addComponentToEntity eid c) := by
  have key : ∀ ecs0 : ECS, ECSInv ecs0 →
      ECSInv (match ecs0.componentStorage.assignId c with
        | (component, cm) =>
          match ECS.attatchComponent { ecs0 with componentStorage := cm } eid
              component with
          | (ecs2, component2) =>
            { ecs2 with
                componentStorage :=
                  ecs2.componentStorage.registerNew component2 }) := by
    intro ecs0 h0
    obtain ⟨c2, hid2, hEq⟩ := addComponentToEntity_core_eq ecs0 eid c
    rw [hEq]
    exact ECSInv.core ecs0 eid c2 hid2 h0
  unfold ECS.addComponentToEntity
  by_cases hp : c.isOfType ComponentType.Player = true
  · simp only [hp, if_true]
    cases hpl : ecs.entityStorage.getPlayerEntity with
    | none =>
        simp only [hpl]
        exact key ⟨ecs.componentStorage, ecs.entityStorage.setNewPlayer eid⟩
          (ECSInv.congr_entities ecs _ rfl rfl hinv)
    | some oldP =>
        simp only [hpl]
        have hidx : oldP.index = ecs.entityStorage.playerId := by
          obtain ⟨hrefs, hnodup, huniq, hbound, hcoh, hkey⟩ := hinv
          obtain ⟨hlt, hgete⟩ := List.get?_eq_some.mp hpl
          have := hcoh ⟨ecs.entityStorage.playerId, hlt⟩
          rw [hgete] at this
          exact this
        have hpurge := (ECSInv.purge ecs ecs.entityStorage.playerId oldP []
          (by simp) hpl hinv).1
        rw [hidx]
        exact key ⟨oldP.data.foldl
            (fun (cm : ComponentManager) componentId =>
              cm.removeComponent componentId) ecs.componentStorage,
            (ecs.entityStorage.removeEntity
              ecs.entityStorage.playerId).setNewPlayer eid⟩
          (ECSInv.congr_entities _ _ rfl rfl hpurge)
  · simp only [hp, if_false]
    exact key ecs hinv

/-- `ECS.addComponentsToEntity` preserves the invariant. -/
theorem ECSInv.addComponentsInv (ecs : ECS) (eid : Nat)
    (cs : List Component) (hinv : ECSInv ecs) :
    ECSInv (ecs.addComponentsToEntity eid cs) := by
  induction cs generalizing ecs with
  | nil => exact hinv
  | cons c rest ih =>
      exact ih _ (ECSInv.addComponentToEntityInv ecs eid c hinv)

/-- `ECS.createEntity` preserves the invariant: the appended entity owns no
components and records its slot. -/
theorem ECSInv.createEntityInv (ecs : ECS) (hinv : ECSInv ecs) :
    ECSInv (ecs.createEntity).2 := by
  obtain ⟨hrefs, hnodup, huniq, hbound, hcoh, hkey⟩ := hinv
  have hstate : (ecs.createEntity).2 =
      { ecs with entityStorage :=
          { ecs.entityStorage with
              entities := ecs.entityStorage.entities ++
                [⟨ecs.entityStorage.entities.length, []⟩] } } := rfl
  rw [hstate]
  refine ⟨?_, ?_, ?_, ?_, ?_, hkey⟩
  · intro e2 he2 cid hcid
    rcases List.mem_append.mp he2 with h | h
    · exact hrefs e2 h cid hcid
    · rw [List.mem_singleton.mp h] at hcid
      simp at hcid
  · intro e2 he2
    rcases List.mem_append.mp he2 with h | h
    · exact hnodup e2 h
    · rw [List.mem_singleton.mp h]
      exact List.nodup_nil
  · simp only [List.get_eq_getElem]
    intro i j hne cid hci hcj
    obtain ⟨n, hn⟩ := i
    obtain ⟨m, hm⟩ := j
    have hlen : n < ecs.entityStorage.entities.length + 1 := by
      simpa using hn
    have hlen2 : m < ecs.entityStorage.entities.length + 1 := by
      simpa using hm
    have hnm : n ≠ m := fun h => hne (by subst h; rfl)
    by_cases h1 : n < ecs.entityStorage.entities.length
    · rw [List.getElem_append_left h1] at hci
      by_cases h2 : m < ecs.entityStorage.entities.length
      · rw [List.getElem_append_left h2] at hcj
        exact absurd hcj
          (huniq ⟨n, h1⟩ ⟨m, h2⟩
            (fun h => hnm (show n = m from congrArg Fin.val h)) cid hci)
      · have hm' : m = ecs.entityStorage.entities.length := by omega
        rw [List.getElem_concat_length _ _ _ hm'] at hcj
        simp at hcj
    · have hn' : n = ecs.entityStorage.entities.length := by omega
      rw [List.getElem_concat_length _ _ _ hn'] at hci
      simp at hci
  · intro e2 he2 cid hcid
    rcases List.mem_append.mp he2 with h | h
    · exact hbound e2 h cid hcid
    · rw [List.mem_singleton.mp h] at hcid
      simp at hcid
  · simp only [List.get_eq_getElem]
    intro i
    obtain ⟨n, hn⟩ := i
    by_cases h1 : n < ecs.entityStorage.entities.length
    · rw [List.getElem_append_left h1]
      exact hcoh ⟨n, h1⟩
    · have hn' : n = ecs.entityStorage.entities.length := by
        simp at hn
        omega
      rw [List.getElem_concat_length _ _ _ hn']
      simp [hn']

/-- C3: referential integrity is preserved by every `Delta` applied through
`ECS::apply_change` — provided a `DeleteComponent` order's entity hint, when
present, names the owning entity's slot (`deltaHintOk`).  Under the storage
invariant `ECSInv`, applying any delta preserves the invariant (so every id
in every live entity's component-id set stays present in the component
table); a resolved `DeleteEntity` removes every component the entity owns
from the table and from all entity id sets; and a `DeleteComponent` whose
component has an owner removes the component from the table and detaches
its id from every entity.  A `DeleteComponent` carrying a wrong entity hint
breaks the invariant, so the honesty side condition is necessary. -/
theorem c3_apply_change_preserves_referential_integrity (ecs : ECS)
    (delta : Delta) (hinv : ECSInv ecs) (hok : deltaHintOk ecs delta) :
    ECSInv (ecs.applyChange delta) ∧
    (∀ o eid e, delta = Delta.DeleteEntity o →
        ecs.getEntityIdFromIdentifier o.entity = some eid →
        ecs.entityStorage.getEntity eid = some e →
        ∀ cid ∈ e.data,
          (ecs.applyChange delta).componentStorage.getComponent cid = none ∧
          ∀ e2 ∈ (ecs.applyChange delta).entityStorage.entities,
            cid ∉ e2.data) ∧
    (∀ o (j : Nat) (hj : j < ecs.entityStorage.entities.length),
        delta = Delta.DeleteComponent o →
        o.componentId ∈ (ecs.entityStorage.entities[j]).data →
        (ecs.applyChange delta).componentStorage.getComponent o.componentId
            = none ∧
        ∀ e2 ∈ (ecs.applyChange delta).entityStorage.entities,
          o.componentId ∉ e2.data) := by
  cases delta with
  | Change c =>
      refine ⟨ECSInv.changeDelta ecs c hinv, ?_, ?_⟩
      · intro o eid e h
        exact absurd h (by simp)
      · intro o j hj h
        exact absurd h (by simp)
  | MakeComponent o =>
      refine ⟨?_, ?_, ?_⟩
      · show ECSInv (ecs.addComponent o.component o.entity)
        unfold ECS.addComponent
        cases hr : ecs.getEntityIdFromIdentifier o.entity with
        | some eid =>
            exact ECSInv.addComponentToEntityInv ecs eid o.component hinv
        | none =>
            exact hinv
      · intro o2 eid e h
        exact absurd h (by simp)
      · intro o2 j hj h
        exact absurd h (by simp)
  | MakeEntity o =>
      refine ⟨?_, ?_, ?_⟩
      · exact ECSInv.addComponentsInv (ecs.createEntity).2 (ecs.createEntity).1
          o.components (ECSInv.createEntityInv ecs hinv)
      · intro o2 eid e h
        exact absurd h (by simp)
      · intro o2 j hj h
        exact absurd h (by simp)
  | DeleteComponent o =>
      cases ho : o.entityId with
      | some eid =>
          have happ : ecs.applyChange (Delta.DeleteComponent o) =
              ecs.removeComponent eid o.componentId := by
            show ecs.deleteComponent o.componentId o.entityId = _
            unfold ECS.deleteComponent
            rw [ho]
          have hown : ∀ (j : Nat)
              (hj : j < ecs.entityStorage.entities.length),
              o.componentId ∈ (ecs.entityStorage.entities[j]).data →
                j = eid := by
            intro j hj hmem
            rcases hok ⟨j, hj⟩ hmem with h | h
            · rw [ho] at h
              exact Option.noConfusion h
            · rw [ho] at h
              exact (Option.some.inj h).symm
          have hrc := ECSInv.removeComponentEcs ecs eid o.componentId hinv hown
          rw [happ]
          refine ⟨hrc.1, ?_, ?_⟩
          · intro o2 eid2 e h
            exact absurd h (by simp)
          · intro o2 j hj heq hmem
            have ho2 : o2 = o := by
              injection heq with h
              exact h.symm
            subst ho2
            exact ⟨hrc.2.1, hrc.2.2⟩
      | none =>
          cases hf : ecs.entityStorage.getEntityFromComponent o.componentId with
          | some fid =>
              have happ : ecs.applyChange (Delta.DeleteComponent o) =
                  ecs.removeComponent fid o.componentId := by
                show ecs.deleteComponent o.componentId o.entityId = _
                unfold ECS.deleteComponent
                rw [ho, hf]
              obtain ⟨ef, hef, hefi⟩ : ∃ ef,
                  ecs.entityStorage.entities.find?
                    (fun e => e.data.contains o.componentId) = some ef ∧
                  ef.index = fid := by
                unfold EntityManager.getEntityFromComponent at hf
                cases hff : ecs.entityStorage.entities.find?
                    (fun e => e.data.contains o.componentId) with
                | none =>
                    rw [hff] at hf
                    exact Option.noConfusion hf
                | some ef =>
                    rw [hff] at hf
                    exact ⟨ef, rfl, Option.some.inj hf⟩
              have hmemef : ef ∈ ecs.entityStorage.entities :=
                List.mem_of_find?_eq_some hef
              have hcont : o.componentId ∈ ef.data := by
                have := List.find?_some hef
                simpa using this
              obtain ⟨p, hp, hpe⟩ := List.mem_iff_getElem.mp hmemef
              have hfp : fid = p := by
                rw [← hefi]
                have := hinv.2.2.2.2.1 ⟨p, hp⟩
                rw [show ecs.entityStorage.entities.get ⟨p, hp⟩ =
                    ecs.entityStorage.entities[p] from rfl, hpe] at this
                exact this
              have hown : ∀ (j : Nat)
                  (hj : j < ecs.entityStorage.entities.length),
                  o.componentId ∈ (ecs.entityStorage.entities[j]).data →
                    j = fid := by
                intro j hj hmem
                rw [hfp]
                by_contra hne
                refine hinv.2.2.1 ⟨j, hj⟩ ⟨p, hp⟩
                  (fun h => hne (show j = p from congrArg Fin.val h))
                  o.componentId hmem ?_
                rw [show ecs.entityStorage.entities.get ⟨p, hp⟩ =
                    ecs.entityStorage.entities[p] from rfl, hpe]
                exact hcont
              have hrc := ECSInv.removeComponentEcs ecs fid o.componentId
                hinv hown
              rw [happ]
              refine ⟨hrc.1, ?_, ?_⟩
              · intro o2 eid2 e h
                exact absurd h (by simp)
              · intro o2 j hj heq hmem
                have ho2 : o2 = o := by
                  injection heq with h
                  exact h.symm
                subst ho2
                exact ⟨hrc.2.1, hrc.2.2⟩
          | none =>
              have happ : ecs.applyChange (Delta.DeleteComponent o) = ecs := by
                show ecs.deleteComponent o.componentId o.entityId = _
                unfold ECS.deleteComponent
                rw [ho, hf]
              have hfindnone :
                  ecs.entityStorage.entities.find?
                    (fun e => e.data.contains o.componentId) = none := by
                unfold EntityManager.getEntityFromComponent at hf
                cases hff : ecs.entityStorage.entities.find?
                    (fun e => e.data.contains o.componentId) with
                | none => rfl
                | some ef =>
                    rw [hff] at hf
                    simp at hf
              have hnoown : ∀ (j : Nat)
                  (hj : j < ecs.entityStorage.entities.length),
                  o.componentId ∉ (ecs.entityStorage.entities[j]).data := by
                intro j hj hmem
                have h1 := List.find?_eq_none.mp hfindnone _
                  (List.getElem_mem hj)
                simp at h1
                exact h1 hmem
              rw [happ]
              refine ⟨hinv, ?_, ?_⟩
              · intro o2 eid2 e h
                exact absurd h (by simp)
              · intro o2 j hj heq hmem
                have ho2 : o2 = o := by
                  injection heq with h
                  exact h.symm
                subst ho2
                exact absurd hmem (hnoown j hj)
  | DeleteEntity o =>
      cases hr : ecs.getEntityIdFromIdentifier o.entity with
      | none =>
          have happ : ecs.applyChange (Delta.DeleteEntity o) = ecs := by
            show ecs.deleteEntity o.entity = ecs
            unfold ECS.deleteEntity
            rw [hr]
          rw [happ]
          refine ⟨hinv, ?_, ?_⟩
          · intro o2 eid2 e heq h2 h3
            have ho2 : o2 = o := by
              injection heq with h
              exact h.symm
            subst ho2
            rw [hr] at h2
            exact Option.noConfusion h2
          · intro o2 j hj heq
            exact absurd heq (by simp)
      | some eid =>
          cases hge : ecs.entityStorage.getEntity eid with
          | none =>
              have hcompsEmpty : ecs.getComponentsFromEntityId eid = [] := by
                unfold ECS.getComponentsFromEntityId
                rw [show ecs.getEntity eid = none from hge]
              have happ : ecs.applyChange (Delta.DeleteEntity o) = ecs := by
                show ecs.deleteEntity o.entity = ecs
                unfold ECS.deleteEntity
                rw [hr]
                show ECS.removeEntity (ecs.removeComponentList
                  ((ecs.getComponentsFromEntityId eid).map Component.getId))
                  eid = ecs
                rw [hcompsEmpty]
                show ECS.removeEntity ecs eid = ecs
                unfold ECS.removeEntity
                rw [hge]
              rw [happ]
              refine ⟨hinv, ?_, ?_⟩
              · intro o2 eid2 e heq h2 h3
                have ho2 : o2 = o := by
                  injection heq with h
                  exact h.symm
                subst ho2
                rw [hr] at h2
                have heid : eid = eid2 := Option.some.inj h2
                subst heid
                rw [hge] at h3
                exact Option.noConfusion h3
              · intro o2 j hj heq
                exact absurd heq (by simp)
          | some e =>
              have hids : ∀ i ∈ (ecs.getComponentsFromEntityId eid).map
                  Component.getId, i ∈ e.data := by
                intro i hi
                obtain ⟨comp, hcomp, hgid⟩ := List.mem_map.mp hi
                have hcomp2 : comp ∈ ecs.componentStorage.getComponents e := by
                  unfold ECS.getComponentsFromEntityId at hcomp
                  rw [show ecs.getEntity eid = some e from hge] at hcomp
                  exact hcomp
                obtain ⟨cid, hcid, hlook⟩ := List.mem_filterMap.mp hcomp2
                have hkeyc : comp.getId = cid :=
                  hinv.2.2.2.2.2 (cid, comp) (assocLookup_mem _ _ _ hlook)
                rw [← hgid, hkeyc]
                exact hcid
              have hpurge := ECSInv.purge ecs eid e
                ((ecs.getComponentsFromEntityId eid).map Component.getId)
                hids hge hinv
              have happ : ecs.applyChange (Delta.DeleteEntity o) =
                  { ecs with
                      componentStorage := e.data.foldl
                        (fun cm cid => cm.removeComponent cid)
                        (((ecs.getComponentsFromEntityId eid).map
                            Component.getId).foldl
                          (fun cm cid => cm.removeComponent cid)
                          ecs.componentStorage),
                      entityStorage :=
                        ecs.entityStorage.removeEntity eid } := by
                show ecs.deleteEntity o.entity = _
                unfold ECS.deleteEntity
                rw [hr]
                show ECS.removeEntity (ecs.removeComponentList
                  ((ecs.getComponentsFromEntityId eid).map Component.getId))
                  eid = _
                unfold ECS.removeEntity
                rw [show (ecs.removeComponentList
                    ((ecs.getComponentsFromEntityId eid).map
                      Component.getId)).entityStorage.getEntity eid =
                    some e from hge]
                rfl
              rw [happ]
              refine ⟨hpurge.1, ?_, ?_⟩
              · intro o2 eid2 e2 heq h2 h3 cid hcid
                have ho2 : o2 = o := by
                  injection heq with h
                  exact h.symm
                subst ho2
                rw [hr] at h2
                have heid : eid = eid2 := Option.some.inj h2
                subst heid
                rw [hge] at h3
                have he2 : e = e2 := Option.some.inj h3
                subst he2
                exact ⟨hpurge.2.1 cid hcid,
                  fun e3 he3 => hpurge.2.2 e3 he3 cid hcid⟩
              · intro o2 j hj heq
                exact absurd heq (by simp)

/-- A two-entity ECS in the invariant state: entity 0 owns component 0,
entity 1 owns component 1. -/
def c3ECS : ECS :=
  ⟨⟨2, [(0, Component.Health ⟨0, ⟨5, 5⟩⟩), (1, Component.Health ⟨1, ⟨5, 5⟩⟩)]⟩,
    ⟨[⟨0, [0]⟩, ⟨1, [1]⟩], [], USIZE_MAX⟩⟩

/-- C3 counterexample: a `DeleteComponentOrder` whose entity hint names the
wrong entity (component 0 is owned by entity 0, the hint says entity 1)
removes the component from the table but detaches nothing, leaving entity
0's id set pointing at a missing table entry — referential integrity is not
preserved by every delta unconditionally. -/
theorem c3_wrong_hint_counterexample :
    (∀ e ∈ c3ECS.entityStorage.entities, ∀ cid ∈ e.data,
      (c3ECS.componentStorage.getComponent cid).isSome = true) ∧
    (∃ e ∈ (c3ECS.applyChange
        (Delta.DeleteComponent ⟨0, some 1⟩)).entityStorage.entities,
      ∃ cid ∈ e.data,
        (c3ECS.applyChange
          (Delta.DeleteComponent ⟨0, some 1⟩)).componentStorage.getComponent
            cid = none) := by
  decide

/-- Witness for C3 at a concrete input: an honestly hinted delete preserves
the invariant on the two-entity ECS. -/
theorem c3_referential_integrity_witness :
    ECSInv (c3ECS.applyChange (Delta.DeleteComponent ⟨0, some 0⟩)) :=
  (c3_apply_change_preserves_referential_integrity c3ECS
    (Delta.DeleteComponent ⟨0, some 0⟩) (by unfold ECSInv; decide)
    (by unfold deltaHintOk; decide)).1

/-! ## C7: applying a Health change delta through the ECS -/

/-- C7: a `Delta::Change` carrying `Health{current:-3, max:0}` applied
through `ECS::apply_change` to a stored `Health{10,10}` component leaves
that component with `current = 7` and `max = 10`: `Health::apply_diff` adds
both fields. -/
theorem c7_health_change_applies_additively (ecs : ECS) (cid : Nat)
    (h : ecs.getComponent cid = some (Component.Health ⟨cid, ⟨10, 10⟩⟩)) :
    (ecs.applyChange (Delta.Change (Component.Health ⟨cid, ⟨-3, 0⟩⟩))).getComponent
        cid = some (Component.Health ⟨cid, ⟨7, 10⟩⟩) := by
  have hid : (Component.Health ⟨cid, (⟨-3, 0⟩ : Health)⟩).getId = cid := rfl
  simp only [ECS.getComponent, ComponentManager.getComponent] at h
  simp only [ECS.applyChange, ECS.getComponent, ComponentManager.applyChange,
    ComponentManager.getComponent, hid, h]
  rw [assocLookup_assocUpdate_self, h]
  simp [Component.applyDiffData, Health.applyDiff]

/-- A one-entity ECS holding a single `Health{10,10}` component with id 0. -/
def c7ECS : ECS :=
  ⟨⟨1, [(0, Component.Health ⟨0, ⟨10, 10⟩⟩)]⟩, ⟨[⟨0, [0]⟩], [], USIZE_MAX⟩⟩

/-- Witness for C7 on the concrete one-entity ECS. -/
theorem c7_health_change_witness :
    (c7ECS.applyChange (Delta.Change (Component.Health ⟨0, ⟨-3, 0⟩⟩))).getComponent
        0 = some (Component.Health ⟨0, ⟨7, 10⟩⟩) :=
  c7_health_change_applies_additively c7ECS 0 (by decide)

/-! ## AI behaviors (src/game/components/behavior.rs)

The `f32` distance guards become integer squared-distance guards, exact on
integer coordinates for the thresholds used (`> 1.1` iff `distSq ≥ 2`,
`> 2.1` iff `distSq ≥ 5`, `≤ 1.0` iff `distSq ≤ 1`, `< 2.0` iff
`distSq < 4`, and `> max_range` iff `distSq > max_range²` for the
non-negative ranges the game uses).  The `Cell` interior state of the slow
and wandering behaviors is returned as the updated `BehaviorKind`. -/

/-- Embeds `handle_sleep`. -/
def handleSleep (state : AIState) : Option AIAction :=
  match state with
  | AIState.Sleeping i =>
      if i = 1 then some AIAction.Awake else some AIAction.Sleep
  | AIState.Alert => none

/-- Embeds `sleep`: the new counter is `max(old - 1, -1)`; `none` models the
`unwrap` panic on an unowned position component. -/
def sleep (myPos : IndexedData Coordinate) (ecs : ECS) :
    Option (List Delta) :=
  match ecs.getEntityIdFromComponentId myPos.index with
  | none => none
  | some entityId =>
      match ecs.getComponentFromEntityId entityId ComponentType.Turn with
      | some (Component.Turn data) =>
          match data.data.state with
          | AIState.Sleeping oldDuration =>
              some [Delta.Change (Component.Turn (data.makeChange
                { data.data with
                    state := AIState.Sleeping (max (oldDuration - 1) (-1)) }))]
          | _ => some []
      | _ => some []

/-- Embeds `wake_up`: the state becomes `Alert`. -/
def wakeUp (myPos : IndexedData Coordinate) (ecs : ECS) :
    Option (List Delta) :=
  match ecs.getEntityIdFromComponentId myPos.index with
  | none => none
  | some entityId =>
      match ecs.getComponentFromEntityId entityId ComponentType.Turn with
      | some (Component.Turn data) =>
          some [Delta.Change (Component.Turn (data.makeChange
            { data.data with state := AIState.Alert }))]
      | _ => some []

/-- The player-invisibility preamble shared by the melee, fast-melee, archer
and slow behaviors: on an invisible player the behavior immediately wanders
(if it sees the player's tile) or sleeps.  The outer `Option` propagates the
line-of-sight panic; the inner `Option` is `some` when the preamble
preempts the normal action selection. -/
def invisiblePlayerCheck (fuel : Nat) (myPos plPos : Coordinate)
    (map : GameMap) (losEnt : Coordinate → Bool) (ecs : ECS) :
    Option (Option (List AIAction)) :=
  match ecs.getComponentFromEntityId ecs.getPlayerId
      ComponentType.DurationEffect with
  | some (Component.DurationEffect d) =>
      match d.data.effect with
      | EffectType.Invisible =>
          match lineOfSight fuel myPos plPos map losEnt with
          | none => none
          | some true => some (some [AIAction.Wander])
          | some false => some (some [AIAction.Sleep])
      | _ => some none
  | _ => some none

/-- Embeds the six `Behavior::select_action` implementations
(src/game/components/behavior.rs), dispatched on the defunctionalized
`BehaviorKind`; returns the chosen actions together with the updated
interior state, `none` modeling the panics (`ranged.unwrap()` on the
archers before anything else, the name `unwrap` in the slow behavior's
reeling log line, and any line-of-sight panic). -/
def selectAction (fuel : Nat) (behavior : BehaviorKind)
    (selfReport playerReport : UnitReport) (state : AIState) (map : GameMap)
    (losEnt : Coordinate → Bool) (ecs : ECS) :
    Option (List AIAction × BehaviorKind) :=
  let myPos := selfReport.position.data
  let plPos := playerReport.position.data
  let distSq := Coordinate.distSq myPos plPos
  match behavior with
  | BehaviorKind.MeleeBehavior =>
      match invisiblePlayerCheck fuel myPos plPos map losEnt ecs with
      | none => none
      | some (some actions) => some (actions, behavior)
      | some none =>
          match handleSleep state with
          | some action => some ([action], behavior)
          | none =>
              if distSq ≥ 2 then some ([AIAction.Approach], behavior)
              else some ([AIAction.Attack], behavior)
  | BehaviorKind.FastMeleeBehavior =>
      match invisiblePlayerCheck fuel myPos plPos map losEnt ecs with
      | none => none
      | some (some actions) => some (actions, behavior)
      | some none =>
          match handleSleep state with
          | some action => some ([action], behavior)
          | none =>
              if distSq ≥ 5 then
                some ([AIAction.Approach, AIAction.Approach], behavior)
              else if distSq ≥ 2 then
                some ([AIAction.Approach, AIAction.Attack], behavior)
              else some ([AIAction.Attack, AIAction.Wander], behavior)
  | BehaviorKind.ArcherBehavior =>
      match selfReport.combat.data.ranged with
      | none => none
      | some atk =>
          match invisiblePlayerCheck fuel myPos plPos map losEnt ecs with
          | none => none
          | some (some actions) => some (actions, behavior)
          | some none =>
              match handleSleep state with
              | some action => some ([action], behavior)
              | none =>
                  if distSq > atk.maxRange * atk.maxRange then
                    some ([AIAction.Approach], behavior)
                  else
                    match lineOfSight fuel myPos plPos map losEnt with
                    | none => none
                    | some false => some ([AIAction.Approach], behavior)
                    | some true =>
                        if distSq ≤ 1 then some ([AIAction.Attack], behavior)
                        else some ([AIAction.Shoot], behavior)
  | BehaviorKind.TrueSightArcherBehavior =>
      match selfReport.combat.data.ranged with
      | none => none
      | some atk =>
          match handleSleep state with
          | some action => some ([action], behavior)
          | none =>
              if distSq > atk.maxRange * atk.maxRange then
                some ([AIAction.Approach], behavior)
              else
                match lineOfSight fuel myPos plPos map losEnt with
                | none => none
                | some false => some ([AIAction.Approach], behavior)
                | some true =>
                    if distSq ≤ 1 then some ([AIAction.Attack], behavior)
                    else some ([AIAction.Shoot], behavior)
  | BehaviorKind.SlowBehavior actedLastTurn =>
      match invisiblePlayerCheck fuel myPos plPos map losEnt ecs with
      | none => none
      | some (some actions) =>
          some (actions, BehaviorKind.SlowBehavior actedLastTurn)
      | some none =>
          match handleSleep state with
          | some action =>
              some ([action], BehaviorKind.SlowBehavior actedLastTurn)
          | none =>
              if actedLastTurn then
                match selfReport.name with
                | none => none
                | some _ =>
                    some ([AIAction.Sleep], BehaviorKind.SlowBehavior false)
              else if distSq ≥ 2 then
                some ([AIAction.Approach],
                  BehaviorKind.SlowBehavior actedLastTurn)
              else some ([AIAction.Attack], BehaviorKind.SlowBehavior true)
  | BehaviorKind.WanderBehavior counter threshold =>
      match handleSleep state with
      | some action =>
          some ([action], BehaviorKind.WanderBehavior counter threshold)
      | none =>
          if distSq < 4 then
            some ([AIAction.Flee], BehaviorKind.WanderBehavior counter threshold)
          else if counter ≥ threshold then
            some ([AIAction.Wander], BehaviorKind.WanderBehavior 0 threshold)
          else
            some ([AIAction.Sleep],
              BehaviorKind.WanderBehavior (counter + 1) threshold)

/-- A `Change` carrying a `Turn` component clone-overwrites the stored
payload (`Component::apply_diff` does not dispatch to `TurnTaker`'s own
diff impl for the id-matched table entry it mutates in place). -/
theorem applyChange_turn_overwrite (ecs : ECS) (tid : Nat)
    (told tnew : TurnTaker)
    (h : ecs.getComponent tid = some (Component.Turn ⟨tid, told⟩)) :
    (ecs.applyChange (Delta.Change (Component.Turn ⟨tid, tnew⟩))).getComponent
        tid = some (Component.Turn ⟨tid, tnew⟩) := by
  have hid : (Component.Turn ⟨tid, tnew⟩).getId = tid := rfl
  simp only [ECS.getComponent, ComponentManager.getComponent] at h
  simp only [ECS.applyChange, ECS.getComponent, ComponentManager.applyChange,
    ComponentManager.getComponent, hid, h]
  rw [assocLookup_assocUpdate_self, h]
  simp [Component.applyDiffData]

/-! ## Event responses (src/game/responses.rs, src/ecs/event.rs) -/

/-- Embeds `event_to_reponse_type` (source spelling kept in the doc). -/
def eventToResponseType : EventType → ComponentType
  | EventType.Bump => ComponentType.BumpResponse
  | EventType.Shot => ComponentType.ShotResponse
  | EventType.Death => ComponentType.DeathResponse
  | EventType.Fire => ComponentType.FireResponse

/-- Embeds `take_component_from_refs` (src/ecs/entity.rs): the LAST
component of the requested type wins, the rest keep their order. -/
def takeComponentFromRefs (compType : ComponentType) (vec : List Component) :
    Option Component × List Component :=
  vec.foldl
    (fun acc component =>
      if component.isOfType compType then (some component, acc.2)
      else (acc.1, acc.2 ++ [component]))
    (none, [])

/-- Embeds `take_component_from_owned` (identical loop on owned values). -/
def takeComponentFromOwned (compType : ComponentType) (vec : List Component) :
    Option Component × List Component :=
  vec.foldl
    (fun acc component =>
      if component.isOfType compType then (some component, acc.2)
      else (acc.1, acc.2 ++ [component]))
    (none, [])

/-- Embeds `open_image_response`: switch the image to its "open" state (the
fresh `ImageHandle::new` carries an empty state table; the merge keeps the
stored one). -/
def openImageResponse (_event : InteractionEvent)
    (ownComponents : List Component) (_ecs : ECS) : List Delta :=
  match (takeComponentFromRefs ComponentType.Image ownComponents).1 with
  | some (Component.Image image) =>
      match image.data.states.lookup "open" with
      | some data =>
          [Delta.Change (Component.Image
            (image.makeChange (ImageHandle.new data)))]
      | none => []
  | _ => []

/-- Embeds `close_image_response`. -/
def closeImageResponse (_event : InteractionEvent)
    (ownComponents : List Component) (_ecs : ECS) : List Delta :=
  match (takeComponentFromRefs ComponentType.Image ownComponents).1 with
  | some (Component.Image image) =>
      match image.data.states.lookup "closed" with
      | some data =>
          [Delta.Change (Component.Image
            (image.makeChange (ImageHandle.new data)))]
      | none => []
  | _ => []

/-- Embeds `open_collision_response`. -/
def openCollisionResponse (_event : InteractionEvent)
    (ownComponents : List Component) (_ecs : ECS) : List Delta :=
  match (takeComponentFromRefs ComponentType.Collision ownComponents).1 with
  | some (Component.Collision collision) =>
      [Delta.Change (Component.Collision
        (collision.makeChange Collision.Walkable))]
  | _ => []

/-- Embeds `close_collision_response`. -/
def closeCollisionResponse (_event : InteractionEvent)
    (ownComponents : List Component) (_ecs : ECS) : List Delta :=
  match (takeComponentFromRefs ComponentType.Collision ownComponents).1 with
  | some (Component.Collision collision) =>
      [Delta.Change (Component.Collision
        (collision.makeChange Collision.Blocking))]
  | _ => []

/-- Embeds `open_los_blocking_response`. -/
def openLosBlockingResponse (_event : InteractionEvent)
    (ownComponents : List Component) (_ecs : ECS) : List Delta :=
  match (takeComponentFromRefs ComponentType.LineOfSight ownComponents).1 with
  | some (Component.LineOfSight blocking) =>
      [Delta.Change (Component.LineOfSight
        (blocking.makeChange LoSBlocking.None))]
  | _ => []

/-- Embeds `close_los_blocking_response`. -/
def closeLosBlockingResponse (_event : InteractionEvent)
    (ownComponents : List Component) (_ecs : ECS) : List Delta :=
  match (takeComponentFromRefs ComponentType.LineOfSight ownComponents).1 with
  | some (Component.LineOfSight blocking) =>
      [Delta.Change (Component.LineOfSight
        (blocking.makeChange LoSBlocking.Blocking))]
  | _ => []

/-- Embeds `set_open_door_bump_response`. -/
def setOpenDoorBumpResponse (_event : InteractionEvent)
    (ownComponents : List Component) (_ecs : ECS) : List Delta :=
  match (takeComponentFromRefs ComponentType.BumpResponse ownComponents).1 with
  | some (Component.BumpResponse oldResponse) =>
      [Delta.Change (Component.BumpResponse (oldResponse.makeChange
        ⟨oldResponse.data.ownEntity, ResponseFun.openDoorResponse⟩))]
  | _ => []

/-- Embeds `set_close_door_bump_response`. -/
def setCloseDoorBumpResponse (_event : InteractionEvent)
    (ownComponents : List Component) (_ecs : ECS) : List Delta :=
  match (takeComponentFromRefs ComponentType.BumpResponse ownComponents).1 with
  | some (Component.BumpResponse oldResponse) =>
      [Delta.Change (Component.BumpResponse (oldResponse.makeChange
        ⟨oldResponse.data.ownEntity, ResponseFun.closeDoorResponse⟩))]
  | _ => []

/-- Embeds `propagate_event` (src/ecs/event.rs) parameterized by the
response interpreter, closing the recursion through the fire-spreading
responses. -/
def propagateEventWith
    (run : ResponseFun → InteractionEvent → List Component → ECS → List Delta)
    (event : InteractionEvent) (entityId : Nat) (ecs : ECS) : List Delta :=
  match ecs.getComponentFromEntityId entityId
      (eventToResponseType event.eventType) with
  | some (Component.BumpResponse comp) | some (Component.ShotResponse comp)
  | some (Component.DeathResponse comp)
  | some (Component.FireResponse comp) =>
      run comp.data.responseFunction event
        (ecs.getComponentsFromEntityId comp.data.ownEntity) ecs
  | _ => []

/-- Embeds `spread_fire_response`, parameterized by the interpreter. -/
def spreadFireResponse
    (run : ResponseFun → InteractionEvent → List Component → ECS → List Delta)
    (event : InteractionEvent) (_ownComponents : List Component) (ecs : ECS) :
    List Delta :=
  match event.eventType with
  | EventType.Bump =>
      match event.payload.head? with
      | some payloadComponent =>
          match ecs.getEntityIdFromComponentId payloadComponent.getId with
          | some entityId =>
              propagateEventWith run ⟨EventType.Fire, none, []⟩ entityId ecs
          | none => []
      | none => []
  | _ => []

/-- Embeds `spread_if_on_fire_response`: only a burning owner spreads. -/
def spreadIfOnFireResponse
    (run : ResponseFun → InteractionEvent → List Component → ECS → List Delta)
    (event : InteractionEvent) (ownComponents : List Component) (ecs : ECS) :
    List Delta :=
  match (takeComponentFromRefs ComponentType.DurationEffect
      ownComponents).1 with
  | some (Component.DurationEffect ⟨_, ⟨_, EffectType.Burning⟩⟩) =>
      spreadFireResponse run event ownComponents ecs
  | _ => []

/-- The defunctionalized response interpreter: one fueled function covering
the response functions of src/game/responses.rs that the claims exercise;
composite responses concatenate their parts in source order, and the
recursive fire spread consumes one unit of fuel.  `open_door_response`
concatenates image, collision, bump-swap, line-of-sight and burn deltas;
`close_door_response` first bails out when the event payload carries a
position (a bump rather than the close command). -/
def runResponse : Nat → ResponseFun → InteractionEvent → List Component →
    ECS → List Delta
  | 0, _, _, _, _ => []
  | fuel + 1, f, event, ownComponents, ecs =>
      match f with
      | ResponseFun.emptyResponse => []
      | ResponseFun.openImageResponse =>
          openImageResponse event ownComponents ecs
      | ResponseFun.closeImageResponse =>
          closeImageResponse event ownComponents ecs
      | ResponseFun.openCollisionResponse =>
          openCollisionResponse event ownComponents ecs
      | ResponseFun.closeCollisionResponse =>
          closeCollisionResponse event ownComponents ecs
      | ResponseFun.openLosBlockingResponse =>
          openLosBlockingResponse event ownComponents ecs
      | ResponseFun.closeLosBlockingResponse =>
          closeLosBlockingResponse event ownComponents ecs
      | ResponseFun.setOpenDoorBumpResponse =>
          setOpenDoorBumpResponse event ownComponents ecs
      | ResponseFun.setCloseDoorBumpResponse =>
          setCloseDoorBumpResponse event ownComponents ecs
      | ResponseFun.spreadFireResponse =>
          spreadFireResponse (runResponse fuel) event ownComponents ecs
      | ResponseFun.spreadIfOnFireResponse =>
          spreadIfOnFireResponse (runResponse fuel) event ownComponents ecs
      | ResponseFun.openDoorResponse =>
          openImageResponse event ownComponents ecs
            ++ openCollisionResponse event ownComponents ecs
            ++ setCloseDoorBumpResponse event ownComponents ecs
            ++ openLosBlockingResponse event ownComponents ecs
            ++ spreadIfOnFireResponse (runResponse fuel) event ownComponents
              ecs
      | ResponseFun.closeDoorResponse =>
          match (takeComponentFromOwned ComponentType.Position
              event.payload).1 with
          | some _ => []
          | none =>
              closeImageResponse event ownComponents ecs
                ++ closeCollisionResponse event ownComponents ecs
                ++ setOpenDoorBumpResponse event ownComponents ecs
                ++ closeLosBlockingResponse event ownComponents ecs

/-- Embeds `propagate_event` with the fueled interpreter. -/
def propagateEvent (fuel : Nat) (event : InteractionEvent) (entityId : Nat)
    (ecs : ECS) : List Delta :=
  propagateEventWith (runResponse fuel) event entityId ecs

/-! ## Pathfinding (src/utils/pathfinding.rs)

The ECS queries of `get_passable` and the hazard test
(`ecs.get_blocking_entity`, `ecs.entity_id_has_component`,
`ecs.has_hazard`) go through the omitted spatial room index, so they enter
as a `PathEnv` of oracles; the `GameMap` passability test is the embedded
one.  The `PriorityQueue` pops some entry of minimal
`distance + h_value`; pop order among equal priorities is unspecified in
the source (hash iteration), and the embedding picks the first minimal
entry — the invariants proved below do not depend on the choice. -/

/-- Embeds `NodeData`. -/
structure NodeData where
  distance : Nat
  hValue : Nat
  parent : Option Coordinate
deriving DecidableEq, Repr

/-- Embeds `NodeData::new`. -/
def NodeData.new (hValue : Nat) : NodeData := ⟨0, hValue, none⟩

/-- Embeds `NodeData::get_comparable`. -/
def NodeData.getComparable (n : NodeData) : Nat := n.distance + n.hValue

/-- First-match lookup in a coordinate-keyed association list
(`HashMap::get` / `PriorityQueue::get_priority`). -/
def clookup {α : Type} : List (Coordinate × α) → Coordinate → Option α
  | [], _ => none
  | (k, v) :: rest, c => if k = c then some v else clookup rest c

/-- Replace the value at the first matching key
(`PriorityQueue::change_priority`). -/
def cupdate {α : Type} : List (Coordinate × α) → Coordinate → α →
    List (Coordinate × α)
  | [], _, _ => []
  | (k, v) :: rest, c, nv =>
      if k = c then (k, nv) :: rest else (k, v) :: cupdate rest c nv

/-- Pop an entry of minimal `get_comparable` (the `Reverse` max-heap pop);
the first minimal entry is chosen. -/
def popMin : List (Coordinate × NodeData) →
    Option ((Coordinate × NodeData) × List (Coordinate × NodeData))
  | [] => none
  | e :: rest =>
      match popMin rest with
      | none => some (e, [])
      | some (m, rem) =>
          if e.2.getComparable ≤ m.2.getComparable then some (e, rest)
          else some (m, e :: rem)

/-- The ECS-side oracles of the path search. -/
structure PathEnv where
  blockingEntity : Coordinate → Option Nat
  hasComponent : Nat → ComponentType → Bool
  hasHazard : Coordinate → Bool

/-- Embeds the filter body of `get_passable`:
`(map.is_tile_passable(coord) && (no blocker ∨ ignored monster ∨ ignored
door)) || coord == destination`, with the tile-registry panic propagated
(`is_tile_passable` is evaluated before the `||` short-circuit). -/
def passesFilter (coord destination : Coordinate) (ignoreUnits
    ignoreDoors : Bool) (map : GameMap) (env : PathEnv) : Option Bool :=
  match map.isTilePassable coord with
  | none => none
  | some p =>
      let entityOk := match env.blockingEntity coord with
        | none => true
        | some e =>
            (ignoreUnits && env.hasComponent e ComponentType.Monster) ||
              (ignoreDoors && env.hasComponent e ComponentType.Door)
      some ((p && entityOk) || coord = destination)

/-- Embeds `get_passable`: the four neighbor offsets mapped onto the
visited coordinate and filtered. -/
def getPassable : List Coordinate → Coordinate → Coordinate → Bool → Bool →
    GameMap → PathEnv → Option (List Coordinate)
  | [], _, _, _, _, _, _ => some []
  | dir :: rest, visited, destination, iU, iD, map, env => do
      let coord := visited + dir
      let keep ← passesFilter coord destination iU iD map env
      let tail ← getPassable rest visited destination iU iD map env
      some (if keep then coord :: tail else tail)

/-- The inner neighbor loop of `fill_path_map`: skip closed neighbors,
improve an openSet neighbor's priority when strictly shorter, push unseen
neighbors. -/
def relaxStep (closed : List (Coordinate × NodeData))
    (visitedCoord : Coordinate) (visitedData : NodeData)
    (heuristic : Coordinate → Nat) (hazardCost : Nat) (env : PathEnv)
    (openSet : List (Coordinate × NodeData)) (neighborCoord : Coordinate) :
    List (Coordinate × NodeData) :=
  if (clookup closed neighborCoord).isSome then openSet
  else
    let cost := if env.hasHazard neighborCoord then hazardCost else 1
    let distanceThroughHere := visitedData.distance + cost
    match clookup openSet neighborCoord with
    | some neighborData =>
        if neighborData.distance > distanceThroughHere then
          cupdate openSet neighborCoord
            ⟨distanceThroughHere, heuristic neighborCoord,
              some visitedCoord⟩
        else openSet
    | none =>
        openSet ++ [(neighborCoord,
          ⟨distanceThroughHere, heuristic neighborCoord,
            some visitedCoord⟩)]

/-- The inner neighbor loop of `fill_path_map`. -/
def relaxNeighbors (closed : List (Coordinate × NodeData))
    (visitedCoord : Coordinate) (visitedData : NodeData)
    (heuristic : Coordinate → Nat) (hazardCost : Nat) (env : PathEnv)
    (openSet : List (Coordinate × NodeData)) (passableNeighbors : List Coordinate) :
    List (Coordinate × NodeData) :=
  passableNeighbors.foldl
    (relaxStep closed visitedCoord visitedData heuristic hazardCost env)
    openSet

/-- Embeds `fill_path_map` with explicit fuel (`none` is fuel exhaustion or
a propagated tile-registry panic). -/
def fillPathMap : Nat → List (Coordinate × NodeData) →
    List (Coordinate × NodeData) → (Coordinate × NodeData) →
    List Coordinate → Coordinate → (Coordinate → Nat) → Bool → Bool →
    Bool → Bool → GameMap → PathEnv →
    Option ((Coordinate × NodeData) × List (Coordinate × NodeData))
  | 0, _, _, _, _, _, _, _, _, _, _, _, _ => none
  | fuel + 1, openSet, closed, lastNode, neighbors, destination, heuristic,
      returnEarly, iU, iD, iH, map, env =>
      match popMin openSet with
      | none => some (lastNode, closed)
      | some ((visitedCoord, visitedData), openRest) =>
          let closed := (visitedCoord, visitedData) :: closed
          let lastNode := (visitedCoord, visitedData)
          if visitedCoord = destination ∧ returnEarly = true then
            some (lastNode, closed)
          else do
            let passableNeighbors ← getPassable neighbors visitedCoord
              destination iU iD map env
            let hazardCost := if iH then 1 else 3
            let openSet := relaxNeighbors closed visitedCoord visitedData
              heuristic hazardCost env openRest passableNeighbors
            fillPathMap fuel openSet closed lastNode neighbors destination
              heuristic returnEarly iU iD iH map env

/-- The direction table built from the closed set by
`calculate_pathing_grid`: each parented node maps to `parent - coord`. -/
def navGrid (closed : List (Coordinate × NodeData)) :
    List (Coordinate × Coordinate) :=
  closed.filterMap (fun p =>
    match p.2.parent with
    | some parent => some (p.1, parent - p.1)
    | none => none)

/-- Embeds `calculate_pathing_grid`: the same search run to exhaustion
(`return_early = false`) from the origin, collecting the next-step
directions. -/
def calculatePathingGrid (fuel : Nat) (origin destination : Coordinate)
    (map : GameMap) (env : PathEnv) (heuristic : Coordinate → Nat)
    (ignoreUnits ignoreDoors ignoreHazards : Bool) :
    Option (List (Coordinate × Coordinate)) := do
  let neighbors : List Coordinate := [⟨0, 1⟩, ⟨0, -1⟩, ⟨1, 0⟩, ⟨-1, 0⟩]
  let start : Coordinate × NodeData := (origin, NodeData.new (heuristic origin))
  let result ← fillPathMap fuel [start] [] start neighbors destination
    heuristic false ignoreUnits ignoreDoors ignoreHazards map env
  some (navGrid result.2)

/-- Repeatedly follow the recorded directions for a given number of
steps. -/
def followGrid (grid : List (Coordinate × Coordinate)) :
    Nat → Coordinate → Coordinate
  | 0, c => c
  | k + 1, c =>
      match clookup grid c with
      | some dir => followGrid grid k (c + dir)
      | none => c

/-! ### Path-search invariants -/

/-- Adding a direction to its endpoint difference recovers the parent. -/
theorem Coordinate.add_sub_cancel2 (c p : Coordinate) : c + (p - c) = p := by
  show Coordinate.add c (Coordinate.sub p c) = p
  cases c
  cases p
  simp [Coordinate.add, Coordinate.sub]

/-- A coordinate lookup succeeds exactly on stored keys. -/
theorem clookup_isSome_iff {α : Type} (l : List (Coordinate × α))
    (c : Coordinate) :
    (clookup l c).isSome = true ↔ c ∈ l.map Prod.fst := by
  induction l with
  | nil => simp [clookup]
  | cons e rest ih =>
      obtain ⟨k, v⟩ := e
      by_cases h : k = c
      · subst h
        simp [clookup]
      · simp [clookup, h, ih, Ne.symm h]

/-- Missing keys look up to `none`. -/
theorem clookup_eq_none {α : Type} (l : List (Coordinate × α))
    (c : Coordinate) (h : c ∉ l.map Prod.fst) : clookup l c = none := by
  rcases ho : clookup l c with _ | v
  · rfl
  · exact absurd ((clookup_isSome_iff l c).mp (by rw [ho]; rfl)) h

/-- Lookup distributes over append, preferring the left list. -/
theorem clookup_append {α : Type} (l1 l2 : List (Coordinate × α))
    (c : Coordinate) :
    clookup (l1 ++ l2) c =
      match clookup l1 c with
      | some v => some v
      | none => clookup l2 c := by
  induction l1 with
  | nil => simp [clookup]
  | cons e rest ih =>
      obtain ⟨k, v⟩ := e
      by_cases h : k = c <;> simp [clookup, h, ih]

/-- Full description of a lookup after `cupdate`. -/
theorem clookup_cupdate {α : Type} (l : List (Coordinate × α))
    (c j : Coordinate) (nv : α) :
    clookup (cupdate l c nv) j =
      if j = c then (clookup l c).map (fun _ => nv) else clookup l j := by
  induction l with
  | nil => simp [cupdate, clookup]
  | cons e rest ih =>
      obtain ⟨k, v⟩ := e
      by_cases hk : k = c
      · subst hk
        by_cases hj : k = j
        · subst hj
          simp [cupdate, clookup]
        · have hj' : ¬j = k := fun h => hj h.symm
          simp [cupdate, clookup, hj, hj']
      · by_cases hj : k = j
        · subst hj
          simp [cupdate, clookup, hk, fun h : k = c => hk h]
        · simp [cupdate, clookup, hk, hj, ih]

/-- `cupdate` keeps the key sequence. -/
theorem cupdate_map_fst {α : Type} (l : List (Coordinate × α))
    (c : Coordinate) (nv : α) :
    (cupdate l c nv).map Prod.fst = l.map Prod.fst := by
  induction l with
  | nil => rfl
  | cons e rest ih =>
      obtain ⟨k, v⟩ := e
      by_cases hk : k = c <;> simp [cupdate, hk, ih]

/-- `popMin` fails only on the empty queue. -/
theorem popMin_eq_none (l : List (Coordinate × NodeData)) :
    popMin l = none ↔ l = [] := by
  cases l with
  | nil => simp [popMin]
  | cons e rest =>
      simp only [popMin]
      cases hr : popMin rest with
      | none => simp
      | some p =>
          obtain ⟨m, rem⟩ := p
          by_cases h : e.2.getComparable ≤ m.2.getComparable <;> simp [h]

/-- `popMin` removes exactly one occurrence of the popped entry. -/
theorem popMin_split (l : List (Coordinate × NodeData))
    (m : Coordinate × NodeData) (rem : List (Coordinate × NodeData))
    (h : popMin l = some (m, rem)) :
    ∃ l1 l2, l = l1 ++ m :: l2 ∧ rem = l1 ++ l2 := by
  induction l generalizing m rem with
  | nil => exact Option.noConfusion h
  | cons e rest ih =>
      simp only [popMin] at h
      cases hrest : popMin rest with
      | none =>
          rw [hrest] at h
          have h2 := Option.some.inj h
          injection h2 with h3 h4
          subst h3
          subst h4
          rw [(popMin_eq_none rest).mp hrest]
          exact ⟨[], [], rfl, rfl⟩
      | some p =>
          obtain ⟨m', rem'⟩ := p
          rw [hrest] at h
          simp only [] at h
          by_cases hle : e.2.getComparable ≤ m'.2.getComparable
          · rw [if_pos hle] at h
            have h2 := Option.some.inj h
            injection h2 with h3 h4
            subst h3
            subst h4
            exact ⟨[], rest, rfl, rfl⟩
          · rw [if_neg hle] at h
            have h2 := Option.some.inj h
            injection h2 with h3 h4
            subst h3
            subst h4
            obtain ⟨l1, l2, hl, hr⟩ := ih m' rem' hrest
            refine ⟨e :: l1, l2, ?_, ?_⟩
            · rw [hl]
              rfl
            · rw [hr]
              rfl

/-- Under duplicate-free keys, a successful pop looks up to its own data,
vanishes from the remainder, leaves the other keys' lookups unchanged, and
keeps the remainder duplicate-free. -/
theorem popMin_lookup (l : List (Coordinate × NodeData))
    (m : Coordinate × NodeData) (rem : List (Coordinate × NodeData))
    (h : popMin l = some (m, rem)) (hnd : (l.map Prod.fst).Nodup) :
    clookup l m.1 = some m.2 ∧ clookup rem m.1 = none ∧
    (∀ c, c ≠ m.1 → clookup rem c = clookup l c) ∧
    (rem.map Prod.fst).Nodup := by
  obtain ⟨l1, l2, hl, hr⟩ := popMin_split l m rem h
  subst hl
  subst hr
  have hmap : (l1 ++ m :: l2).map Prod.fst =
      l1.map Prod.fst ++ m.1 :: l2.map Prod.fst := by simp
  rw [hmap] at hnd
  have hnotin1 : m.1 ∉ l1.map Prod.fst := by
    intro hmem
    exact (List.disjoint_of_nodup_append hnd) hmem (List.mem_cons_self _ _)
  have hnotin2 : m.1 ∉ l2.map Prod.fst := by
    have := (List.nodup_append.mp hnd).2.1
    exact (List.nodup_cons.mp this).1
  have hl1 : clookup l1 m.1 = none := clookup_eq_none _ _ hnotin1
  have hl2 : clookup l2 m.1 = none := clookup_eq_none _ _ hnotin2
  refine ⟨?_, ?_, ?_, ?_⟩
  · rw [clookup_append, hl1]
    simp [clookup]
  · rw [clookup_append, hl1]
    simp [hl2]
  · intro c hc
    rw [clookup_append, clookup_append]
    cases h1 : clookup l1 c with
    | some v => simp
    | none =>
        simp only []
        show clookup l2 c = clookup (m :: l2) c
        obtain ⟨mk, mv⟩ := m
        have : ¬mk = c := fun hh => hc hh.symm
        simp [clookup, this]
  · have hsub : List.Sublist ((l1 ++ l2).map Prod.fst)
        ((l1 ++ m :: l2).map Prod.fst) :=
      List.Sublist.map Prod.fst
        (List.Sublist.append (List.Sublist.refl l1)
          (List.sublist_cons_self m l2))
    rw [hmap] at hsub
    exact hnd.sublist hsub

/-- The open-set half of the search invariant, relative to a closed set:
duplicate-free keys, disjointness from the closed set, parents recorded in
the closed set at distance one less, the origin at distance zero, and the
origin present somewhere. -/
def OpenInvariant (origin : Coordinate)
    (closedC openL : List (Coordinate × NodeData)) : Prop :=
  (openL.map Prod.fst).Nodup ∧
  (∀ c, (clookup openL c).isSome = true →
    (clookup closedC c).isSome = true → False) ∧
  (∀ c nd, clookup openL c = some nd →
    (nd.parent = none → c = origin ∧ nd.distance = 0) ∧
    (∀ p, nd.parent = some p →
      ∃ pd, clookup closedC p = some pd ∧ pd.distance + 1 = nd.distance)) ∧
  (∀ nd, clookup openL origin = some nd → nd.distance = 0) ∧
  ((clookup openL origin).isSome = true ∨
    (clookup closedC origin).isSome = true)

/-- The closed-set half of the search invariant. -/
def ClosedInvariant (origin : Coordinate)
    (closedC : List (Coordinate × NodeData)) : Prop :=
  (closedC.map Prod.fst).Nodup ∧
  (∀ c nd, clookup closedC c = some nd →
    (nd.parent = none → c = origin ∧ nd.distance = 0) ∧
    (∀ p, nd.parent = some p →
      ∃ pd, clookup closedC p = some pd ∧ pd.distance + 1 = nd.distance)) ∧
  (∀ nd, clookup closedC origin = some nd → nd.distance = 0)

/-- Unfolded form of `relaxStep`. -/
theorem relaxStep_eq (closed : List (Coordinate × NodeData))
    (v : Coordinate) (vd : NodeData) (heuristic : Coordinate → Nat)
    (hc : Nat) (env : PathEnv) (openS : List (Coordinate × NodeData))
    (n : Coordinate) :
    relaxStep closed v vd heuristic hc env openS n =
      if (clookup closed n).isSome then openS
      else
        match clookup openS n with
        | some neighborData =>
            if neighborData.distance >
                vd.distance + (if env.hasHazard n then hc else 1) then
              cupdate openS n
                ⟨vd.distance + (if env.hasHazard n then hc else 1),
                  heuristic n, some v⟩
            else openS
        | none =>
            openS ++ [(n,
              ⟨vd.distance + (if env.hasHazard n then hc else 1),
                heuristic n, some v⟩)] := rfl

/-- Popping the minimum node and closing it preserves both halves of the
search invariant, and the popped node heads the new closed set. -/
theorem popStep_inv (origin : Coordinate)
    (closed openS : List (Coordinate × NodeData))
    (v : Coordinate) (vd : NodeData) (rest : List (Coordinate × NodeData))
    (hpop : popMin openS = some ((v, vd), rest))
    (hop : OpenInvariant origin closed openS)
    (hcl : ClosedInvariant origin closed) :
    OpenInvariant origin ((v, vd) :: closed) rest ∧
    ClosedInvariant origin ((v, vd) :: closed) ∧
    clookup ((v, vd) :: closed) v = some vd := by
  obtain ⟨hnd, hdisj, hpar, hodist, hopres⟩ := hop
  obtain ⟨hcnd, hcpar, hcodist⟩ := hcl
  obtain ⟨hself, hrem, hothers, hrnd⟩ := popMin_lookup openS (v, vd) rest hpop hnd
  have hvclosed : clookup closed v = none := by
    cases h : clookup closed v with
    | none => rfl
    | some x => exact (hdisj v (by simp [hself]) (by simp [h])).elim
  have hvkeys : v ∉ closed.map Prod.fst := fun hm => by
    have h2 := (clookup_isSome_iff closed v).mpr hm
    rw [hvclosed] at h2
    simp at h2
  refine ⟨⟨hrnd, ?_, ?_, ?_, ?_⟩, ⟨?_, ?_, ?_⟩, by simp [clookup]⟩
  · -- disjointness of the remaining open set and the new closed set
    intro c h1 h2
    by_cases hvc : v = c
    · subst hvc
      rw [hrem] at h1
      simp at h1
    · simp only [clookup, if_neg hvc] at h2
      rw [hothers c (fun he => hvc he.symm)] at h1
      exact hdisj c h1 h2
  · -- parent facts of the remaining open set
    intro c nd h
    have hcv : c ≠ v := fun he => by
      subst he
      rw [hrem] at h
      exact Option.noConfusion h
    rw [hothers c hcv] at h
    obtain ⟨hn, hp⟩ := hpar c nd h
    refine ⟨hn, ?_⟩
    intro p hpp
    obtain ⟨pd, hpd, hpdist⟩ := hp p hpp
    have hpv : v ≠ p := fun he => by
      subst he
      rw [hvclosed] at hpd
      exact Option.noConfusion hpd
    exact ⟨pd, by simp [clookup, hpv, hpd], hpdist⟩
  · -- origin entries of the remaining open set still have distance zero
    intro nd h
    by_cases ho : origin = v
    · subst ho
      rw [hrem] at h
      exact Option.noConfusion h
    · rw [hothers origin ho] at h
      exact hodist nd h
  · -- the origin stays present
    rcases hopres with h | h
    · by_cases ho : origin = v
      · right
        subst ho
        simp [clookup]
      · left
        rw [hothers origin ho]
        exact h
    · right
      by_cases hvo : v = origin <;> simp [clookup, hvo, h]
  · -- the new closed key list stays duplicate free
    simpa using List.nodup_cons.mpr ⟨hvkeys, hcnd⟩
  · -- parent facts of the new closed set
    intro c nd h
    by_cases hvc : v = c
    · subst hvc
      simp only [clookup, if_pos rfl] at h
      obtain rfl : vd = nd := Option.some.inj h
      obtain ⟨hn, hp⟩ := hpar v vd hself
      refine ⟨hn, ?_⟩
      intro p hpp
      obtain ⟨pd, hpd, hpdist⟩ := hp p hpp
      have hpv : v ≠ p := fun he => by
        subst he
        rw [hvclosed] at hpd
        exact Option.noConfusion hpd
      exact ⟨pd, by simp [clookup, hpv, hpd], hpdist⟩
    · simp only [clookup, if_neg hvc] at h
      obtain ⟨hn, hp⟩ := hcpar c nd h
      refine ⟨hn, ?_⟩
      intro p hpp
      obtain ⟨pd, hpd, hpdist⟩ := hp p hpp
      have hpv : v ≠ p := fun he => by
        subst he
        rw [hvclosed] at hpd
        exact Option.noConfusion hpd
      exact ⟨pd, by simp [clookup, hpv, hpd], hpdist⟩
  · -- origin entries of the new closed set have distance zero
    intro nd h
    by_cases hvo : v = origin
    · simp only [clookup, if_pos hvo] at h
      obtain rfl : vd = nd := Option.some.inj h
      refine hodist vd ?_
      rw [← hvo]
      exact hself
    · simp only [clookup, if_neg hvo] at h
      exact hcodist nd h

/-- On a hazard-free neighbor, one relaxation step preserves the open-set
invariant (the closed set is untouched). -/
theorem relaxStep_inv (origin v : Coordinate) (vd : NodeData)
    (closed openS : List (Coordinate × NodeData)) (n : Coordinate)
    (heuristic : Coordinate → Nat) (hc : Nat) (env : PathEnv)
    (hnh : env.hasHazard n = false)
    (hv : clookup closed v = some vd)
    (hop : OpenInvariant origin closed openS) :
    OpenInvariant origin closed
      (relaxStep closed v vd heuristic hc env openS n) := by
  obtain ⟨hnd, hdisj, hpar, hodist, hopres⟩ := hop
  have hone : (if env.hasHazard n then hc else 1) = 1 := by simp [hnh]
  rw [relaxStep_eq, hone]
  by_cases hcln : (clookup closed n).isSome
  · rw [if_pos hcln]
    exact ⟨hnd, hdisj, hpar, hodist, hopres⟩
  · rw [if_neg hcln]
    cases hlook : clookup openS n with
    | some ndata =>
        simp only []
        by_cases himp : ndata.distance > vd.distance + 1
        · rw [if_pos himp]
          refine ⟨?_, ?_, ?_, ?_, ?_⟩
          · rw [cupdate_map_fst]
            exact hnd
          · intro c h1 h2
            rw [clookup_cupdate] at h1
            by_cases hcn : c = n
            · subst hcn
              rw [hlook] at h1
              exact hdisj c (by simp [hlook]) h2
            · rw [if_neg hcn] at h1
              exact hdisj c h1 h2
          · intro c nd h
            rw [clookup_cupdate] at h
            by_cases hcn : c = n
            · rw [if_pos hcn, hlook] at h
              obtain rfl : (⟨vd.distance + 1, heuristic n, some v⟩ :
                  NodeData) = nd := Option.some.inj h
              subst hcn
              refine ⟨fun habs => Option.noConfusion habs, ?_⟩
              intro p hpp
              obtain rfl : v = p := Option.some.inj hpp
              exact ⟨vd, hv, rfl⟩
            · rw [if_neg hcn] at h
              exact hpar c nd h
          · intro nd h
            rw [clookup_cupdate] at h
            by_cases hon : origin = n
            · rw [← hon] at hlook
              have := hodist ndata hlook
              omega
            · rw [if_neg hon] at h
              exact hodist nd h
          · rcases hopres with h | h
            · left
              rw [clookup_cupdate]
              by_cases hon : origin = n
              · rw [if_pos hon, hlook]
                rfl
              · rw [if_neg hon]
                exact h
            · right
              exact h
        · rw [if_neg himp]
          exact ⟨hnd, hdisj, hpar, hodist, hopres⟩
    | none =>
        simp only []
        have hclnone : clookup closed n = none := by
          cases h : clookup closed n with
          | none => rfl
          | some x => exact absurd (by simp [h]) hcln
        have hnmem : n ∉ openS.map Prod.fst := fun hm => by
          have h2 := (clookup_isSome_iff openS n).mpr hm
          rw [hlook] at h2
          simp at h2
        refine ⟨?_, ?_, ?_, ?_, ?_⟩
        · have : ((openS ++ [(n, (⟨vd.distance + 1, heuristic n, some v⟩ :
              NodeData))]).map Prod.fst) =
              openS.map Prod.fst ++ [n] := by simp
          rw [this]
          exact List.Nodup.append hnd (List.nodup_singleton n)
            (by simpa using hnmem)
        · intro c h1 h2
          rw [clookup_append] at h1
          cases h : clookup openS c with
          | some x =>
              exact hdisj c (by simp [h]) h2
          | none =>
              rw [h] at h1
              simp only [clookup] at h1
              by_cases hncc : n = c
              · exact hcln (by rw [hncc]; exact h2)
              · rw [if_neg hncc] at h1
                simp at h1
        · intro c nd h
          rw [clookup_append] at h
          cases ho : clookup openS c with
          | some x =>
              rw [ho] at h
              obtain rfl : x = nd := Option.some.inj h
              exact hpar c x ho
          | none =>
              rw [ho] at h
              simp only [clookup] at h
              by_cases hncc : n = c
              · rw [if_pos hncc] at h
                obtain rfl : (⟨vd.distance + 1, heuristic n, some v⟩ :
                    NodeData) = nd := Option.some.inj h
                refine ⟨fun habs => Option.noConfusion habs, ?_⟩
                intro p hpp
                obtain rfl : v = p := Option.some.inj hpp
                exact ⟨vd, hv, rfl⟩
              · rw [if_neg hncc] at h
                exact Option.noConfusion h
        · intro nd h
          rw [clookup_append] at h
          cases ho : clookup openS origin with
          | some x =>
              rw [ho] at h
              obtain rfl : x = nd := Option.some.inj h
              exact hodist x ho
          | none =>
              rw [ho] at h
              simp only [clookup] at h
              by_cases hno : n = origin
              · exfalso
                rcases hopres with hpres | hpres
                · rw [ho] at hpres
                  simp at hpres
                · rw [← hno] at hpres
                  exact hcln hpres
              · rw [if_neg hno] at h
                exact Option.noConfusion h
        · rcases hopres with h | h
          · left
            rw [clookup_append]
            cases ho : clookup openS origin with
            | some x => simp
            | none =>
                rw [ho] at h
                simp at h
          · right
            exact h

/-- The whole neighbor loop preserves the open-set invariant on a
hazard-free map. -/
theorem relaxNeighbors_inv (origin v : Coordinate) (vd : NodeData)
    (closed : List (Coordinate × NodeData)) (heuristic : Coordinate → Nat)
    (hc : Nat) (env : PathEnv)
    (hnh : ∀ c, env.hasHazard c = false)
    (hv : clookup closed v = some vd) :
    ∀ pns openS, OpenInvariant origin closed openS →
      OpenInvariant origin closed
        (relaxNeighbors closed v vd heuristic hc env openS pns) := by
  intro pns
  induction pns with
  | nil =>
      intro openS h
      exact h
  | cons n rest ih =>
      intro openS h
      show OpenInvariant origin closed
        (List.foldl (relaxStep closed v vd heuristic hc env)
          (relaxStep closed v vd heuristic hc env openS n) rest)
      exact ih (relaxStep closed v vd heuristic hc env openS n)
        (relaxStep_inv origin v vd closed openS n heuristic hc env
          (hnh n) hv h)

/-- Whenever the search terminates on a hazard-free map, the closed set it
returns satisfies the closed-set invariant. -/
theorem fillPathMap_inv (origin destination : Coordinate)
    (neighbors : List Coordinate) (heuristic : Coordinate → Nat)
    (rE iU iD iH : Bool) (map : GameMap) (env : PathEnv)
    (hnh : ∀ c, env.hasHazard c = false) :
    ∀ fuel openS closed lastNode ln closedC,
      OpenInvariant origin closed openS →
      ClosedInvariant origin closed →
      fillPathMap fuel openS closed lastNode neighbors destination heuristic
        rE iU iD iH map env = some (ln, closedC) →
      ClosedInvariant origin closedC := by
  intro fuel
  induction fuel with
  | zero =>
      intro openS closed lastNode ln closedC hop hcl hrun
      exact Option.noConfusion hrun
  | succ fuel ih =>
      intro openS closed lastNode ln closedC hop hcl hrun
      rw [fillPathMap] at hrun
      cases hpop : popMin openS with
      | none =>
          rw [hpop] at hrun
          obtain ⟨_, h2⟩ := Prod.mk.injEq .. ▸ Option.some.inj hrun
          rw [← h2]
          exact hcl
      | some pr =>
          obtain ⟨⟨v, vd⟩, rest⟩ := pr
          rw [hpop] at hrun
          simp only [] at hrun
          obtain ⟨hop', hcl', hv⟩ :=
            popStep_inv origin closed openS v vd rest hpop hop hcl
          by_cases hearly : v = destination ∧ rE = true
          · rw [if_pos hearly] at hrun
            obtain ⟨_, h2⟩ := Prod.mk.injEq .. ▸ Option.some.inj hrun
            rw [← h2]
            exact hcl'
          · rw [if_neg hearly] at hrun
            cases hgp : getPassable neighbors v destination iU iD map env with
            | none =>
                rw [hgp] at hrun
                exact Option.noConfusion hrun
            | some pns =>
                rw [hgp] at hrun
                exact ih _ _ _ _ _
                  (relaxNeighbors_inv origin v vd ((v, vd) :: closed)
                    heuristic (if iH then 1 else 3) env hnh hv pns rest hop')
                  hcl' hrun

/-- The key sequence of the direction table is a subsequence of the closed
set's key sequence. -/
theorem navGrid_keys_sublist (l : List (Coordinate × NodeData)) :
    List.Sublist ((navGrid l).map Prod.fst) (l.map Prod.fst) := by
  induction l with
  | nil => exact List.Sublist.refl _
  | cons e rest ih =>
      obtain ⟨k, nd⟩ := e
      cases hp : nd.parent with
      | some p =>
          have : navGrid ((k, nd) :: rest) = (k, p - k) :: navGrid rest := by
            simp [navGrid, List.filterMap_cons, hp]
          rw [this]
          exact List.Sublist.cons₂ k ih
      | none =>
          have : navGrid ((k, nd) :: rest) = navGrid rest := by
            simp [navGrid, List.filterMap_cons, hp]
          rw [this]
          exact List.Sublist.cons k ih

/-- Under duplicate-free keys, a direction-table lookup is the closed-set
lookup's parent offset. -/
theorem clookup_navGrid (l : List (Coordinate × NodeData))
    (hnd : (l.map Prod.fst).Nodup) (c : Coordinate) :
    clookup (navGrid l) c =
      match clookup l c with
      | some nd => nd.parent.map (fun p => p - c)
      | none => none := by
  induction l with
  | nil => rfl
  | cons e rest ih =>
      obtain ⟨k, nd⟩ := e
      rw [List.map_cons] at hnd
      have hnd2 := List.nodup_cons.mp hnd
      cases hp : nd.parent with
      | some p =>
          have hstep : navGrid ((k, nd) :: rest) = (k, p - k) :: navGrid rest := by
            simp [navGrid, List.filterMap_cons, hp]
          rw [hstep]
          by_cases hkc : k = c
          · subst hkc
            simp [clookup, hp]
          · simp only [clookup, if_neg hkc]
            exact ih hnd2.2
      | none =>
          have hstep : navGrid ((k, nd) :: rest) = navGrid rest := by
            simp [navGrid, List.filterMap_cons, hp]
          rw [hstep]
          by_cases hkc : k = c
          · subst hkc
            simp only [clookup, if_pos rfl, hp]
            have hnotin : k ∉ (navGrid rest).map Prod.fst := fun hm =>
              hnd2.1 ((navGrid_keys_sublist rest).subset hm)
            rw [clookup_eq_none _ _ hnotin]
            simp [hp]
          · simp only [clookup, if_neg hkc]
            exact ih hnd2.2

/-- Under the closed-set invariant, following the direction table from any
closed tile reaches the origin in exactly that tile's recorded distance,
and in no fewer steps. -/
theorem followGrid_exact (origin : Coordinate)
    (closedC : List (Coordinate × NodeData))
    (hcl : ClosedInvariant origin closedC) :
    ∀ d c nd, clookup closedC c = some nd → nd.distance = d →
      followGrid (navGrid closedC) d c = origin ∧
      ∀ k, k < d → followGrid (navGrid closedC) k c ≠ origin := by
  obtain ⟨hnd, hpar, hodist⟩ := hcl
  intro d
  induction d using Nat.strong_induction_on with
  | _ d ih =>
      intro c nd hlook hdist
      obtain ⟨hnone, hsome⟩ := hpar c nd hlook
      cases hp : nd.parent with
      | none =>
          obtain ⟨hco, hd0⟩ := hnone hp
          subst hco
          rw [hd0] at hdist
          subst hdist
          exact ⟨rfl, fun k hk => absurd hk (by omega)⟩
      | some p =>
          obtain ⟨pd, hplook, hpdist⟩ := hsome p hp
          have hd : d = pd.distance + 1 := by omega
          have hstep : clookup (navGrid closedC) c = some (p - c) := by
            rw [clookup_navGrid closedC hnd c, hlook]
            simp [hp]
          have hc_ne : c ≠ origin := by
            intro he
            subst he
            have := hodist nd hlook
            omega
          obtain ⟨hreach, hnotearly⟩ :=
            ih pd.distance (by omega) p pd hplook rfl
          constructor
          · rw [hd]
            show (match clookup (navGrid closedC) c with
              | some dir => followGrid (navGrid closedC) pd.distance (c + dir)
              | none => c) = origin
            rw [hstep]
            simp only []
            rw [Coordinate.add_sub_cancel2]
            exact hreach
          · intro k hk
            cases k with
            | zero => exact hc_ne
            | succ j =>
                show (match clookup (navGrid closedC) c with
                  | some dir => followGrid (navGrid closedC) j (c + dir)
                  | none => c) ≠ origin
                rw [hstep]
                simp only []
                rw [Coordinate.add_sub_cancel2]
                exact hnotearly j (by omega)

/-- The singleton start queue of `calculate_pathing_grid` satisfies the
open-set invariant against the empty closed set. -/
theorem openInvariant_init (origin : Coordinate) (h : Nat) :
    OpenInvariant origin [] [(origin, NodeData.new h)] := by
  refine ⟨by simp, ?_, ?_, ?_, ?_⟩
  · intro c h1 h2
    simp [clookup] at h2
  · intro c nd hl
    simp only [clookup] at hl
    by_cases ho : origin = c
    · rw [if_pos ho] at hl
      obtain rfl : NodeData.new h = nd := Option.some.inj hl
      exact ⟨fun _ => ⟨ho.symm, rfl⟩, fun p hp => Option.noConfusion hp⟩
    · rw [if_neg ho] at hl
      exact Option.noConfusion hl
  · intro nd hl
    simp only [clookup, if_pos rfl] at hl
    obtain rfl : NodeData.new h = nd := Option.some.inj hl
    rfl
  · left
    simp [clookup]

/-- The empty closed set satisfies the closed-set invariant. -/
theorem closedInvariant_init (origin : Coordinate) :
    ClosedInvariant origin [] := by
  refine ⟨by simp, ?_, ?_⟩
  · intro c nd h
    exact Option.noConfusion h
  · intro nd h
    exact Option.noConfusion h

/-! ## C4: the navigation grid leads to the origin -/

/-- **C4.** For a map with no hazard entities, the navigation grid returned
by `calculate_pathing_grid` maps every recorded tile to a single next-step
direction such that repeatedly following the recorded directions from any
tile in the grid reaches the origin in exactly that tile's computed
distance steps, and in no fewer — in particular the walk never cycles. -/
theorem c4_pathing_grid_follows_to_origin
    (fuel : Nat) (origin destination : Coordinate) (map : GameMap)
    (env : PathEnv) (heuristic : Coordinate → Nat) (iU iD iH : Bool)
    (grid : List (Coordinate × Coordinate))
    (hnh : ∀ c, env.hasHazard c = false)
    (hgrid : calculatePathingGrid fuel origin destination map env heuristic
      iU iD iH = some grid) :
    ∃ closedL, grid = navGrid closedL ∧
      ∀ c dir, clookup grid c = some dir →
        ∃ nd, clookup closedL c = some nd ∧ 0 < nd.distance ∧
          followGrid grid nd.distance c = origin ∧
          ∀ k, k < nd.distance → followGrid grid k c ≠ origin := by
  rw [calculatePathingGrid] at hgrid
  cases hfill : fillPathMap fuel [(origin, NodeData.new (heuristic origin))]
      [] (origin, NodeData.new (heuristic origin))
      [⟨0, 1⟩, ⟨0, -1⟩, ⟨1, 0⟩, ⟨-1, 0⟩] destination heuristic false iU iD iH
      map env with
  | none =>
      rw [hfill] at hgrid
      exact Option.noConfusion hgrid
  | some res =>
      obtain ⟨ln, closedC⟩ := res
      rw [hfill] at hgrid
      have hgrid2 : navGrid closedC = grid := Option.some.inj hgrid
      have hclinv : ClosedInvariant origin closedC :=
        fillPathMap_inv origin destination
          [⟨0, 1⟩, ⟨0, -1⟩, ⟨1, 0⟩, ⟨-1, 0⟩] heuristic false iU iD iH map env
          hnh fuel _ [] _ ln closedC
          (openInvariant_init origin (heuristic origin))
          (closedInvariant_init origin) hfill
      refine ⟨closedC, hgrid2.symm, ?_⟩
      intro c dir hlookg
      rw [← hgrid2] at hlookg
      rw [clookup_navGrid closedC hclinv.1 c] at hlookg
      cases hcc : clookup closedC c with
      | none =>
          rw [hcc] at hlookg
          exact Option.noConfusion hlookg
      | some nd =>
          rw [hcc] at hlookg
          simp only [] at hlookg
          cases hp : nd.parent with
          | none =>
              rw [hp] at hlookg
              exact Option.noConfusion hlookg
          | some p =>
              have hpos : 0 < nd.distance := by
                obtain ⟨pd, _, hpd⟩ := (hclinv.2.1 c nd hcc).2 p hp
                omega
              obtain ⟨hreach, hne⟩ :=
                followGrid_exact origin closedC hclinv nd.distance c nd hcc rfl
              refine ⟨nd, rfl, hpos, ?_, ?_⟩
              · rw [← hgrid2]
                exact hreach
              · intro k hk
                rw [← hgrid2]
                exact hne k hk

/-- A three-tile floor corridor for exercising the path search. -/
def c4Map : GameMap :=
  ⟨[(⟨0, 0⟩, ⟨FLOOR_TILE_ID⟩), (⟨1, 0⟩, ⟨FLOOR_TILE_ID⟩),
    (⟨2, 0⟩, ⟨FLOOR_TILE_ID⟩)], [], ⟨[], []⟩, 3, 1, 0⟩

/-- A `PathEnv` with no blocking entities and no hazards. -/
def c4Env : PathEnv := ⟨fun _ => none, fun _ _ => false, fun _ => false⟩

/-- The navigation grid the search computes on `c4Map` from origin
`(0,0)`: both other corridor tiles point one step back toward the
origin. -/
def c4Grid : List (Coordinate × Coordinate) :=
  [(⟨2, 0⟩, ⟨-1, 0⟩), (⟨1, 0⟩, ⟨-1, 0⟩)]

/-- Witness for C4 on the concrete three-tile corridor. -/
theorem c4_pathing_grid_follows_to_origin_witness :
    (∀ c, c4Env.hasHazard c = false) ∧
    ∃ closedL, c4Grid = navGrid closedL ∧
      ∀ c dir, clookup c4Grid c = some dir →
        ∃ nd, clookup closedL c = some nd ∧ 0 < nd.distance ∧
          followGrid c4Grid nd.distance c = (⟨0, 0⟩ : Coordinate) ∧
          ∀ k, k < nd.distance → followGrid c4Grid k c ≠ (⟨0, 0⟩ : Coordinate) :=
  ⟨fun _ => rfl,
    c4_pathing_grid_follows_to_origin 32 ⟨0, 0⟩ ⟨2, 0⟩ c4Map c4Env
      (fun _ => 0) false false false c4Grid (fun _ => rfl) rfl⟩

/-! ## C8: bumping an openable door -/

/-- C8: propagating a `Bump` event to a door entity whose `BumpResponse`
holds `open_door_response` returns a delta list containing a `Change` of
the image to its "open" state, a `Change` to `Collision::Walkable`, a
`Change` to `LoSBlocking::None`, and a `Change` of the `BumpResponse` to
`close_door_response`. -/
theorem c8_open_door_bump (fuel : Nat) (event : InteractionEvent)
    (eid bid : Nat) (ecs : ECS) (iid cid lid bid2 : Nat)
    (img : ImageHandle) (openImg : ImageData) (col : Collision)
    (los : LoSBlocking) (resp2 : EventResponse)
    (hevent : event.eventType = EventType.Bump)
    (hresp : ecs.getComponentFromEntityId eid ComponentType.BumpResponse =
      some (Component.BumpResponse ⟨bid, ⟨eid,
        ResponseFun.openDoorResponse⟩⟩))
    (himg : (takeComponentFromRefs ComponentType.Image
        (ecs.getComponentsFromEntityId eid)).1 =
      some (Component.Image ⟨iid, img⟩))
    (hopen : img.states.lookup "open" = some openImg)
    (hcol : (takeComponentFromRefs ComponentType.Collision
        (ecs.getComponentsFromEntityId eid)).1 =
      some (Component.Collision ⟨cid, col⟩))
    (hlos : (takeComponentFromRefs ComponentType.LineOfSight
        (ecs.getComponentsFromEntityId eid)).1 =
      some (Component.LineOfSight ⟨lid, los⟩))
    (hbmp : (takeComponentFromRefs ComponentType.BumpResponse
        (ecs.getComponentsFromEntityId eid)).1 =
      some (Component.BumpResponse ⟨bid2, resp2⟩)) :
    Delta.Change (Component.Image ⟨iid, ImageHandle.new openImg⟩) ∈
        propagateEvent (fuel + 1) event eid ecs ∧
    Delta.Change (Component.Collision ⟨cid, Collision.Walkable⟩) ∈
        propagateEvent (fuel + 1) event eid ecs ∧
    Delta.Change (Component.LineOfSight ⟨lid, LoSBlocking.None⟩) ∈
        propagateEvent (fuel + 1) event eid ecs ∧
    Delta.Change (Component.BumpResponse ⟨bid2,
        ⟨resp2.ownEntity, ResponseFun.closeDoorResponse⟩⟩) ∈
        propagateEvent (fuel + 1) event eid ecs := by
  have hrun : propagateEvent (fuel + 1) event eid ecs =
      openImageResponse event (ecs.getComponentsFromEntityId eid) ecs
        ++ openCollisionResponse event (ecs.getComponentsFromEntityId eid) ecs
        ++ setCloseDoorBumpResponse event
          (ecs.getComponentsFromEntityId eid) ecs
        ++ openLosBlockingResponse event
          (ecs.getComponentsFromEntityId eid) ecs
        ++ spreadIfOnFireResponse (runResponse fuel) event
          (ecs.getComponentsFromEntityId eid) ecs := by
    unfold propagateEvent propagateEventWith
    rw [hevent]
    rw [show eventToResponseType EventType.Bump = ComponentType.BumpResponse
      from rfl]
    rw [hresp]
    rfl
  have h1 : openImageResponse event (ecs.getComponentsFromEntityId eid) ecs =
      [Delta.Change (Component.Image ⟨iid, ImageHandle.new openImg⟩)] := by
    simp only [openImageResponse, himg, hopen, IndexedData.makeChange]
  have h2 : openCollisionResponse event
      (ecs.getComponentsFromEntityId eid) ecs =
      [Delta.Change (Component.Collision ⟨cid, Collision.Walkable⟩)] := by
    simp only [openCollisionResponse, hcol, IndexedData.makeChange]
  have h3 : setCloseDoorBumpResponse event
      (ecs.getComponentsFromEntityId eid) ecs =
      [Delta.Change (Component.BumpResponse ⟨bid2,
        ⟨resp2.ownEntity, ResponseFun.closeDoorResponse⟩⟩)] := by
    simp only [setCloseDoorBumpResponse, hbmp, IndexedData.makeChange]
  have h4 : openLosBlockingResponse event
      (ecs.getComponentsFromEntityId eid) ecs =
      [Delta.Change (Component.LineOfSight ⟨lid, LoSBlocking.None⟩)] := by
    simp only [openLosBlockingResponse, hlos, IndexedData.makeChange]
  rw [hrun, h1, h2, h3, h4]
  refine ⟨?_, ?_, ?_, ?_⟩ <;> simp

/-- A concrete closed door: blocking collision (id 0), an image with an
"open" state (id 1), a line-of-sight blocker (id 2) and an
`open_door_response` bump handler (id 3), all on entity 0. -/
def c8ECS : ECS :=
  ⟨⟨4, [(0, Component.Collision ⟨0, Collision.Blocking⟩),
        (1, Component.Image ⟨1, ⟨ImageData.new 3,
          [("open", ImageData.new 2)]⟩⟩),
        (2, Component.LineOfSight ⟨2, LoSBlocking.Blocking⟩),
        (3, Component.BumpResponse ⟨3, ⟨0,
          ResponseFun.openDoorResponse⟩⟩)]⟩,
    ⟨[⟨0, [0, 1, 2, 3]⟩], [], 5⟩⟩

/-- Witness for C8 on the concrete door. -/
theorem c8_open_door_bump_witness :
    Delta.Change (Component.Image ⟨1, ImageHandle.new (ImageData.new 2)⟩) ∈
        propagateEvent 2 ⟨EventType.Bump, none, []⟩ 0 c8ECS ∧
    Delta.Change (Component.Collision ⟨0, Collision.Walkable⟩) ∈
        propagateEvent 2 ⟨EventType.Bump, none, []⟩ 0 c8ECS ∧
    Delta.Change (Component.LineOfSight ⟨2, LoSBlocking.None⟩) ∈
        propagateEvent 2 ⟨EventType.Bump, none, []⟩ 0 c8ECS ∧
    Delta.Change (Component.BumpResponse ⟨3,
        ⟨0, ResponseFun.closeDoorResponse⟩⟩) ∈
        propagateEvent 2 ⟨EventType.Bump, none, []⟩ 0 c8ECS :=
  c8_open_door_bump 1 ⟨EventType.Bump, none, []⟩ 0 3 c8ECS 1 0 2 3
    ⟨ImageData.new 3, [("open", ImageData.new 2)]⟩ (ImageData.new 2)
    Collision.Blocking LoSBlocking.Blocking ⟨0, ResponseFun.openDoorResponse⟩
    rfl (by decide) (by decide) (by decide) (by decide) (by decide)
    (by decide)

/-! ## C9: the sleep schedule -/

/-- C9: when the player carries no `Invisible` duration effect (the
invisibility preamble of most behaviors precedes the sleep handling) and —
for the two archer behaviors only, whose `ranged.unwrap()` precedes the
sleep handling — a ranged attack is present, every behavior's
`select_action` on `Sleeping n` yields exactly `[Awake]` when `n = 1` and
`[Sleep]` otherwise, with the behavior's interior state untouched;
executing `Sleep` emits a `Turn` change that stores
`Sleeping (max (n-1) (-1))` — a decrement only down to the `-1` clamp —
and executing `Awake` stores `Alert`. -/
theorem c9_sleeping_schedule (fuel : Nat) (b : BehaviorKind)
    (selfR playerR : UnitReport) (n : Int) (map : GameMap)
    (losEnt : Coordinate → Bool) (ecs : ECS)
    (hniv : ∀ d, ecs.getComponentFromEntityId ecs.getPlayerId
        ComponentType.DurationEffect = some (Component.DurationEffect d) →
        d.data.effect ≠ EffectType.Invisible)
    (hranged : b = BehaviorKind.ArcherBehavior ∨
        b = BehaviorKind.TrueSightArcherBehavior →
        selfR.combat.data.ranged.isSome = true) :
    selectAction fuel b selfR playerR (AIState.Sleeping n) map losEnt ecs =
      some ((if n = 1 then [AIAction.Awake] else [AIAction.Sleep]), b) ∧
    (∀ (pos : IndexedData Coordinate) (eid : Nat)
        (tdata : IndexedData TurnTaker),
      ecs.getEntityIdFromComponentId pos.index = some eid →
      ecs.getComponentFromEntityId eid ComponentType.Turn =
        some (Component.Turn tdata) →
      tdata.data.state = AIState.Sleeping n →
      sleep pos ecs = some [Delta.Change (Component.Turn ⟨tdata.index,
        { tdata.data with
            state := AIState.Sleeping (max (n - 1) (-1)) }⟩)] ∧
      (ecs.getComponent tdata.index = some (Component.Turn tdata) →
        (ecs.applyChange (Delta.Change (Component.Turn ⟨tdata.index,
          { tdata.data with
              state := AIState.Sleeping (max (n - 1) (-1)) }⟩))).getComponent
            tdata.index =
          some (Component.Turn ⟨tdata.index,
            { tdata.data with
                state := AIState.Sleeping (max (n - 1) (-1)) }⟩))) ∧
    (∀ (pos : IndexedData Coordinate) (eid : Nat)
        (tdata : IndexedData TurnTaker),
      ecs.getEntityIdFromComponentId pos.index = some eid →
      ecs.getComponentFromEntityId eid ComponentType.Turn =
        some (Component.Turn tdata) →
      wakeUp pos ecs = some [Delta.Change (Component.Turn ⟨tdata.index,
        { tdata.data with state := AIState.Alert }⟩)] ∧
      (ecs.getComponent tdata.index = some (Component.Turn tdata) →
        (ecs.applyChange (Delta.Change (Component.Turn ⟨tdata.index,
          { tdata.data with state := AIState.Alert }⟩))).getComponent
            tdata.index =
          some (Component.Turn ⟨tdata.index,
            { tdata.data with state := AIState.Alert }⟩))) := by
  have hinvis : invisiblePlayerCheck fuel selfR.position.data
      playerR.position.data map losEnt ecs = some none := by
    unfold invisiblePlayerCheck
    cases hc : ecs.getComponentFromEntityId ecs.getPlayerId
        ComponentType.DurationEffect with
    | none => rfl
    | some comp =>
        cases comp <;> try rfl
        case DurationEffect d =>
          simp only []
          cases heff : d.data.effect <;> try rfl
          case Invisible => exact absurd heff (hniv d hc)
  have hsleep : handleSleep (AIState.Sleeping n) =
      some (if n = 1 then AIAction.Awake else AIAction.Sleep) := by
    unfold handleSleep
    by_cases hn : n = 1 <;> simp [hn]
  refine ⟨?_, ?_, ?_⟩
  · cases b with
    | MeleeBehavior =>
        simp only [selectAction, hinvis, hsleep]
        by_cases hn : n = 1 <;> simp [hn]
    | FastMeleeBehavior =>
        simp only [selectAction, hinvis, hsleep]
        by_cases hn : n = 1 <;> simp [hn]
    | ArcherBehavior =>
        obtain ⟨atk, hatk⟩ :=
          Option.isSome_iff_exists.mp (hranged (Or.inl rfl))
        simp only [selectAction, hinvis, hsleep, hatk]
        by_cases hn : n = 1 <;> simp [hn]
    | TrueSightArcherBehavior =>
        obtain ⟨atk, hatk⟩ :=
          Option.isSome_iff_exists.mp (hranged (Or.inr rfl))
        simp only [selectAction, hinvis, hsleep, hatk]
        by_cases hn : n = 1 <;> simp [hn]
    | SlowBehavior acted =>
        simp only [selectAction, hinvis, hsleep]
        by_cases hn : n = 1 <;> simp [hn]
    | WanderBehavior counter threshold =>
        simp only [selectAction, hinvis, hsleep]
        by_cases hn : n = 1 <;> simp [hn]
  · intro pos eid tdata hid hturn hstate
    constructor
    · simp only [sleep, hid, hturn, hstate, IndexedData.makeChange]
    · intro htable
      exact applyChange_turn_overwrite ecs tdata.index tdata.data _ htable
  · intro pos eid tdata hid hturn
    constructor
    · simp only [wakeUp, hid, hturn, IndexedData.makeChange]
    · intro htable
      exact applyChange_turn_overwrite ecs tdata.index tdata.data _ htable

/-- A one-entity ECS whose monster is already at the `Sleeping (-1)`
clamp. -/
def c9ECS : ECS :=
  ⟨⟨2, [(0, Component.Position ⟨0, ⟨1, 1⟩⟩),
        (1, Component.Turn ⟨1, ⟨BehaviorKind.MeleeBehavior,
          AIState.Sleeping (-1), false⟩⟩)]⟩,
    ⟨[⟨0, [0, 1]⟩], [], 5⟩⟩

/-- C9 counterexample: executing `Sleep` at the clamp does not decrement
the counter — `sleep` on `Sleeping (-1)` stores `Sleeping (-1)` again, not
`Sleeping (-2)`. -/
theorem c9_sleep_clamp_counterexample :
    sleep ⟨0, ⟨1, 1⟩⟩ c9ECS =
      some [Delta.Change (Component.Turn ⟨1, ⟨BehaviorKind.MeleeBehavior,
        AIState.Sleeping (-1), false⟩⟩)] ∧
    AIState.Sleeping (-1) ≠ AIState.Sleeping (-1 - 1) := by
  decide

/-- The sleeping monster's ECS used by the C9 witness (counter 3). -/
def c9SleepECS : ECS :=
  ⟨⟨2, [(0, Component.Position ⟨0, ⟨1, 1⟩⟩),
        (1, Component.Turn ⟨1, ⟨BehaviorKind.MeleeBehavior,
          AIState.Sleeping 3, false⟩⟩)]⟩,
    ⟨[⟨0, [0, 1]⟩], [], 5⟩⟩

/-- The sleeping monster's unit report used by the C9 witness: its combat
component is `Combat::default()` — no melee and no ranged attack, as the
rat-like sleepers are spawned. -/
def c9Report : UnitReport :=
  { position := ⟨0, ⟨1, 1⟩⟩
    combat := ⟨2, ⟨none, none⟩⟩
    name := none
    stats := none
    health := none
    items := none
    bump := ⟨EventType.Bump, none, []⟩
    shoot := ⟨EventType.Shot, none, []⟩ }

/-- Witness for C9 on a concrete sleeping monster with counter 3. -/
theorem c9_sleeping_schedule_witness :
    selectAction 1 BehaviorKind.MeleeBehavior c9Report c9Report
      (AIState.Sleeping 3) (GameMap.createEmpty 4 4) (fun _ => false)
      c9SleepECS = some ([AIAction.Sleep], BehaviorKind.MeleeBehavior) ∧
    sleep ⟨0, ⟨1, 1⟩⟩ c9SleepECS =
      some [Delta.Change (Component.Turn ⟨1, ⟨BehaviorKind.MeleeBehavior,
        AIState.Sleeping 2, false⟩⟩)] := by
  have hnone : c9SleepECS.getComponentFromEntityId c9SleepECS.getPlayerId
      ComponentType.DurationEffect = none := by decide
  have h := c9_sleeping_schedule 0 BehaviorKind.MeleeBehavior c9Report
    c9Report 3 (GameMap.createEmpty 4 4) (fun _ => false) c9SleepECS
    (fun d hd => absurd (hnone ▸ hd) (by simp))
    (fun hb => absurd hb (by decide))
  refine ⟨?_, ?_⟩
  · have h1 := h.1
    simpa using h1
  · have h2 := (h.2.1 ⟨0, ⟨1, 1⟩⟩ 0
      ⟨1, ⟨BehaviorKind.MeleeBehavior, AIState.Sleeping 3, false⟩⟩
      (by decide) (by decide) rfl).1
    simpa using h2

/-! ## C10: line_of_sight on equal coordinates -/

/-- C10: for every pair of equal coordinates, `linetrace` returns the
single-point line `[origin]`, so `line_of_sight` slices
`full_line[1..0]` — an inverted range — and panics (`none`); the call is
reachable from `shoot_command`, which computes the line of sight before its
`distance < 1.3` minimum-distance guard, so a shot at a blocking target on
the player's own tile panics instead of reporting `TooClose` even though
the squared distance 0 is below the threshold. -/
theorem c10_los_self_panics (fuel : Nat) (o : Coordinate) (map : GameMap)
    (losEnt : Coordinate → Bool) (report : UnitReport) (target : Nat)
    (attack : AttackReport) (range : Nat)
    (hpos : report.position.data = o)
    (hattack : report.shoot.attack = some attack)
    (hrange : attack.range = some range) :
    linetrace (fuel + 1) o o = some [o] ∧
    lineOfSight (fuel + 1) o o map losEnt = none ∧
    Coordinate.distSq o o < 2 ∧
    shootCommand (fuel + 1) (some report) (some target) o map losEnt =
      none := by
  have hl : linetrace (fuel + 1) o o = some [o] := by
    simp [linetrace, linetraceLoop]
  have hlos : lineOfSight (fuel + 1) o o map losEnt = none := by
    simp [lineOfSight, hl]
  refine ⟨hl, hlos, ?_, ?_⟩
  · simp [Coordinate.distSq]
  · simp only [shootCommand, hattack, hrange, hpos, hlos]

/-- A concrete shooter report: position `(3,3)`, a ranged attack of
range 4. -/
def c10Report : UnitReport :=
  { position := ⟨0, ⟨3, 3⟩⟩
    combat := ⟨1, ⟨none, none⟩⟩
    name := none
    stats := none
    health := none
    items := none
    bump := ⟨EventType.Bump, none, []⟩
    shoot := ⟨EventType.Shot,
      some ⟨5, DamageType.Phsycial, "The arrow hits.", some 4⟩, []⟩ }

/-- Witness for C10 on a concrete self-targeted shot. -/
theorem c10_los_self_panics_witness :
    linetrace 1 (⟨3, 3⟩ : Coordinate) ⟨3, 3⟩ = some [⟨3, 3⟩] ∧
    lineOfSight 1 (⟨3, 3⟩ : Coordinate) ⟨3, 3⟩ (GameMap.createEmpty 4 4)
      (fun _ => false) = none ∧
    Coordinate.distSq ⟨3, 3⟩ ⟨3, 3⟩ < 2 ∧
    shootCommand 1 (some c10Report) (some 7) ⟨3, 3⟩
      (GameMap.createEmpty 4 4) (fun _ => false) = none :=
  c10_los_self_panics 0 ⟨3, 3⟩ (GameMap.createEmpty 4 4) (fun _ => false)
    c10Report 7 ⟨5, DamageType.Phsycial, "The arrow hits.", some 4⟩ 4
    rfl rfl rfl

end RustGame
